import Mathlib

/-!
# TheRestOfYourLife: a shallow embedding of the ray tracer's intersection core

The C++ `double` is taken as an arbitrary linearly ordered field `K` (no NaN and no
infinities); every definition is computable once `K` is (for instance `K = ℚ`).  The
definitions come in two forms: with exact arithmetic, for the properties that depend on
order and structure only, and (names ending in `_rounded`) with the result of every
floating-point operation passed through a rounding function `fl`, for the properties that
depend on the computed values; `double_round` is the rounding of IEEE 754 binary64, and
the C++ `int` of `texture.h` wraps at 32 bits (`int32_wrap`).  Out-parameters of the C++
functions (`hit_record& rec`, `aabb& output_box`) are modelled as in/out
values: a function takes the caller's value and returns the updated one next to
its boolean result.  Calls that draw random numbers thread an explicit random
state `σ`.
-/

set_option autoImplicit false

namespace TheRestOfYourLife

/-! ## Geometry kernel -/

/-- Modelled from the spec: `vec3` (header `vec3.h` is not part of the sources), a
triple of components with componentwise arithmetic and a dot product. -/
structure vec3 (K : Type) where
  x : K
  y : K
  z : K

namespace vec3

variable {K : Type} [LinearOrderedField K]

/-- Modelled from the spec: component access `v[a]` / `v.e[a]` for an axis `a` in 0..2. -/
def e (v : vec3 K) (a : Nat) : K :=
  if a = 0 then v.x else if a = 1 then v.y else v.z

/-- Modelled from the spec: componentwise sum. -/
def add (u v : vec3 K) : vec3 K := ⟨u.x + v.x, u.y + v.y, u.z + v.z⟩

/-- Modelled from the spec: componentwise difference. -/
def sub (u v : vec3 K) : vec3 K := ⟨u.x - v.x, u.y - v.y, u.z - v.z⟩

/-- Modelled from the spec: unary minus. -/
def neg (v : vec3 K) : vec3 K := ⟨-v.x, -v.y, -v.z⟩

/-- Modelled from the spec: componentwise (Hadamard) product, used for colours. -/
def mul (u v : vec3 K) : vec3 K := ⟨u.x * v.x, u.y * v.y, u.z * v.z⟩

/-- Modelled from the spec: scalar multiple `t * v`. -/
def smul (t : K) (v : vec3 K) : vec3 K := ⟨t * v.x, t * v.y, t * v.z⟩

/-- Modelled from the spec: division by a scalar, `v / t`. -/
def sdiv (v : vec3 K) (t : K) : vec3 K := ⟨v.x / t, v.y / t, v.z / t⟩

/-- Modelled from the spec: dot product. -/
def dot (u v : vec3 K) : K := u.x * v.x + u.y * v.y + u.z * v.z

/-- Modelled from the spec: squared Euclidean length. -/
def length_squared (v : vec3 K) : K := v.x * v.x + v.y * v.y + v.z * v.z

end vec3

/-- Modelled from the spec: `ray` (header `ray.h` is not part of the sources): origin,
direction and a time value. -/
structure ray (K : Type) where
  origin : vec3 K
  direction : vec3 K
  time : K

/-- Modelled from the spec: the point `P(t) = origin + t * direction`. -/
def ray.at {K : Type} [LinearOrderedField K] (r : ray K) (t : K) : vec3 K :=
  vec3.add r.origin (vec3.smul t r.direction)

/-- The class `aabb` of `aabb.h`: a box given by its min and max corner. -/
structure aabb (K : Type) where
  _min : vec3 K
  _max : vec3 K

namespace aabb

variable {K : Type} [LinearOrderedField K]

/-- Accessor `aabb::min()`. -/
def min (b : aabb K) : vec3 K := b._min

/-- Accessor `aabb::max()`. -/
def max (b : aabb K) : vec3 K := b._max

/-- The value of `t0` in the body of the loop of `aabb::hit` for axis `a`, after the swap. -/
def t0 (b : aabb K) (r : ray K) (a : Nat) : K :=
  let invD := 1 / r.direction.e a
  let t0 := (b._min.e a - r.origin.e a) * invD
  let t1 := (b._max.e a - r.origin.e a) * invD
  if invD < 0 then t1 else t0

/-- The value of `t1` in the body of the loop of `aabb::hit` for axis `a`, after the swap. -/
def t1 (b : aabb K) (r : ray K) (a : Nat) : K :=
  let invD := 1 / r.direction.e a
  let t0 := (b._min.e a - r.origin.e a) * invD
  let t1 := (b._max.e a - r.origin.e a) * invD
  if invD < 0 then t0 else t1

/-- The loop `for (int a = 0; a < 3; ++a)` of `aabb::hit`, with `n` iterations left,
the current axis `a` and the running interval `tmin`, `tmax`. -/
def hit_loop (b : aabb K) (r : ray K) : Nat → Nat → K → K → Bool
  | 0, _, _, _ => true
  | n + 1, a, tmin, tmax =>
    let t0 := b.t0 r a
    let t1 := b.t1 r a
    let tmin := if t0 > tmin then t0 else tmin
    let tmax := if t1 < tmax then t1 else tmax
    if tmax ≤ tmin then false else hit_loop b r n (a + 1) tmin tmax

/-- The method `aabb::hit` (ray-slab intersection). -/
def hit (b : aabb K) (r : ray K) (tmin tmax : K) : Bool :=
  hit_loop b r 3 0 tmin tmax

/-- Box `A` contains box `B`: on every axis `A.min ≤ B.min` and `B.max ≤ A.max`. -/
def contains (A B : aabb K) : Prop :=
  (A._min.x ≤ B._min.x ∧ A._min.y ≤ B._min.y ∧ A._min.z ≤ B._min.z) ∧
  (B._max.x ≤ A._max.x ∧ B._max.y ≤ A._max.y ∧ B._max.z ≤ A._max.z)

end aabb

/-- The function `surrounding_box` of `aabb.h`. -/
def surrounding_box {K : Type} [LinearOrderedField K] (box0 box1 : aabb K) : aabb K :=
  let small : vec3 K :=
    ⟨min box0.min.x box1.min.x, min box0.min.y box1.min.y, min box0.min.z box1.min.z⟩
  let big : vec3 K :=
    ⟨max box0.max.x box1.max.x, max box0.max.y box1.max.y, max box0.max.z box1.max.z⟩
  ⟨small, big⟩

/-! ## Textures, materials and hit records -/

/-- The abstract class `texture` of `texture.h`: its single virtual method `value(u, v, p)`. -/
structure texture (K : Type) where
  value : K → K → vec3 K → vec3 K

/-- The class `constant_texture`: `value` returns the stored colour. -/
def constant_texture {K : Type} (color : vec3 K) : texture K :=
  ⟨fun _ _ _ => color⟩

/-- The five material classes of `material.h`, with their data members. -/
inductive material (K : Type) where
  | lambertian (albedo : texture K)
  | metal (albedo : vec3 K) (fuzz : K)
  | dielectric (ref_idx : K)
  | diffuse_light (emit : texture K)
  | isotropic (albedo : texture K)

/-- The struct `hit_record` of `hittable.h`. -/
structure hit_record (K : Type) where
  p : vec3 K
  normal : vec3 K
  mat_ptr : material K
  t : K
  u : K
  v : K
  front_face : Bool

/-- The abstract class `hittable` of `hittable.h`: its two virtual methods.  `hit` takes the
caller's record and the random state and returns the result with the updated record and
state; `bounding_box` takes the caller's `output_box` and returns the result with the
updated box. -/
structure hittable (K σ : Type) where
  hit : ray K → K → K → hit_record K → σ → Bool × hit_record K × σ
  bounding_box : K → K → aabb K → Bool × aabb K

/-- What the sources use and do not define: functions of the C++ standard library, the
constants and random utilities of `rtweekend.h`, the vector helpers of `vec3.h`, and the
indeterminate values of default-initialised locals. -/
structure Env (K σ : Type) where
  sqrt : K → K
  sin : K → K
  cos : K → K
  log : K → K
  atan2 : K → K → K
  asin : K → K
  pi : K
  infinity : K
  epsilon : K
  random_double : σ → K × σ
  random_int : Int → Int → σ → Int × σ
  random_in_unit_sphere : σ → vec3 K × σ
  unit_vector : vec3 K → vec3 K
  reflect : vec3 K → vec3 K → vec3 K
  refract : vec3 K → vec3 K → K → vec3 K
  ray_default_time : K
  sort : (hittable K σ → hittable K σ → Bool) → List (hittable K σ) → List (hittable K σ)
  uninit_rec : hit_record K
  uninit_box : aabb K
  uninit_ray : ray K
  uninit_vec3 : vec3 K

section core

variable {K σ : Type} [LinearOrderedField K]

/-- Modelled from the spec: the constant `Color::black` (not part of the sources), the
colour with no light in any channel. -/
def Color.black : vec3 K := ⟨0, 0, 0⟩

/-- The method `hit_record::set_face_normal`. -/
def hit_record.set_face_normal (rec : hit_record K) (r : ray K) (outward_normal : vec3 K) :
    hit_record K :=
  let front_face : Bool := decide (vec3.dot r.direction outward_normal < 0)
  { rec with
    front_face := front_face
    normal := if front_face then outward_normal else outward_normal.neg }

/-- The function `get_sphere_uv` of `hittable.h`; returns the pair `(u, v)`. -/
def get_sphere_uv (E : Env K σ) (p : vec3 K) : K × K :=
  let phi := E.atan2 p.z p.x
  let theta := E.asin p.y
  (1 - (phi + E.pi) / (2 * E.pi), (theta + E.pi / 2) / E.pi)

/-- The function `schlick` of `material.h` (`pow(x, 5)` is the fifth power). -/
def schlick (cosine ref_idx : K) : K :=
  let r0 := (1 - ref_idx) / (1 + ref_idx)
  let r0 := r0 * r0
  r0 + (1 - r0) * (1 - cosine) ^ 5

/-- The constructor `metal(a, f)`: the fuzz is capped at 1. -/
def material.mk_metal (a : vec3 K) (f : K) : material K :=
  material.metal a (if f < 1 then f else 1)

/-- The virtual method `material::emitted`: black, except for `diffuse_light`. -/
def material.emitted : material K → K → K → vec3 K → vec3 K
  | material.diffuse_light emit, u, v, p => emit.value u v p
  | _, _, _, _ => Color.black

/-- The result of `material::scatter`: the boolean, the two out-parameters and the random
state. -/
structure scatter_result (K σ : Type) where
  ok : Bool
  attenuation : vec3 K
  scattered : ray K
  state : σ

/-- The virtual method `material::scatter` of the five material classes;
`attenuation` and `scattered` are the caller's values of the two out-parameters. -/
def material.scatter (E : Env K σ) (m : material K) (r_in : ray K) (rec : hit_record K)
    (attenuation : vec3 K) (scattered : ray K) (s : σ) : scatter_result K σ :=
  match m with
  | material.lambertian albedo =>
    let rnd := E.random_in_unit_sphere s
    let target := (rec.p.add rec.normal).add rnd.1
    ⟨true, albedo.value rec.u rec.v rec.p, ⟨rec.p, target.sub rec.p, r_in.time⟩, rnd.2⟩
  | material.metal albedo fuzz =>
    let reflected := E.reflect (E.unit_vector r_in.direction) rec.normal
    let rnd := E.random_in_unit_sphere s
    let scattered : ray K := ⟨rec.p, reflected.add (vec3.smul fuzz rnd.1), E.ray_default_time⟩
    ⟨decide (vec3.dot scattered.direction rec.normal > 0), albedo, scattered, rnd.2⟩
  | material.dielectric ref_idx =>
    let attenuation : vec3 K := ⟨1, 1, 1⟩
    let etai_over_etat := if rec.front_face then 1 / ref_idx else ref_idx
    let unit_direction := E.unit_vector r_in.direction
    let cos_theta := min (vec3.dot unit_direction.neg rec.normal) 1
    let sin_theta := E.sqrt (1 - cos_theta * cos_theta)
    if etai_over_etat * sin_theta > 1 then
      ⟨true, attenuation, ⟨rec.p, E.reflect unit_direction rec.normal, E.ray_default_time⟩, s⟩
    else
      let reflect_prob := schlick cos_theta etai_over_etat
      let rnd := E.random_double s
      if rnd.1 < reflect_prob then
        ⟨true, attenuation, ⟨rec.p, E.reflect unit_direction rec.normal, E.ray_default_time⟩,
          rnd.2⟩
      else
        ⟨true, attenuation,
          ⟨rec.p, E.refract unit_direction rec.normal etai_over_etat, E.ray_default_time⟩,
          rnd.2⟩
  | material.diffuse_light _ => ⟨false, attenuation, scattered, s⟩
  | material.isotropic albedo =>
    let rnd := E.random_in_unit_sphere s
    ⟨true, albedo.value rec.u rec.v rec.p, ⟨rec.p, rnd.1, r_in.time⟩, rnd.2⟩

/-! ## Sphere -/

/-- The data members of the class `sphere` of `sphere.h`. -/
structure sphere (K : Type) where
  center : vec3 K
  radius : K
  mat_ptr : material K

/-- The local `discriminant` of `sphere::hit`, namely `half_b * half_b - a * c`. -/
def sphere.discriminant (s : sphere K) (r : ray K) : K :=
  let oc := r.origin.sub s.center
  let a := r.direction.length_squared
  let half_b := vec3.dot oc r.direction
  let c := oc.length_squared - s.radius * s.radius
  half_b * half_b - a * c

/-- The quadratic that `sphere::hit` solves, `|O + t D - C|^2 - r^2` as a function of `t`. -/
def sphere.quadratic (s : sphere K) (r : ray K) (t : K) : K :=
  ((r.at t).sub s.center).length_squared - s.radius * s.radius

/-- The value of `temp` in the first test of `sphere::hit`: `(-half_b - root) / a`. -/
def sphere.temp_lo (E : Env K σ) (s : sphere K) (r : ray K) : K :=
  (-(vec3.dot (r.origin.sub s.center) r.direction) - E.sqrt (s.discriminant r))
    / r.direction.length_squared

/-- The value of `temp` in the second test of `sphere::hit`: `(-half_b + root) / a`. -/
def sphere.temp_hi (E : Env K σ) (s : sphere K) (r : ray K) : K :=
  (-(vec3.dot (r.origin.sub s.center) r.direction) + E.sqrt (s.discriminant r))
    / r.direction.length_squared

/-- The library `sqrt` is exact at `d`: it returns the non-negative square root. -/
def Env.sqrt_exact_at (E : Env K σ) (d : K) : Prop :=
  0 ≤ E.sqrt d ∧ E.sqrt d * E.sqrt d = d

/-- The block of `sphere::hit` that fills the record once a root `temp` is accepted (the
source has the same block for both roots). -/
def sphere.fill (E : Env K σ) (s : sphere K) (r : ray K) (temp : K) (rec : hit_record K) :
    hit_record K :=
  let rec1 := { rec with t := temp }
  let rec2 := { rec1 with p := r.at rec1.t }
  let outward_normal := (rec2.p.sub s.center).sdiv s.radius
  let rec3 := rec2.set_face_normal r outward_normal
  let rec4 := { rec3 with mat_ptr := s.mat_ptr }
  let uv := get_sphere_uv E ((rec4.p.sub s.center).sdiv s.radius)
  { rec4 with u := uv.1, v := uv.2 }

/-- The method `sphere::hit`. -/
def sphere.hit (E : Env K σ) (s : sphere K) (r : ray K) (t_min t_max : K)
    (rec : hit_record K) : Bool × hit_record K :=
  let oc := r.origin.sub s.center
  let a := r.direction.length_squared
  let half_b := vec3.dot oc r.direction
  let c := oc.length_squared - s.radius * s.radius
  let discriminant := half_b * half_b - a * c
  if discriminant > 0 then
    let root := E.sqrt discriminant
    let temp := (-half_b - root) / a
    if temp < t_max ∧ temp > t_min then
      (true, s.fill E r temp rec)
    else
      let temp := (-half_b + root) / a
      if temp < t_max ∧ temp > t_min then
        (true, s.fill E r temp rec)
      else
        (false, rec)
  else
    (false, rec)

/-- The method `sphere::bounding_box`. -/
def sphere.bounding_box (s : sphere K) (_time0 _time1 : K) (_output_box : aabb K) :
    Bool × aabb K :=
  (true, ⟨s.center.sub ⟨s.radius, s.radius, s.radius⟩,
          s.center.add ⟨s.radius, s.radius, s.radius⟩⟩)

/-- A `sphere` seen through the `hittable` interface (virtual dispatch). -/
def sphere.toHittable (E : Env K σ) (s : sphere K) : hittable K σ where
  hit := fun r t_min t_max rec st =>
    ((s.hit E r t_min t_max rec).1, (s.hit E r t_min t_max rec).2, st)
  bounding_box := fun time0 time1 output_box => s.bounding_box time0 time1 output_box

/-! ## hittable_list -/

/-- The range-for loop of `hittable_list::hit` over the remaining objects, with the current
values of the locals `temp_rec`, `hit_anything`, `closest_so_far` and of `rec`. -/
def hittable_list.hit_loop (r : ray K) (t_min : K) :
    List (hittable K σ) → hit_record K → Bool → K → hit_record K → σ →
      Bool × hit_record K × σ
  | [], _, hit_anything, _, rec, s => (hit_anything, rec, s)
  | object :: rest, temp_rec, hit_anything, closest_so_far, rec, s =>
    let res := object.hit r t_min closest_so_far temp_rec s
    if res.1 then
      hittable_list.hit_loop r t_min rest res.2.1 true res.2.1.t res.2.1 res.2.2
    else
      hittable_list.hit_loop r t_min rest res.2.1 hit_anything closest_so_far rec res.2.2

/-- The method `hittable_list::hit` on the member `objects`. -/
def hittable_list.hit (E : Env K σ) (objects : List (hittable K σ)) (r : ray K)
    (t_min t_max : K) (rec : hit_record K) (s : σ) : Bool × hit_record K × σ :=
  hittable_list.hit_loop r t_min objects E.uninit_rec false t_max rec s

/-- The range-for loop of `hittable_list::bounding_box` over the remaining objects, with
the current values of `temp_box` and `output_box`. -/
def hittable_list.bounding_box_loop (time0 time1 : K) :
    List (hittable K σ) → aabb K → aabb K → Bool × aabb K
  | [], _, output_box => (true, output_box)
  | object :: rest, temp_box, output_box =>
    let res := object.bounding_box time0 time1 temp_box
    if !res.1 then (false, output_box)
    else hittable_list.bounding_box_loop time0 time1 rest res.2 (surrounding_box output_box res.2)

/-- The method `hittable_list::bounding_box` on the member `objects`. -/
def hittable_list.bounding_box (E : Env K σ) (objects : List (hittable K σ))
    (time0 time1 : K) (output_box : aabb K) : Bool × aabb K :=
  match objects with
  | [] => (false, output_box)
  | first :: _ =>
    let res := first.bounding_box time0 time1 E.uninit_box
    if !res.1 then (false, output_box)
    else hittable_list.bounding_box_loop time0 time1 objects res.2 res.2

/-- A `hittable_list` seen through the `hittable` interface. -/
def hittable_list.toHittable (E : Env K σ) (objects : List (hittable K σ)) : hittable K σ where
  hit := fun r t_min t_max rec st => hittable_list.hit E objects r t_min t_max rec st
  bounding_box := fun time0 time1 output_box =>
    hittable_list.bounding_box E objects time0 time1 output_box

/-! ## Bounding volume hierarchy -/

/-- What a child pointer of a `bvh_node` points to: a `bvh_node` with its two children and
its cached `box` (`node`), or any other hittable (`leaf`).  The tree that a `bvh_node`
constructor builds is always a `node`. -/
inductive bvh (K σ : Type) where
  | leaf (object : hittable K σ)
  | node (left right : bvh K σ) (box : aabb K)

/-- Virtual `bounding_box` on a child pointer: `bvh_node::bounding_box` returns the cached
box, any other object answers for itself. -/
def bvh.bounding_box : bvh K σ → K → K → aabb K → Bool × aabb K
  | bvh.leaf object, time0, time1, output_box => object.bounding_box time0 time1 output_box
  | bvh.node _ _ box, _, _, _ => (true, box)

/-- Virtual `hit` on a child pointer: `bvh_node::hit` on a node, the object's own `hit`
otherwise. -/
def bvh.hit : bvh K σ → ray K → K → K → hit_record K → σ → Bool × hit_record K × σ
  | bvh.leaf object, r, tmin, tmax, rec, s => object.hit r tmin tmax rec s
  | bvh.node left right box, r, tmin, tmax, rec, s =>
    if !box.hit r tmin tmax then (false, rec, s)
    else
      let l := bvh.hit left r tmin tmax rec s
      let hit_left := l.1
      let rr := bvh.hit right r tmin (if hit_left then l.2.1.t else tmax) l.2.1 l.2.2
      let hit_right := rr.1
      (hit_left || hit_right, rr.2.1, rr.2.2)

/-- A tree seen through the `hittable` interface. -/
def bvh.toHittable (t : bvh K σ) : hittable K σ where
  hit := fun r tmin tmax rec st => t.hit r tmin tmax rec st
  bounding_box := fun time0 time1 output_box => t.bounding_box time0 time1 output_box

/-- The function `box_compare` of `bvh.h` (the message on `std::cerr` is not modelled; the
`||` does not evaluate `b->bounding_box` when `a->bounding_box` fails). -/
def box_compare (E : Env K σ) (a b : hittable K σ) (axis : Nat) : Bool :=
  let ra := a.bounding_box 0 0 E.uninit_box
  let box_a := ra.2
  let box_b := if ra.1 then (b.bounding_box 0 0 E.uninit_box).2 else E.uninit_box
  decide (box_a.min.e axis < box_b.min.e axis)

/-- The function `box_x_compare`. -/
def box_x_compare (E : Env K σ) (a b : hittable K σ) : Bool := box_compare E a b 0

/-- The function `box_y_compare`. -/
def box_y_compare (E : Env K σ) (a b : hittable K σ) : Bool := box_compare E a b 1

/-- The function `box_z_compare`. -/
def box_z_compare (E : Env K σ) (a b : hittable K σ) : Bool := box_compare E a b 2

/-- The call `std::sort(objects.begin() + start, objects.begin() + end, comparator)`: the
range `[start, end)` is replaced by its sorted version, the rest is untouched. -/
def sort_range (E : Env K σ) (comparator : hittable K σ → hittable K σ → Bool)
    (objects : List (hittable K σ)) (start end_ : Nat) : List (hittable K σ) :=
  objects.take start ++ E.sort comparator ((objects.take end_).drop start) ++ objects.drop end_

/-- The tail of the `bvh_node` constructor: the boxes of the two children and their
`surrounding_box` (a failing `bounding_box` only prints a message and leaves the local box
as it was). -/
def bvh_node.make (E : Env K σ) (left right : bvh K σ) (time0 time1 : K) : bvh K σ :=
  let l := left.bounding_box time0 time1 E.uninit_box
  let box_left := l.2
  let box_right := if l.1 then (right.bounding_box time0 time1 E.uninit_box).2 else E.uninit_box
  bvh.node left right (surrounding_box box_left box_right)

/-- The constructor `bvh_node(objects, start, end, time0, time1)`.  The recursion of the
source is not structural, so it is run with `fuel` (the number of nested constructor calls
allowed); the result is the node, the vector `objects` as the calls to `std::sort` left it,
and the random state.  `none` stands for running out of fuel or for indexing `objects`
outside its size.  The `size_t` difference `end - start` is the difference of natural
numbers: every range that the public constructor and the recursion pass has
`start ≤ end`. -/
def bvh_node.build (E : Env K σ) :
    Nat → List (hittable K σ) → Nat → Nat → K → K → σ →
      Option (bvh K σ × List (hittable K σ) × σ)
  | 0, _, _, _, _, _, _ => none
  | fuel + 1, objects, start, end_, time0, time1, s =>
    let ax := E.random_int 0 2 s
    let axis := ax.1
    let comparator : hittable K σ → hittable K σ → Bool :=
      if axis = 0 then box_x_compare E
      else if axis = 1 then box_y_compare E
      else box_z_compare E
    let object_span := end_ - start
    if object_span = 1 then
      match objects.get? start with
      | some o => some (bvh_node.make E (bvh.leaf o) (bvh.leaf o) time0 time1, objects, ax.2)
      | none => none
    else if object_span = 2 then
      match objects.get? start, objects.get? (start + 1) with
      | some o0, some o1 =>
        if comparator o0 o1 then
          some (bvh_node.make E (bvh.leaf o0) (bvh.leaf o1) time0 time1, objects, ax.2)
        else
          some (bvh_node.make E (bvh.leaf o1) (bvh.leaf o0) time0 time1, objects, ax.2)
      | _, _ => none
    else
      let objects1 := sort_range E comparator objects start end_
      let mid := start + object_span / 2
      match bvh_node.build E fuel objects1 start mid time0 time1 ax.2 with
      | none => none
      | some (left, objects2, s2) =>
        match bvh_node.build E fuel objects2 mid end_ time0 time1 s2 with
        | none => none
        | some (right, objects3, s3) =>
          some (bvh_node.make E left right time0 time1, objects3, s3)

/-- The constructor `bvh_node(list, time0, time1)`, which delegates to the range
constructor with the whole vector. -/
def bvh_node.of_list (E : Env K σ) (fuel : Nat) (objects : List (hittable K σ))
    (time0 time1 : K) (s : σ) : Option (bvh K σ × List (hittable K σ) × σ) :=
  bvh_node.build E fuel objects 0 objects.length time0 time1 s

/-! ## The integrator -/

/-- The function `ray_color` of `main.cpp`; it returns the colour and the random state.  The
recursion is on `depth`, which decreases while positive. -/
def ray_color (E : Env K σ) (r : ray K) (background : vec3 K) (world : hittable K σ)
    (depth : Int) (s : σ) : vec3 K × σ :=
  if depth ≤ 0 then (Color.black, s)
  else
    let h := world.hit r E.epsilon E.infinity E.uninit_rec s
    if !h.1 then (background, h.2.2)
    else
      let rec_ := h.2.1
      let emitted := rec_.mat_ptr.emitted rec_.u rec_.v rec_.p
      let sc := rec_.mat_ptr.scatter E r rec_ E.uninit_vec3 E.uninit_ray h.2.2
      if !sc.ok then (emitted, sc.state)
      else
        let rc := ray_color E sc.scattered background world (depth - 1) sc.state
        (emitted.add (sc.attenuation.mul rc.1), rc.2)
termination_by depth.toNat
decreasing_by omega

/-- The function `ray_color` run with `fuel`: the number of nested calls allowed, the
outermost one included.  `none` stands for running out of fuel. -/
def ray_color_fuel (E : Env K σ) :
    Nat → ray K → vec3 K → hittable K σ → Int → σ → Option (vec3 K × σ)
  | 0, _, _, _, _, _ => none
  | fuel + 1, r, background, world, depth, s =>
    if depth ≤ 0 then some (Color.black, s)
    else
      let h := world.hit r E.epsilon E.infinity E.uninit_rec s
      if !h.1 then some (background, h.2.2)
      else
        let rec_ := h.2.1
        let emitted := rec_.mat_ptr.emitted rec_.u rec_.v rec_.p
        let sc := rec_.mat_ptr.scatter E r rec_ E.uninit_vec3 E.uninit_ray h.2.2
        if !sc.ok then some (emitted, sc.state)
        else
          match ray_color_fuel E fuel sc.scattered background world (depth - 1) sc.state with
          | none => none
          | some rc => some (emitted.add (sc.attenuation.mul rc.1), rc.2)

end core

/-- The answer of `bounding_box` does not depend on the value the caller's `output_box` had
before the call: the same boolean, and on success the same box.  (No `bounding_box` of the
sources reads its out-parameter.) -/
def hittable.box_independent {K σ : Type} (h : hittable K σ) : Prop :=
  ∀ (time0 time1 : K) (b b0 : aabb K),
    (h.bounding_box time0 time1 b).1 = (h.bounding_box time0 time1 b0).1 ∧
    ((h.bounding_box time0 time1 b).1 = true →
      (h.bounding_box time0 time1 b).2 = (h.bounding_box time0 time1 b0).2)

section integrator_names

variable {K σ : Type} [LinearOrderedField K]

/-- The call `world.hit(r, epsilon, infinity, rec)` of `ray_color`: result, record, state. -/
def ray_color.world_hit (E : Env K σ) (r : ray K) (world : hittable K σ) (s : σ) :
    Bool × hit_record K × σ :=
  world.hit r E.epsilon E.infinity E.uninit_rec s

/-- The local `emitted` of `ray_color`: `rec.mat_ptr->emitted(rec.u, rec.v, rec.p)`. -/
def ray_color.emitted (E : Env K σ) (r : ray K) (world : hittable K σ) (s : σ) : vec3 K :=
  (ray_color.world_hit E r world s).2.1.mat_ptr.emitted
    (ray_color.world_hit E r world s).2.1.u
    (ray_color.world_hit E r world s).2.1.v
    (ray_color.world_hit E r world s).2.1.p

/-- The call `rec.mat_ptr->scatter(r, rec, attenuation, scattered)` of `ray_color`. -/
def ray_color.scatter (E : Env K σ) (r : ray K) (world : hittable K σ) (s : σ) :
    scatter_result K σ :=
  (ray_color.world_hit E r world s).2.1.mat_ptr.scatter E r
    (ray_color.world_hit E r world s).2.1 E.uninit_vec3 E.uninit_ray
    (ray_color.world_hit E r world s).2.2

end integrator_names

section bvh_names

variable {K σ : Type} [LinearOrderedField K]

/-- The objects at the leaves of a tree, left to right (an object that is both children of
a node is listed twice). -/
def bvh.leaves : bvh K σ → List (hittable K σ)
  | bvh.leaf object => [object]
  | bvh.node left right _ => left.leaves ++ right.leaves

/-- Every node's cached box contains the box of every object below it (boxes taken for
`(time0, time1)`, with `b0` the value handed to the objects' `bounding_box`). -/
def bvh.well_boxed (time0 time1 : K) (b0 : aabb K) : bvh K σ → Prop
  | bvh.leaf _ => True
  | bvh.node left right box =>
    bvh.well_boxed time0 time1 b0 left ∧ bvh.well_boxed time0 time1 b0 right ∧
    ∀ o ∈ left.leaves ++ right.leaves, box.contains (o.bounding_box time0 time1 b0).2

/-- Object `o` is at one of the positions `a ≤ i < b` of the vector `l`. -/
def in_range (l : List (hittable K σ)) (a b : Nat) (o : hittable K σ) : Prop :=
  ∃ i, a ≤ i ∧ i < b ∧ l.get? i = some o

/-- Every box that contains the object's bounding box is hit by the ray over `(tmin, c)`
whenever the object's hit over `(tmin, tmax)` has `t < c`. -/
def hittable.box_sound (o : hittable K σ) (r : ray K) (tmin tmax : K) (rec0 : hit_record K)
    (st : σ) (time0 time1 : K) (b0 : aabb K) : Prop :=
  ∀ (B : aabb K) (c : K), B.contains (o.bounding_box time0 time1 b0).2 →
    (o.hit r tmin tmax rec0 st).1 = true → (o.hit r tmin tmax rec0 st).2.1.t < c →
    B.hit r tmin c = true

/-- The balls of two spheres share no point, not even on their surfaces: the distance of
the centres exceeds the sum of the radii (stated on squares). -/
def sphere.disjoint (a b : sphere K) : Prop :=
  (a.radius + b.radius) ^ 2 < (a.center.sub b.center).length_squared

end bvh_names

section bvh_names_covered

variable {K σ : Type} [LinearOrderedField K]

/-- A child pointer reports a box, that box contains the box of every object below it, and
the tree below is well boxed. -/
def bvh.covered (time0 time1 : K) (b0 : aabb K) (tree : bvh K σ) : Prop :=
  (tree.bounding_box time0 time1 b0).1 = true ∧ tree.well_boxed time0 time1 b0 ∧
  ∀ o ∈ tree.leaves,
    (tree.bounding_box time0 time1 b0).2.contains (o.bounding_box time0 time1 b0).2

end bvh_names_covered

section decorators

variable {K σ : Type} [LinearOrderedField K]

/-! ## Decorators of `hittable.h` -/

/-- The method `flip_face::hit` on the member `ptr`. -/
def flip_face.hit (ptr : hittable K σ) (r : ray K) (t_min t_max : K) (rec : hit_record K)
    (st : σ) : Bool × hit_record K × σ :=
  let res := ptr.hit r t_min t_max rec st
  if !res.1 then (false, res.2.1, res.2.2)
  else (true, { res.2.1 with front_face := !res.2.1.front_face }, res.2.2)

/-- The method `flip_face::bounding_box`. -/
def flip_face.bounding_box (ptr : hittable K σ) (t0 t1 : K) (output_box : aabb K) :
    Bool × aabb K :=
  ptr.bounding_box t0 t1 output_box

/-- A `flip_face` seen through the `hittable` interface. -/
def flip_face.toHittable (ptr : hittable K σ) : hittable K σ where
  hit := fun r t_min t_max rec st => flip_face.hit ptr r t_min t_max rec st
  bounding_box := fun t0 t1 output_box => flip_face.bounding_box ptr t0 t1 output_box

/-- The local `moved_r` of `translate::hit`. -/
def translate.moved_r (offset : vec3 K) (r : ray K) : ray K :=
  ⟨r.origin.sub offset, r.direction, r.time⟩

/-- The method `translate::hit` on the members `ptr` and `offset`. -/
def translate.hit (ptr : hittable K σ) (offset : vec3 K) (r : ray K) (t_min t_max : K)
    (rec : hit_record K) (st : σ) : Bool × hit_record K × σ :=
  let moved_r := translate.moved_r offset r
  let res := ptr.hit moved_r t_min t_max rec st
  if !res.1 then (false, res.2.1, res.2.2)
  else
    let rec1 := { res.2.1 with p := res.2.1.p.add offset }
    let rec2 := rec1.set_face_normal moved_r rec1.normal
    (true, rec2, res.2.2)

/-- The method `translate::bounding_box`. -/
def translate.bounding_box (ptr : hittable K σ) (offset : vec3 K) (time0 time1 : K)
    (output_box : aabb K) : Bool × aabb K :=
  let res := ptr.bounding_box time0 time1 output_box
  if !res.1 then (false, res.2)
  else (true, ⟨res.2.min.add offset, res.2.max.add offset⟩)

/-- A `translate` seen through the `hittable` interface. -/
def translate.toHittable (ptr : hittable K σ) (offset : vec3 K) : hittable K σ where
  hit := fun r t_min t_max rec st => translate.hit ptr offset r t_min t_max rec st
  bounding_box := fun time0 time1 output_box =>
    translate.bounding_box ptr offset time0 time1 output_box

/-- The data members of the class `rotate_y`. -/
structure rotate_y (K σ : Type) where
  ptr : hittable K σ
  sin_theta : K
  cos_theta : K
  hasBox : Bool
  bbox : aabb K

/-- The corner `(x, y, z)` of `bbox` that the loops of the `rotate_y` constructor visit for
the indices `i`, `j`, `k` in `{0, 1}`. -/
def rotate_y.corner (bbox : aabb K) (i j k : Nat) : vec3 K :=
  ⟨(i : K) * bbox.max.x + (1 - (i : K)) * bbox.min.x,
   (j : K) * bbox.max.y + (1 - (j : K)) * bbox.min.y,
   (k : K) * bbox.max.z + (1 - (k : K)) * bbox.min.z⟩

/-- The local `tester` of the `rotate_y` constructor: the corner turned about the y axis. -/
def rotate_y.tester (sin_theta cos_theta : K) (p : vec3 K) : vec3 K :=
  ⟨cos_theta * p.x + sin_theta * p.z, p.y, -sin_theta * p.x + cos_theta * p.z⟩

/-- The innermost loop `for (int c = 0; c < 3; ++c)` of the `rotate_y` constructor: the
running `min` and `max` take in the components of `tester`. -/
def rotate_y.update (mm : vec3 K × vec3 K) (tester : vec3 K) : vec3 K × vec3 K :=
  (⟨min mm.1.x tester.x, min mm.1.y tester.y, min mm.1.z tester.z⟩,
   ⟨max mm.2.x tester.x, max mm.2.y tester.y, max mm.2.z tester.z⟩)

/-- The index triples `(i, j, k)` in the order of the three nested loops of the `rotate_y`
constructor. -/
def rotate_y.indices : List (Nat × Nat × Nat) :=
  [(0, 0, 0), (0, 0, 1), (0, 1, 0), (0, 1, 1), (1, 0, 0), (1, 0, 1), (1, 1, 0), (1, 1, 1)]

/-- The box that the `rotate_y` constructor computes from the child's box: the loops over
the eight corners, started with `min = (infinity, ...)` and `max = (-infinity, ...)`. -/
def rotate_y.rotated_box (E : Env K σ) (sin_theta cos_theta : K) (bbox : aabb K) : aabb K :=
  let start : vec3 K × vec3 K :=
    (⟨E.infinity, E.infinity, E.infinity⟩, ⟨-E.infinity, -E.infinity, -E.infinity⟩)
  let mm := rotate_y.indices.foldl
    (fun mm ijk =>
      rotate_y.update mm
        (rotate_y.tester sin_theta cos_theta (rotate_y.corner bbox ijk.1 ijk.2.1 ijk.2.2)))
    start
  ⟨mm.1, mm.2⟩

/-- The constructor `rotate_y(p, angle)`; `degrees_to_radians` (of `rtweekend.h`, not part
of the sources) is a parameter. -/
def rotate_y.construct (E : Env K σ) (degrees_to_radians : K → K) (p : hittable K σ)
    (angle : K) : rotate_y K σ :=
  let radians := degrees_to_radians angle
  let sin_theta := E.sin radians
  let cos_theta := E.cos radians
  let b := p.bounding_box 0 1 E.uninit_box
  ⟨p, sin_theta, cos_theta, b.1, rotate_y.rotated_box E sin_theta cos_theta b.2⟩

/-- The method `rotate_y::bounding_box`. -/
def rotate_y.bounding_box (o : rotate_y K σ) (_time0 _time1 : K) (_output_box : aabb K) :
    Bool × aabb K :=
  (o.hasBox, o.bbox)

/-- The local `rotated_r` of `rotate_y::hit`. -/
def rotate_y.rotated_r (o : rotate_y K σ) (r : ray K) : ray K :=
  ⟨⟨o.cos_theta * r.origin.x - o.sin_theta * r.origin.z, r.origin.y,
     o.sin_theta * r.origin.x + o.cos_theta * r.origin.z⟩,
   ⟨o.cos_theta * r.direction.x - o.sin_theta * r.direction.z, r.direction.y,
     o.sin_theta * r.direction.x + o.cos_theta * r.direction.z⟩,
   r.time⟩

/-- The method `rotate_y::hit`. -/
def rotate_y.hit (o : rotate_y K σ) (r : ray K) (t_min t_max : K) (rec : hit_record K)
    (st : σ) : Bool × hit_record K × σ :=
  let rotated_r := o.rotated_r r
  let res := o.ptr.hit rotated_r t_min t_max rec st
  if !res.1 then (false, res.2.1, res.2.2)
  else
    let p : vec3 K :=
      ⟨o.cos_theta * res.2.1.p.x + o.sin_theta * res.2.1.p.z, res.2.1.p.y,
       -o.sin_theta * res.2.1.p.x + o.cos_theta * res.2.1.p.z⟩
    let normal : vec3 K :=
      ⟨o.cos_theta * res.2.1.normal.x + o.sin_theta * res.2.1.normal.z, res.2.1.normal.y,
       -o.sin_theta * res.2.1.normal.x + o.cos_theta * res.2.1.normal.z⟩
    let rec1 := { res.2.1 with p := p }
    (true, rec1.set_face_normal rotated_r normal, res.2.2)

/-- A `rotate_y` seen through the `hittable` interface. -/
def rotate_y.toHittable (o : rotate_y K σ) : hittable K σ where
  hit := fun r t_min t_max rec st => o.hit r t_min t_max rec st
  bounding_box := fun time0 time1 output_box => o.bounding_box time0 time1 output_box

/-! ## moving_sphere -/

/-- The data members of the class `moving_sphere` of `moving_sphere.h`. -/
structure moving_sphere (K : Type) where
  center0 : vec3 K
  center1 : vec3 K
  time0 : K
  time1 : K
  radius : K
  mat_ptr : material K

/-- The method `moving_sphere::center`. -/
def moving_sphere.center (m : moving_sphere K) (time : K) : vec3 K :=
  m.center0.add (vec3.smul ((time - m.time0) / (m.time1 - m.time0)) (m.center1.sub m.center0))

/-- The block of `moving_sphere::hit` that fills the record once a root `temp` is accepted
(the source has the same block for both roots). -/
def moving_sphere.fill (E : Env K σ) (m : moving_sphere K) (r : ray K) (temp : K)
    (rec : hit_record K) : hit_record K :=
  let rec1 := { rec with t := temp }
  let rec2 := { rec1 with p := r.at rec1.t }
  let outward_normal := (rec2.p.sub (m.center r.time)).sdiv m.radius
  let rec3 := rec2.set_face_normal r outward_normal
  let rec4 := { rec3 with mat_ptr := m.mat_ptr }
  let uv := get_sphere_uv E ((rec4.p.sub (m.center r.time)).sdiv m.radius)
  { rec4 with u := uv.1, v := uv.2 }

/-- The method `moving_sphere::hit`. -/
def moving_sphere.hit (E : Env K σ) (m : moving_sphere K) (r : ray K) (t_min t_max : K)
    (rec : hit_record K) : Bool × hit_record K :=
  let oc := r.origin.sub (m.center r.time)
  let a := r.direction.length_squared
  let half_b := vec3.dot oc r.direction
  let c := oc.length_squared - m.radius * m.radius
  let discriminant := half_b * half_b - a * c
  if discriminant > 0 then
    let root := E.sqrt discriminant
    let temp := (-half_b - root) / a
    if temp < t_max ∧ temp > t_min then
      (true, m.fill E r temp rec)
    else
      let temp := (-half_b + root) / a
      if temp < t_max ∧ temp > t_min then
        (true, m.fill E r temp rec)
      else
        (false, rec)
  else
    (false, rec)

/-- The box `aabb(c - vec3(radius, radius, radius), c + vec3(radius, radius, radius))`. -/
def radius_box (c : vec3 K) (radius : K) : aabb K :=
  ⟨c.sub ⟨radius, radius, radius⟩, c.add ⟨radius, radius, radius⟩⟩

/-- The method `moving_sphere::bounding_box`. -/
def moving_sphere.bounding_box (m : moving_sphere K) (time0 time1 : K)
    (_output_box : aabb K) : Bool × aabb K :=
  let box0 := radius_box (m.center time0) m.radius
  let box1 := radius_box (m.center time1) m.radius
  (true, surrounding_box box0 box1)

/-- A `moving_sphere` seen through the `hittable` interface. -/
def moving_sphere.toHittable (E : Env K σ) (m : moving_sphere K) : hittable K σ where
  hit := fun r t_min t_max rec st =>
    ((m.hit E r t_min t_max rec).1, (m.hit E r t_min t_max rec).2, st)
  bounding_box := fun time0 time1 output_box => m.bounding_box time0 time1 output_box

/-! ## constant_medium -/

/-- Modelled from the spec: `vec3::length()` (header `vec3.h` is not part of the sources),
the square root of the squared length. -/
def vec3.length (E : Env K σ) (v : vec3 K) : K := E.sqrt v.length_squared

/-- The data members of the class `constant_medium` of `constant_medium.h`. -/
structure constant_medium (K σ : Type) where
  boundary : hittable K σ
  phase_function : material K
  neg_inv_density : K

/-- The constructor `constant_medium(b, d, a)`. -/
def constant_medium.construct (b : hittable K σ) (d : K) (a : texture K) :
    constant_medium K σ :=
  ⟨b, material.isotropic a, -1 / d⟩

/-- The first call of `constant_medium::hit`: `boundary->hit(r, -infinity, infinity, rec1)`. -/
def constant_medium.entry (E : Env K σ) (m : constant_medium K σ) (r : ray K) (st : σ) :
    Bool × hit_record K × σ :=
  m.boundary.hit r (-E.infinity) E.infinity E.uninit_rec st

/-- The second call of `constant_medium::hit`:
`boundary->hit(r, rec1.t + 0.0001, infinity, rec2)`. -/
def constant_medium.exit (E : Env K σ) (m : constant_medium K σ) (r : ray K) (st : σ) :
    Bool × hit_record K × σ :=
  m.boundary.hit r ((m.entry E r st).2.1.t + 1 / 10000) E.infinity E.uninit_rec
    (m.entry E r st).2.2

/-- The value of `rec1.t` after `if (rec1.t < t_min) rec1.t = t_min;`. -/
def constant_medium.t1_clipped (E : Env K σ) (m : constant_medium K σ) (r : ray K)
    (t_min : K) (st : σ) : K :=
  if (m.entry E r st).2.1.t < t_min then t_min else (m.entry E r st).2.1.t

/-- The value of `rec2.t` after `if (rec2.t > t_max) rec2.t = t_max;`. -/
def constant_medium.t2_clipped (E : Env K σ) (m : constant_medium K σ) (r : ray K)
    (t_max : K) (st : σ) : K :=
  if (m.exit E r st).2.1.t > t_max then t_max else (m.exit E r st).2.1.t

/-- The value of `rec1.t` after `if (rec1.t < 0) rec1.t = 0;`. -/
def constant_medium.t1_clamped (E : Env K σ) (m : constant_medium K σ) (r : ray K)
    (t_min : K) (st : σ) : K :=
  if m.t1_clipped E r t_min st < 0 then 0 else m.t1_clipped E r t_min st

/-- The local `distance_inside_boundary` of `constant_medium::hit`. -/
def constant_medium.distance_inside_boundary (E : Env K σ) (m : constant_medium K σ)
    (r : ray K) (t_min t_max : K) (st : σ) : K :=
  (m.t2_clipped E r t_max st - m.t1_clamped E r t_min st) * vec3.length E r.direction

/-- The draw `random_double()` of `constant_medium::hit`, made in the random state that the
two calls on the boundary leave. -/
def constant_medium.draw (E : Env K σ) (m : constant_medium K σ) (r : ray K) (st : σ) :
    K × σ :=
  E.random_double (m.exit E r st).2.2

/-- The local `hit_distance` of `constant_medium::hit`. -/
def constant_medium.hit_distance (E : Env K σ) (m : constant_medium K σ) (r : ray K)
    (st : σ) : K :=
  m.neg_inv_density * E.log (m.draw E r st).1

/-- The method `constant_medium::hit` (`enableDebug` is `false`, so `debugging` is false
without a draw and nothing is printed). -/
def constant_medium.hit (E : Env K σ) (m : constant_medium K σ) (r : ray K)
    (t_min t_max : K) (rec : hit_record K) (st : σ) : Bool × hit_record K × σ :=
  let h1 := m.entry E r st
  if !h1.1 then (false, rec, h1.2.2)
  else
    let h2 := m.exit E r st
    if !h2.1 then (false, rec, h2.2.2)
    else
      let rec1_t := m.t1_clipped E r t_min st
      let rec2_t := m.t2_clipped E r t_max st
      if rec1_t ≥ rec2_t then (false, rec, h2.2.2)
      else
        let rec1_t := m.t1_clamped E r t_min st
        let ray_length := vec3.length E r.direction
        let distance_inside_boundary := (rec2_t - rec1_t) * ray_length
        let u := m.draw E r st
        let hit_distance := m.neg_inv_density * E.log u.1
        if hit_distance > distance_inside_boundary then (false, rec, u.2)
        else
          let rec_1 := { rec with t := rec1_t + hit_distance / ray_length }
          let rec_2 := { rec_1 with p := r.at rec_1.t }
          (true,
            { rec_2 with
              normal := ⟨1, 0, 0⟩
              front_face := true
              mat_ptr := m.phase_function },
            u.2)

/-- The method `constant_medium::bounding_box`. -/
def constant_medium.bounding_box (m : constant_medium K σ) (time0 time1 : K)
    (output_box : aabb K) : Bool × aabb K :=
  m.boundary.bounding_box time0 time1 output_box

/-- A `constant_medium` seen through the `hittable` interface. -/
def constant_medium.toHittable (E : Env K σ) (m : constant_medium K σ) : hittable K σ where
  hit := fun r t_min t_max rec st => m.hit E r t_min t_max rec st
  bounding_box := fun time0 time1 output_box => m.bounding_box time0 time1 output_box

end decorators

section bvh_constructor_names

variable {K σ : Type} [LinearOrderedField K]

/-- The condition of the `if` at the end of the `bvh_node` constructor, under which it
prints "No bounding box in bvh_node constructor.":
`!left->bounding_box(time0, time1, box_left) || !right->bounding_box(time0, time1, box_right)`. -/
def bvh_node.no_box (E : Env K σ) (left right : bvh K σ) (time0 time1 : K) : Bool :=
  !(left.bounding_box time0 time1 E.uninit_box).1 ||
    !(right.bounding_box time0 time1 E.uninit_box).1

/-- The constructor of some node of the tree printed "No bounding box in bvh_node
constructor." (all constructors of one tree are run with the same `time0`, `time1`). -/
def bvh.reports_no_box (E : Env K σ) (time0 time1 : K) : bvh K σ → Bool
  | bvh.leaf _ => false
  | bvh.node left right _ =>
    bvh_node.no_box E left right time0 time1 ||
      bvh.reports_no_box E time0 time1 left || bvh.reports_no_box E time0 time1 right

/-- The cached box of every node of the tree is the `surrounding_box` of the boxes that its
two children report for `(time0, time1)`. -/
def bvh.box_is_union (E : Env K σ) (time0 time1 : K) : bvh K σ → Prop
  | bvh.leaf _ => True
  | bvh.node left right box =>
    box = surrounding_box (left.bounding_box time0 time1 E.uninit_box).2
      (right.bounding_box time0 time1 E.uninit_box).2 ∧
    bvh.box_is_union E time0 time1 left ∧ bvh.box_is_union E time0 time1 right

/-- The shape of the trees that the `bvh_node` constructor returns: the tail of the
constructor applied to two objects, or to two trees of that shape. -/
inductive bvh.constructed (E : Env K σ) (time0 time1 : K) : bvh K σ → Prop
  | objects (o0 o1 : hittable K σ) :
    bvh.constructed E time0 time1 (bvh_node.make E (bvh.leaf o0) (bvh.leaf o1) time0 time1)
  | nodes (left right : bvh K σ) :
    bvh.constructed E time0 time1 left → bvh.constructed E time0 time1 right →
    bvh.constructed E time0 time1 (bvh_node.make E left right time0 time1)

end bvh_constructor_names

section bvh_shape_names

variable {K σ : Type} [LinearOrderedField K]

/-- The local `comparator` of the `bvh_node` constructor for the drawn `axis`. -/
def bvh_node.comparator (E : Env K σ) (axis : Int) : hittable K σ → hittable K σ → Bool :=
  if axis = 0 then box_x_compare E
  else if axis = 1 then box_y_compare E
  else box_z_compare E

/-- The local `mid` of the `bvh_node` constructor: `start + object_span / 2`. -/
def bvh_node.mid (start end_ : Nat) : Nat := start + (end_ - start) / 2

/-- The number of `bvh_node` levels on the longest path from this child pointer down to an
object that is not a `bvh_node`. -/
def bvh.depth : bvh K σ → Nat
  | bvh.leaf _ => 0
  | bvh.node left right _ => 1 + max (bvh.depth left) (bvh.depth right)

end bvh_shape_names

section geometry_names

variable {K : Type} [LinearOrderedField K]

/-- Point `p` lies in box `A`: on every axis `A.min ≤ p ≤ A.max`. -/
def aabb.contains_point (A : aabb K) (p : vec3 K) : Prop :=
  (A._min.x ≤ p.x ∧ p.x ≤ A._max.x) ∧ (A._min.y ≤ p.y ∧ p.y ≤ A._max.y) ∧
  (A._min.z ≤ p.z ∧ p.z ≤ A._max.z)

end geometry_names

section moving_sphere_names

variable {K : Type} [LinearOrderedField K]

end moving_sphere_names

section aabb_minmax_names

variable {K : Type} [LinearOrderedField K]

/-- The value `t0` of the formulation in the comment of `aabb::hit`:
`ffmin((_min[a] - origin[a]) / direction[a], (_max[a] - origin[a]) / direction[a])`,
with `ffmin` of `rtweekend.h` taken as the minimum. -/
def aabb_t0_minmax (b : aabb K) (r : ray K) (a : Nat) : K :=
  min ((b._min.e a - r.origin.e a) / r.direction.e a)
    ((b._max.e a - r.origin.e a) / r.direction.e a)

/-- The value `t1` of the formulation in the comment of `aabb::hit`:
`ffmax((_min[a] - origin[a]) / direction[a], (_max[a] - origin[a]) / direction[a])`,
with `ffmax` of `rtweekend.h` taken as the maximum. -/
def aabb_t1_minmax (b : aabb K) (r : ray K) (a : Nat) : K :=
  max ((b._min.e a - r.origin.e a) / r.direction.e a)
    ((b._max.e a - r.origin.e a) / r.direction.e a)

/-- The loop of `aabb::hit` with the body of the comment in place of the inverse and the
swap: `tmin = ffmax(t0, tmin); tmax = ffmin(t1, tmax);` and the same exit test. -/
def aabb_hit_minmax_loop (b : aabb K) (r : ray K) : Nat → Nat → K → K → Bool
  | 0, _, _, _ => true
  | n + 1, a, tmin, tmax =>
    let t0 := aabb_t0_minmax b r a
    let t1 := aabb_t1_minmax b r a
    let tmin := max t0 tmin
    let tmax := min t1 tmax
    if tmax ≤ tmin then false else aabb_hit_minmax_loop b r n (a + 1) tmin tmax

/-- The ray-slab test in the min/max formulation of the comment of `aabb::hit`. -/
def aabb_hit_minmax (b : aabb K) (r : ray K) (tmin tmax : K) : Bool :=
  aabb_hit_minmax_loop b r 3 0 tmin tmax

/-- The vector with the component on axis `a` negated. -/
def vec3.negate_axis (v : vec3 K) (a : Nat) : vec3 K :=
  ⟨if a = 0 then -v.x else v.x, if a = 1 then -v.y else v.y, if a = 2 then -v.z else v.z⟩

/-- The ray with the origin and direction components on axis `a` negated. -/
def ray.negate_axis (r : ray K) (a : Nat) : ray K :=
  ⟨r.origin.negate_axis a, r.direction.negate_axis a, r.time⟩

end aabb_minmax_names

section image_texture_names

variable {K σ : Type} [LinearOrderedField K]

/-- The value that a 32-bit `int` holds after an arithmetic operation with the mathematical
result `n`: two's complement wrap-around into `[-2^31, 2^31)`. -/
def int32_wrap (n : Int) : Int := (n + 2147483648) % 4294967296 - 2147483648

/-- The data members of the class `image_texture` of `texture.h`: `data` is `none` for a
null pointer and the bytes of the array otherwise; `nx` and `ny` are the values of the two
32-bit `int`s. -/
structure image_texture where
  data : Option (List Nat)
  nx : Int
  ny : Int

/-- The function `std::clamp(v, lo, hi)` of the standard library on `int`. -/
def std.clamp (v lo hi : Int) : Int :=
  if v < lo then lo else if hi < v then hi else v

/-- The local `i` of `image_texture::value` after the clamp; `to_int` is the conversion
`static_cast<int>` from `double`. -/
def image_texture.i (to_int : K → Int) (t : image_texture) (u : K) : Int :=
  std.clamp (to_int (u * (t.nx : K))) 0 (int32_wrap (t.nx - 1))

/-- The local `j` of `image_texture::value` after the clamp. -/
def image_texture.j (E : Env K σ) (to_int : K → Int) (t : image_texture) (v : K) : Int :=
  std.clamp (to_int ((1 - v) * (t.ny : K) - E.epsilon)) 0 (int32_wrap (t.ny - 1))

/-- The index `3 * i + 3 * nx * j + c` of colour channel `c` in `image_texture::value`, an
expression of type `int`: every product and sum is a 32-bit `int`. -/
def image_texture.index (t : image_texture) (i j c : Int) : Int :=
  int32_wrap (int32_wrap (int32_wrap (3 * i) + int32_wrap (int32_wrap (3 * t.nx) * j)) + c)

/-- The element `data[k]` of the byte array; an index outside the array, where the C++
read is undefined, gives 0. -/
def image_texture.byte (bytes : List Nat) (k : Int) : Nat :=
  if k < 0 then 0 else bytes.getD k.toNat 0

/-- The method `image_texture::value`, together with the list of the indices at which it
reads `data`, in the order of the reads. -/
def image_texture.value_reads (E : Env K σ) (to_int : K → Int) (t : image_texture)
    (u v : K) (_p : vec3 K) : vec3 K × List Int :=
  match t.data with
  | none => (⟨0, 1, 1⟩, [])
  | some bytes =>
    let i := t.i to_int u
    let j := t.j E to_int v
    let r := ((image_texture.byte bytes (t.index i j 0) : Nat) : K) / 255
    let g := ((image_texture.byte bytes (t.index i j 1) : Nat) : K) / 255
    let b := ((image_texture.byte bytes (t.index i j 2) : Nat) : K) / 255
    (⟨r, g, b⟩, [t.index i j 0, t.index i j 1, t.index i j 2])

/-- The method `image_texture::value`. -/
def image_texture.value (E : Env K σ) (to_int : K → Int) (t : image_texture)
    (u v : K) (p : vec3 K) : vec3 K :=
  (t.value_reads E to_int u v p).1

/-- An `image_texture` seen through the `texture` interface. -/
def image_texture.toTexture (E : Env K σ) (to_int : K → Int) (t : image_texture) :
    texture K :=
  ⟨fun u v p => t.value E to_int u v p⟩

end image_texture_names

section box_names

variable {K σ : Type} [LinearOrderedField K]

/-- Modelled from the spec: the axis-aligned rectangles of `aarect.h`, which is not part of
the sources. The rectangle lies in the plane where the coordinate of the fixed axis `axis`
is `k` and spans `a0 .. a1` and `b0 .. b1` in the two other coordinates, in the order of the
class name (`xy_rect`, `xz_rect`, `yz_rect`). -/
structure aarect (K : Type) where
  axis : Nat
  a0 : K
  a1 : K
  b0 : K
  b1 : K
  k : K
  mp : material K

/-- Modelled from the spec: the first of the two axes that a rectangle spans. -/
def aarect.first_axis (q : aarect K) : Nat := if q.axis = 0 then 1 else 0

/-- Modelled from the spec: the second of the two axes that a rectangle spans. -/
def aarect.second_axis (q : aarect K) : Nat := if q.axis = 2 then 1 else 2

/-- Modelled from the spec: the vector with the given value on each axis. -/
def aarect.vector (q : aarect K) (on_axis on_first on_second : K) : vec3 K :=
  ⟨if q.axis = 0 then on_axis else on_first,
   if q.axis = 0 then on_first else if q.axis = 1 then on_axis else on_second,
   if q.axis = 2 then on_axis else on_second⟩

/-- Modelled from the spec: the hit test of an axis-aligned rectangle "solves for the ray
parameter at the rectangle's fixed coordinate plane, rejects if outside the ray's
t-interval, then checks the other two coordinates fall within the rectangle's 2D bounds".
The record gets `t`, the point, the normal along the fixed axis oriented against the ray and
the material; the spec does not say how `(u, v)` are set, they are left as they are. -/
def aarect.hit (q : aarect K) (r : ray K) (t_min t_max : K) (rec : hit_record K) :
    Bool × hit_record K :=
  let t := (q.k - r.origin.e q.axis) / r.direction.e q.axis
  if t < t_min ∨ t > t_max then (false, rec)
  else
    let a := r.origin.e q.first_axis + t * r.direction.e q.first_axis
    let b := r.origin.e q.second_axis + t * r.direction.e q.second_axis
    if a < q.a0 ∨ a > q.a1 ∨ b < q.b0 ∨ b > q.b1 then (false, rec)
    else
      let rec1 := { rec with t := t, p := r.at t, mat_ptr := q.mp }
      (true, rec1.set_face_normal r (q.vector 1 0 0))

/-- Modelled from the spec: the `bounding_box` of an axis-aligned rectangle "returns a box
with a small epsilon thickness along the fixed axis"; the spec gives no value for the
thickness, it is the parameter `thickness`. -/
def aarect.bounding_box (thickness : K) (q : aarect K) (_time0 _time1 : K)
    (_output_box : aabb K) : Bool × aabb K :=
  (true, ⟨q.vector (q.k - thickness) q.a0 q.b0, q.vector (q.k + thickness) q.a1 q.b1⟩)

/-- Modelled from the spec: an axis-aligned rectangle seen through the `hittable`
interface. -/
def aarect.toHittable (thickness : K) (q : aarect K) : hittable K σ where
  hit := fun r t_min t_max rec st =>
    ((q.hit r t_min t_max rec).1, (q.hit r t_min t_max rec).2, st)
  bounding_box := fun time0 time1 output_box =>
    q.bounding_box thickness time0 time1 output_box

/-- Modelled from the spec: `xy_rect(x0, x1, y0, y1, k, mat)` of `aarect.h`. -/
def xy_rect (thickness x0 x1 y0 y1 k : K) (mat : material K) : hittable K σ :=
  aarect.toHittable thickness ⟨2, x0, x1, y0, y1, k, mat⟩

/-- Modelled from the spec: `xz_rect(x0, x1, z0, z1, k, mat)` of `aarect.h`. -/
def xz_rect (thickness x0 x1 z0 z1 k : K) (mat : material K) : hittable K σ :=
  aarect.toHittable thickness ⟨1, x0, x1, z0, z1, k, mat⟩

/-- Modelled from the spec: `yz_rect(y0, y1, z0, z1, k, mat)` of `aarect.h`. -/
def yz_rect (thickness y0 y1 z0 z1 k : K) (mat : material K) : hittable K σ :=
  aarect.toHittable thickness ⟨0, y0, y1, z0, z1, k, mat⟩

/-- The data members of the class `box` of `box.h`; `sides` is the vector of the member
`hittable_list`. -/
structure box (K σ : Type) where
  box_min : vec3 K
  box_max : vec3 K
  sides : List (hittable K σ)

/-- The constructor `box::box(p0, p1, mat)`; `thickness` is the thickness of the boxes that
the rectangles of `aarect.h` report. -/
def box.construct (thickness : K) (p0 p1 : vec3 K) (mat : material K) : box K σ :=
  ⟨p0, p1,
    [xy_rect thickness p0.x p1.x p0.y p1.y p1.z mat,
     flip_face.toHittable (xy_rect thickness p0.x p1.x p0.y p1.y p0.z mat),
     xz_rect thickness p0.x p1.x p0.z p1.z p1.y mat,
     flip_face.toHittable (xz_rect thickness p0.x p1.x p0.z p1.z p0.y mat),
     yz_rect thickness p0.y p1.y p0.z p1.z p1.x mat,
     flip_face.toHittable (yz_rect thickness p0.y p1.y p0.z p1.z p0.x mat)]⟩

/-- The method `box::hit`. -/
def box.hit (E : Env K σ) (b : box K σ) (r : ray K) (t_min t_max : K) (rec : hit_record K)
    (s : σ) : Bool × hit_record K × σ :=
  hittable_list.hit E b.sides r t_min t_max rec s

/-- The method `box::bounding_box`. -/
def box.bounding_box (b : box K σ) (_time0 _time1 : K) (_output_box : aabb K) :
    Bool × aabb K :=
  (true, ⟨b.box_min, b.box_max⟩)

/-- A `box` seen through the `hittable` interface. -/
def box.toHittable (E : Env K σ) (b : box K σ) : hittable K σ where
  hit := fun r t_min t_max rec st => b.hit E r t_min t_max rec st
  bounding_box := fun time0 time1 output_box => b.bounding_box time0 time1 output_box

end box_names

/-! ## Double arithmetic with rounding

The definitions above take `double` as an exact ordered field.  The definitions of this
section repeat the arithmetic of the sources with the result of every floating-point
operation passed through a rounding function `fl`.  With `fl` the identity they are the
exact definitions; with `fl = double_round` they compute what IEEE 754 binary64 arithmetic
computes in round-to-nearest-even, one rounding per operation, as long as no operation
overflows or underflows.  Negation and comparison are exact in binary64 and are not
rounded; the library functions of `Env` return the `double` they return. -/

/-- Round half to even: the integer nearest to `x`, the even one of the two when `x` lies
half-way between two integers. -/
def round_half_even (x : ℚ) : ℤ :=
  let f := ⌊x⌋
  if x - f < 1 / 2 then f
  else if 1 / 2 < x - f then f + 1
  else if f % 2 = 0 then f else f + 1

/-- The binary64 number nearest to `q` (round to nearest, ties to even), with the exponent
range taken as unbounded: a significand of 53 bits at the exponent of `q`. -/
def double_round (q : ℚ) : ℚ :=
  if q = 0 then 0
  else
    let e := Int.log 2 |q| - 52
    (round_half_even (q / 2 ^ e) : ℚ) * 2 ^ e

section rounded

variable {K σ : Type} [LinearOrderedField K] (fl : K → K)

/-- Modelled from the spec: componentwise sum of `vec3.h`, each component rounded. -/
def vec3.add_rounded (u v : vec3 K) : vec3 K :=
  ⟨fl (u.x + v.x), fl (u.y + v.y), fl (u.z + v.z)⟩

/-- Modelled from the spec: componentwise difference of `vec3.h`, each component rounded. -/
def vec3.sub_rounded (u v : vec3 K) : vec3 K :=
  ⟨fl (u.x - v.x), fl (u.y - v.y), fl (u.z - v.z)⟩

/-- Modelled from the spec: scalar multiple `t * v` of `vec3.h`, each component rounded. -/
def vec3.smul_rounded (t : K) (v : vec3 K) : vec3 K :=
  ⟨fl (t * v.x), fl (t * v.y), fl (t * v.z)⟩

/-- Modelled from the spec: division by a scalar `v / t` of `vec3.h`, each component
rounded. -/
def vec3.sdiv_rounded (v : vec3 K) (t : K) : vec3 K :=
  ⟨fl (v.x / t), fl (v.y / t), fl (v.z / t)⟩

/-- Modelled from the spec: dot product of `vec3.h`, the three products summed from left to
right, every product and sum rounded. -/
def vec3.dot_rounded (u v : vec3 K) : K :=
  fl (fl (fl (u.x * v.x) + fl (u.y * v.y)) + fl (u.z * v.z))

/-- Modelled from the spec: squared length of `vec3.h`, the three squares summed from left
to right, every product and sum rounded. -/
def vec3.length_squared_rounded (v : vec3 K) : K :=
  fl (fl (fl (v.x * v.x) + fl (v.y * v.y)) + fl (v.z * v.z))

/-- Modelled from the spec: `vec3::length()`, the library square root of the rounded
squared length. -/
def vec3.length_rounded (E : Env K σ) (v : vec3 K) : K :=
  E.sqrt (vec3.length_squared_rounded fl v)

/-- Modelled from the spec: the point `origin + t * direction` of `ray.h`, product and sum
rounded. -/
def ray.at_rounded (r : ray K) (t : K) : vec3 K :=
  vec3.add_rounded fl r.origin (vec3.smul_rounded fl t r.direction)

/-- The method `hit_record::set_face_normal` with the dot product rounded. -/
def hit_record.set_face_normal_rounded (rec : hit_record K) (r : ray K)
    (outward_normal : vec3 K) : hit_record K :=
  let front_face : Bool := decide (vec3.dot_rounded fl r.direction outward_normal < 0)
  { rec with
    front_face := front_face
    normal := if front_face then outward_normal else outward_normal.neg }

/-- The function `get_sphere_uv` of `hittable.h` with every operation rounded. -/
def get_sphere_uv_rounded (E : Env K σ) (p : vec3 K) : K × K :=
  let phi := E.atan2 p.z p.x
  let theta := E.asin p.y
  (fl (1 - fl (fl (phi + E.pi) / fl (2 * E.pi))), fl (fl (theta + fl (E.pi / 2)) / E.pi))

/-- The block of `sphere::hit` that fills the record once a root `temp` is accepted, with
every operation rounded. -/
def sphere.fill_rounded (E : Env K σ) (s : sphere K) (r : ray K) (temp : K)
    (rec : hit_record K) : hit_record K :=
  let rec1 := { rec with t := temp }
  let rec2 := { rec1 with p := ray.at_rounded fl r rec1.t }
  let outward_normal := vec3.sdiv_rounded fl (vec3.sub_rounded fl rec2.p s.center) s.radius
  let rec3 := rec2.set_face_normal_rounded fl r outward_normal
  let rec4 := { rec3 with mat_ptr := s.mat_ptr }
  let uv := get_sphere_uv_rounded fl E
    (vec3.sdiv_rounded fl (vec3.sub_rounded fl rec4.p s.center) s.radius)
  { rec4 with u := uv.1, v := uv.2 }

/-- The method `sphere::hit` with every operation rounded. -/
def sphere.hit_rounded (E : Env K σ) (s : sphere K) (r : ray K) (t_min t_max : K)
    (rec : hit_record K) : Bool × hit_record K :=
  let oc := vec3.sub_rounded fl r.origin s.center
  let a := vec3.length_squared_rounded fl r.direction
  let half_b := vec3.dot_rounded fl oc r.direction
  let c := fl (vec3.length_squared_rounded fl oc - fl (s.radius * s.radius))
  let discriminant := fl (fl (half_b * half_b) - fl (a * c))
  if discriminant > 0 then
    let root := E.sqrt discriminant
    let temp := fl (fl (-half_b - root) / a)
    if temp < t_max ∧ temp > t_min then
      (true, s.fill_rounded fl E r temp rec)
    else
      let temp := fl (fl (-half_b + root) / a)
      if temp < t_max ∧ temp > t_min then
        (true, s.fill_rounded fl E r temp rec)
      else
        (false, rec)
  else
    (false, rec)

/-- The method `sphere::bounding_box` with the two corners rounded. -/
def sphere.bounding_box_rounded (s : sphere K) (_time0 _time1 : K) (_output_box : aabb K) :
    Bool × aabb K :=
  (true, ⟨vec3.sub_rounded fl s.center ⟨s.radius, s.radius, s.radius⟩,
          vec3.add_rounded fl s.center ⟨s.radius, s.radius, s.radius⟩⟩)

/-- A `sphere` in rounded arithmetic seen through the `hittable` interface. -/
def sphere.toHittable_rounded (E : Env K σ) (s : sphere K) : hittable K σ where
  hit := fun r t_min t_max rec st =>
    ((s.hit_rounded fl E r t_min t_max rec).1, (s.hit_rounded fl E r t_min t_max rec).2, st)
  bounding_box := fun time0 time1 output_box => s.bounding_box_rounded fl time0 time1 output_box

/-- The local `moved_r` of `translate::hit` with the difference rounded. -/
def translate.moved_r_rounded (offset : vec3 K) (r : ray K) : ray K :=
  ⟨vec3.sub_rounded fl r.origin offset, r.direction, r.time⟩

/-- The method `translate::hit` with every operation rounded. -/
def translate.hit_rounded (ptr : hittable K σ) (offset : vec3 K) (r : ray K)
    (t_min t_max : K) (rec : hit_record K) (st : σ) : Bool × hit_record K × σ :=
  let moved_r := translate.moved_r_rounded fl offset r
  let res := ptr.hit moved_r t_min t_max rec st
  if !res.1 then (false, res.2.1, res.2.2)
  else
    let rec1 := { res.2.1 with p := vec3.add_rounded fl res.2.1.p offset }
    let rec2 := rec1.set_face_normal_rounded fl moved_r rec1.normal
    (true, rec2, res.2.2)

/-- The method `translate::bounding_box` with the two sums rounded. -/
def translate.bounding_box_rounded (ptr : hittable K σ) (offset : vec3 K) (time0 time1 : K)
    (output_box : aabb K) : Bool × aabb K :=
  let res := ptr.bounding_box time0 time1 output_box
  if !res.1 then (false, res.2)
  else (true, ⟨vec3.add_rounded fl res.2.min offset, vec3.add_rounded fl res.2.max offset⟩)

/-- A `translate` in rounded arithmetic seen through the `hittable` interface. -/
def translate.toHittable_rounded (ptr : hittable K σ) (offset : vec3 K) : hittable K σ where
  hit := fun r t_min t_max rec st => translate.hit_rounded fl ptr offset r t_min t_max rec st
  bounding_box := fun time0 time1 output_box =>
    translate.bounding_box_rounded fl ptr offset time0 time1 output_box

/-- The local `invD` of `aabb::hit` for axis `a`: the rounded inverse of the direction
component. -/
def aabb.invD_rounded (r : ray K) (a : Nat) : K := fl (1 / r.direction.e a)

/-- The value of `t0` in the body of the loop of `aabb::hit` for axis `a`, after the swap,
with difference and product rounded. -/
def aabb.t0_rounded (b : aabb K) (r : ray K) (a : Nat) : K :=
  let invD := aabb.invD_rounded fl r a
  let t0 := fl (fl (b._min.e a - r.origin.e a) * invD)
  let t1 := fl (fl (b._max.e a - r.origin.e a) * invD)
  if invD < 0 then t1 else t0

/-- The value of `t1` in the body of the loop of `aabb::hit` for axis `a`, after the swap,
with difference and product rounded. -/
def aabb.t1_rounded (b : aabb K) (r : ray K) (a : Nat) : K :=
  let invD := aabb.invD_rounded fl r a
  let t0 := fl (fl (b._min.e a - r.origin.e a) * invD)
  let t1 := fl (fl (b._max.e a - r.origin.e a) * invD)
  if invD < 0 then t0 else t1

/-- The loop of `aabb::hit` in rounded arithmetic. -/
def aabb.hit_loop_rounded (b : aabb K) (r : ray K) : Nat → Nat → K → K → Bool
  | 0, _, _, _ => true
  | n + 1, a, tmin, tmax =>
    let t0 := b.t0_rounded fl r a
    let t1 := b.t1_rounded fl r a
    let tmin := if t0 > tmin then t0 else tmin
    let tmax := if t1 < tmax then t1 else tmax
    if tmax ≤ tmin then false else aabb.hit_loop_rounded b r n (a + 1) tmin tmax

/-- The method `aabb::hit` in rounded arithmetic. -/
def aabb.hit_rounded (b : aabb K) (r : ray K) (tmin tmax : K) : Bool :=
  b.hit_loop_rounded fl r 3 0 tmin tmax

/-- The value `t0` of the formulation in the comment of `aabb::hit`, with difference and
quotient rounded. -/
def aabb_t0_minmax_rounded (b : aabb K) (r : ray K) (a : Nat) : K :=
  min (fl (fl (b._min.e a - r.origin.e a) / r.direction.e a))
    (fl (fl (b._max.e a - r.origin.e a) / r.direction.e a))

/-- The value `t1` of the formulation in the comment of `aabb::hit`, with difference and
quotient rounded. -/
def aabb_t1_minmax_rounded (b : aabb K) (r : ray K) (a : Nat) : K :=
  max (fl (fl (b._min.e a - r.origin.e a) / r.direction.e a))
    (fl (fl (b._max.e a - r.origin.e a) / r.direction.e a))

/-- The loop of `aabb::hit` with the body of the comment, in rounded arithmetic. -/
def aabb_hit_minmax_loop_rounded (b : aabb K) (r : ray K) : Nat → Nat → K → K → Bool
  | 0, _, _, _ => true
  | n + 1, a, tmin, tmax =>
    let t0 := aabb_t0_minmax_rounded fl b r a
    let t1 := aabb_t1_minmax_rounded fl b r a
    let tmin := max t0 tmin
    let tmax := min t1 tmax
    if tmax ≤ tmin then false else aabb_hit_minmax_loop_rounded b r n (a + 1) tmin tmax

/-- The ray-slab test in the min/max formulation of the comment of `aabb::hit`, in rounded
arithmetic. -/
def aabb_hit_minmax_rounded (b : aabb K) (r : ray K) (tmin tmax : K) : Bool :=
  aabb_hit_minmax_loop_rounded fl b r 3 0 tmin tmax

/-- The value `t0` of the formulation in the comment of `aabb::hit` with the products
`(_min[a] - origin[a]) * invD` and `(_max[a] - origin[a]) * invD` that `aabb::hit` computes
in place of the quotients. -/
def aabb_t0_minmax_products (b : aabb K) (r : ray K) (a : Nat) : K :=
  min (fl (fl (b._min.e a - r.origin.e a) * fl (1 / r.direction.e a)))
    (fl (fl (b._max.e a - r.origin.e a) * fl (1 / r.direction.e a)))

/-- The value `t1` of the formulation in the comment of `aabb::hit` with the products that
`aabb::hit` computes in place of the quotients. -/
def aabb_t1_minmax_products (b : aabb K) (r : ray K) (a : Nat) : K :=
  max (fl (fl (b._min.e a - r.origin.e a) * fl (1 / r.direction.e a)))
    (fl (fl (b._max.e a - r.origin.e a) * fl (1 / r.direction.e a)))

/-- The loop of the formulation in the comment of `aabb::hit` with the products that
`aabb::hit` computes in place of the quotients. -/
def aabb_hit_minmax_products_loop (b : aabb K) (r : ray K) : Nat → Nat → K → K → Bool
  | 0, _, _, _ => true
  | n + 1, a, tmin, tmax =>
    let t0 := aabb_t0_minmax_products fl b r a
    let t1 := aabb_t1_minmax_products fl b r a
    let tmin := max t0 tmin
    let tmax := min t1 tmax
    if tmax ≤ tmin then false else aabb_hit_minmax_products_loop b r n (a + 1) tmin tmax

/-- The ray-slab test in the min/max formulation of the comment of `aabb::hit` with the
products that `aabb::hit` computes in place of the quotients. -/
def aabb_hit_minmax_products (b : aabb K) (r : ray K) (tmin tmax : K) : Bool :=
  aabb_hit_minmax_products_loop fl b r 3 0 tmin tmax

/-- The local `rotated_r` of `rotate_y::hit` with every product, sum and difference
rounded. -/
def rotate_y.rotated_r_rounded (o : rotate_y K σ) (r : ray K) : ray K :=
  ⟨⟨fl (fl (o.cos_theta * r.origin.x) - fl (o.sin_theta * r.origin.z)), r.origin.y,
     fl (fl (o.sin_theta * r.origin.x) + fl (o.cos_theta * r.origin.z))⟩,
   ⟨fl (fl (o.cos_theta * r.direction.x) - fl (o.sin_theta * r.direction.z)), r.direction.y,
     fl (fl (o.sin_theta * r.direction.x) + fl (o.cos_theta * r.direction.z))⟩,
   r.time⟩

/-- The method `rotate_y::hit` with every operation rounded. -/
def rotate_y.hit_rounded (o : rotate_y K σ) (r : ray K) (t_min t_max : K)
    (rec : hit_record K) (st : σ) : Bool × hit_record K × σ :=
  let rotated_r := o.rotated_r_rounded fl r
  let res := o.ptr.hit rotated_r t_min t_max rec st
  if !res.1 then (false, res.2.1, res.2.2)
  else
    let p : vec3 K :=
      ⟨fl (fl (o.cos_theta * res.2.1.p.x) + fl (o.sin_theta * res.2.1.p.z)), res.2.1.p.y,
       fl (fl (-o.sin_theta * res.2.1.p.x) + fl (o.cos_theta * res.2.1.p.z))⟩
    let normal : vec3 K :=
      ⟨fl (fl (o.cos_theta * res.2.1.normal.x) + fl (o.sin_theta * res.2.1.normal.z)),
       res.2.1.normal.y,
       fl (fl (-o.sin_theta * res.2.1.normal.x) + fl (o.cos_theta * res.2.1.normal.z))⟩
    let rec1 := { res.2.1 with p := p }
    (true, rec1.set_face_normal_rounded fl rotated_r normal, res.2.2)

/-- The method `moving_sphere::center` with every operation rounded. -/
def moving_sphere.center_rounded (m : moving_sphere K) (time : K) : vec3 K :=
  vec3.add_rounded fl m.center0
    (vec3.smul_rounded fl (fl (fl (time - m.time0) / fl (m.time1 - m.time0)))
      (vec3.sub_rounded fl m.center1 m.center0))

/-- The block of `moving_sphere::hit` that fills the record once a root `temp` is accepted,
with every operation rounded. -/
def moving_sphere.fill_rounded (E : Env K σ) (m : moving_sphere K) (r : ray K) (temp : K)
    (rec : hit_record K) : hit_record K :=
  let rec1 := { rec with t := temp }
  let rec2 := { rec1 with p := ray.at_rounded fl r rec1.t }
  let outward_normal :=
    vec3.sdiv_rounded fl (vec3.sub_rounded fl rec2.p (m.center_rounded fl r.time)) m.radius
  let rec3 := rec2.set_face_normal_rounded fl r outward_normal
  let rec4 := { rec3 with mat_ptr := m.mat_ptr }
  let uv := get_sphere_uv_rounded fl E
    (vec3.sdiv_rounded fl (vec3.sub_rounded fl rec4.p (m.center_rounded fl r.time)) m.radius)
  { rec4 with u := uv.1, v := uv.2 }

/-- The method `moving_sphere::hit` with every operation rounded. -/
def moving_sphere.hit_rounded (E : Env K σ) (m : moving_sphere K) (r : ray K)
    (t_min t_max : K) (rec : hit_record K) : Bool × hit_record K :=
  let oc := vec3.sub_rounded fl r.origin (m.center_rounded fl r.time)
  let a := vec3.length_squared_rounded fl r.direction
  let half_b := vec3.dot_rounded fl oc r.direction
  let c := fl (vec3.length_squared_rounded fl oc - fl (m.radius * m.radius))
  let discriminant := fl (fl (half_b * half_b) - fl (a * c))
  if discriminant > 0 then
    let root := E.sqrt discriminant
    let temp := fl (fl (-half_b - root) / a)
    if temp < t_max ∧ temp > t_min then
      (true, m.fill_rounded fl E r temp rec)
    else
      let temp := fl (fl (-half_b + root) / a)
      if temp < t_max ∧ temp > t_min then
        (true, m.fill_rounded fl E r temp rec)
      else
        (false, rec)
  else
    (false, rec)

/-- The box `aabb(c - vec3(radius, radius, radius), c + vec3(radius, radius, radius))` with
the two corners rounded. -/
def radius_box_rounded (c : vec3 K) (radius : K) : aabb K :=
  ⟨vec3.sub_rounded fl c ⟨radius, radius, radius⟩, vec3.add_rounded fl c ⟨radius, radius, radius⟩⟩

/-- The method `moving_sphere::bounding_box` with every operation rounded. -/
def moving_sphere.bounding_box_rounded (m : moving_sphere K) (time0 time1 : K)
    (_output_box : aabb K) : Bool × aabb K :=
  let box0 := radius_box_rounded fl (m.center_rounded fl time0) m.radius
  let box1 := radius_box_rounded fl (m.center_rounded fl time1) m.radius
  (true, surrounding_box box0 box1)

/-- The constructor `constant_medium(b, d, a)` with the quotient `-1 / d` rounded. -/
def constant_medium.construct_rounded (b : hittable K σ) (d : K) (a : texture K) :
    constant_medium K σ :=
  ⟨b, material.isotropic a, fl (-1 / d)⟩

/-- The method `constant_medium::hit` with every operation rounded (the literal `0.0001` is
the `double` nearest to it). -/
def constant_medium.hit_rounded (E : Env K σ) (m : constant_medium K σ) (r : ray K)
    (t_min t_max : K) (rec : hit_record K) (st : σ) : Bool × hit_record K × σ :=
  let h1 := m.boundary.hit r (-E.infinity) E.infinity E.uninit_rec st
  if !h1.1 then (false, rec, h1.2.2)
  else
    let h2 := m.boundary.hit r (fl (h1.2.1.t + fl (1 / 10000))) E.infinity E.uninit_rec h1.2.2
    if !h2.1 then (false, rec, h2.2.2)
    else
      let rec1_t := if h1.2.1.t < t_min then t_min else h1.2.1.t
      let rec2_t := if h2.2.1.t > t_max then t_max else h2.2.1.t
      if rec1_t ≥ rec2_t then (false, rec, h2.2.2)
      else
        let rec1_t := if rec1_t < 0 then 0 else rec1_t
        let ray_length := vec3.length_rounded fl E r.direction
        let distance_inside_boundary := fl (fl (rec2_t - rec1_t) * ray_length)
        let u := E.random_double h2.2.2
        let hit_distance := fl (m.neg_inv_density * E.log u.1)
        if hit_distance > distance_inside_boundary then (false, rec, u.2)
        else
          let rec_1 := { rec with t := fl (rec1_t + fl (hit_distance / ray_length)) }
          let rec_2 := { rec_1 with p := ray.at_rounded fl r rec_1.t }
          (true,
            { rec_2 with
              normal := ⟨1, 0, 0⟩
              front_face := true
              mat_ptr := m.phase_function },
            u.2)

/-- The function `schlick` of `material.h` with every operation rounded (`pow` taken as the
rounded fifth power). -/
def schlick_rounded (cosine ref_idx : K) : K :=
  let r0 := fl (fl (1 - ref_idx) / fl (1 + ref_idx))
  let r0 := fl (r0 * r0)
  fl (r0 + fl (fl (1 - r0) * fl (fl (1 - cosine) ^ 5)))

/-- The corner `(x, y, z)` that the loops of the `rotate_y` constructor visit for the indices
`i`, `j`, `k` in `{0, 1}`, with every product and sum rounded. -/
def rotate_y.corner_rounded (bbox : aabb K) (i j k : Nat) : vec3 K :=
  ⟨fl (fl ((i : K) * bbox.max.x) + fl ((1 - (i : K)) * bbox.min.x)),
   fl (fl ((j : K) * bbox.max.y) + fl ((1 - (j : K)) * bbox.min.y)),
   fl (fl ((k : K) * bbox.max.z) + fl ((1 - (k : K)) * bbox.min.z))⟩

/-- The local `tester` of the `rotate_y` constructor with every product and sum rounded. -/
def rotate_y.tester_rounded (sin_theta cos_theta : K) (p : vec3 K) : vec3 K :=
  ⟨fl (fl (cos_theta * p.x) + fl (sin_theta * p.z)), p.y,
   fl (fl (-sin_theta * p.x) + fl (cos_theta * p.z))⟩

/-- The box that the `rotate_y` constructor computes from the child's box, with every
operation rounded. -/
def rotate_y.rotated_box_rounded (E : Env K σ) (sin_theta cos_theta : K) (bbox : aabb K) :
    aabb K :=
  let start : vec3 K × vec3 K :=
    (⟨E.infinity, E.infinity, E.infinity⟩, ⟨-E.infinity, -E.infinity, -E.infinity⟩)
  let mm := rotate_y.indices.foldl
    (fun mm ijk =>
      rotate_y.update mm
        (rotate_y.tester_rounded fl sin_theta cos_theta
          (rotate_y.corner_rounded fl bbox ijk.1 ijk.2.1 ijk.2.2)))
    start
  ⟨mm.1, mm.2⟩

/-- The constructor `rotate_y(p, angle)` with every operation rounded; `degrees_to_radians`
(of `rtweekend.h`, not part of the sources) is a parameter. -/
def rotate_y.construct_rounded (E : Env K σ) (degrees_to_radians : K → K) (p : hittable K σ)
    (angle : K) : rotate_y K σ :=
  let radians := degrees_to_radians angle
  let sin_theta := E.sin radians
  let cos_theta := E.cos radians
  let b := p.bounding_box 0 1 E.uninit_box
  ⟨p, sin_theta, cos_theta, b.1, rotate_y.rotated_box_rounded fl E sin_theta cos_theta b.2⟩

/-- Virtual `hit` on a child pointer with the arithmetic of `aabb::hit` rounded:
`bvh_node::hit` on a node, the object's own `hit` otherwise. -/
def bvh.hit_rounded : bvh K σ → ray K → K → K → hit_record K → σ → Bool × hit_record K × σ
  | bvh.leaf object, r, tmin, tmax, rec, s => object.hit r tmin tmax rec s
  | bvh.node left right box, r, tmin, tmax, rec, s =>
    if !box.hit_rounded fl r tmin tmax then (false, rec, s)
    else
      let l := bvh.hit_rounded left r tmin tmax rec s
      let hit_left := l.1
      let rr := bvh.hit_rounded right r tmin (if hit_left then l.2.1.t else tmax) l.2.1 l.2.2
      let hit_right := rr.1
      (hit_left || hit_right, rr.2.1, rr.2.2)

end rounded

/-- An environment over `ℚ` on which the definitions can be evaluated: a square root that
is exact on squares of rationals, a counter as random state, insertion sort for
`std::sort`. -/
def Env.sample : Env ℚ Nat where
  sqrt := Rat.sqrt
  sin := fun _ => 0
  cos := fun _ => 1
  log := fun _ => 0
  atan2 := fun _ _ => 0
  asin := fun _ => 0
  pi := 3
  infinity := 1000000
  epsilon := 1 / 1000
  random_double := fun n => (1 / 2, n + 1)
  random_int := fun lo hi n => (lo + ((n : Int) % (hi - lo + 1)), n + 1)
  random_in_unit_sphere := fun n => (⟨0, 0, 0⟩, n + 1)
  unit_vector := fun v => v
  reflect := fun v n => v.sub (vec3.smul (2 * vec3.dot v n) n)
  refract := fun v _ _ => v
  ray_default_time := 0
  sort := fun cmp l => List.insertionSort (fun a b => cmp a b = true) l
  uninit_rec :=
    ⟨⟨0, 0, 0⟩, ⟨0, 0, 0⟩, material.dielectric 1, 0, 0, 0, false⟩
  uninit_box := ⟨⟨0, 0, 0⟩, ⟨0, 0, 0⟩⟩
  uninit_ray := ⟨⟨0, 0, 0⟩, ⟨0, 0, 0⟩, 0⟩
  uninit_vec3 := ⟨0, 0, 0⟩

/-- A grey Lambertian unit sphere at the origin. -/
def sample_sphere : sphere ℚ :=
  ⟨⟨0, 0, 0⟩, 1, material.lambertian (constant_texture ⟨1 / 2, 1 / 2, 1 / 2⟩)⟩

/-- A metal unit sphere centred at `(5, 0, 0)`. -/
def sample_sphere_far : sphere ℚ :=
  ⟨⟨5, 0, 0⟩, 1, material.metal ⟨1, 1, 1⟩ 0⟩

/-- A ray along the x axis from `(-2, 0, 0)`; it meets `sample_sphere` at `t = 1` and `t = 3`
and `sample_sphere_far` at `t = 6` and `t = 8`. -/
def sample_ray : ray ℚ := ⟨⟨-2, 0, 0⟩, ⟨1, 0, 0⟩, 0⟩



/-- The two sample spheres, the farther one first. -/
def sample_spheres : List (sphere ℚ) := [sample_sphere_far, sample_sphere]

/-- A metal unit sphere centred at `(3, 6, 6)`, on the line of `sample_skew_ray`. -/
def sample_sphere_skew : sphere ℚ :=
  ⟨⟨3, 6, 6⟩, 1, material.metal ⟨1, 1, 1⟩ 0⟩

/-- An empty `hittable_list`: an object whose `bounding_box` returns false. -/
def sample_empty_list : hittable ℚ Nat := hittable_list.toHittable Env.sample []

/-- A ray along the x axis that starts at the point `(1, 0, 0)`. -/
def sample_inner_ray : ray ℚ := ⟨⟨1, 0, 0⟩, ⟨1, 0, 0⟩, 0⟩

/-- The sample sphere moved by `(1, 0, 0)`: `sample_inner_ray` starts at its centre. -/
def sample_translated_sphere : hittable ℚ Nat :=
  translate.toHittable (sample_sphere.toHittable Env.sample) ⟨1, 0, 0⟩

/-- The box with corners `(-1, -1, -1)` and `(1, 1, 1)`. -/
def sample_box : aabb ℚ := ⟨⟨-1, -1, -1⟩, ⟨1, 1, 1⟩⟩

/-- A ray along the x axis that passes the sample sphere at height 5. -/
def sample_miss_ray : ray ℚ := ⟨⟨-2, 5, 0⟩, ⟨1, 0, 0⟩, 0⟩

/-- A medium of density 1 bounded by the sample sphere. -/
def sample_medium (E : Env ℚ Nat) : constant_medium ℚ Nat :=
  constant_medium.construct (sample_sphere.toHittable E) 1 (constant_texture ⟨1, 1, 1⟩)

/-- A ray from `(-2, 1/2, 0)` with direction `(1, -1, 2)`: every component is non-zero. -/
def sample_slab_ray : ray ℚ := ⟨⟨-2, 1 / 2, 0⟩, ⟨1, -1, 2⟩, 0⟩

/-- The unit box with corners `(0, 0, 0)` and `(1, 1, 1)`, its sides reporting boxes of
thickness `1/10000`. -/
def sample_unit_box : box ℚ Nat :=
  box.construct (1 / 10000) ⟨0, 0, 0⟩ ⟨1, 1, 1⟩
    (material.lambertian (constant_texture ⟨1 / 2, 1 / 2, 1 / 2⟩))

/-- Three spheres as objects of a scene. -/
def sample_three_objects : List (hittable ℚ Nat) :=
  [sample_sphere_far, sample_sphere, sample_sphere_skew].map (sphere.toHittable Env.sample)

/-- The conversion `static_cast<int>` on rationals: truncation towards zero. -/
def sample_to_int (q : ℚ) : Int := if 0 ≤ q then ⌊q⌋ else ⌈q⌉

/-- An image of two by one pixels: a yellow pixel and a blue one. -/
def sample_image : image_texture := ⟨some [255, 255, 0, 0, 0, 255], 2, 1⟩

/-- A ray from `(3, 0, 0)` along the negative x axis, at time `1/2`. -/
def sample_head_on_ray : ray ℚ := ⟨⟨3, 0, 0⟩, ⟨-1, 0, 0⟩, 1 / 2⟩

/-- A unit sphere that moves from `(x, -1, 0)` at time 0 to `(x, 1, 0)` at time 1, for the
binary64 number `x` nearest to `1/3`. -/
def sample_moving_sphere_at_third : moving_sphere ℚ :=
  ⟨⟨6004799503160661 / 18014398509481984, -1, 0⟩, ⟨6004799503160661 / 18014398509481984, 1, 0⟩,
    0, 1, 1, material.lambertian (constant_texture ⟨1 / 2, 1 / 2, 1 / 2⟩)⟩

/-- A ray along the negative x axis that starts at `(x, 0, 0)` for the binary64 number `x`
nearest to `1/3`. -/
def sample_ray_from_third : ray ℚ :=
  ⟨⟨6004799503160661 / 18014398509481984, 0, 0⟩, ⟨-1, 0, 0⟩, 0⟩

/-- A box whose lower y bound is the binary64 product `5 * (1/3)`, which is the number
`3752999689475413 / 2251799813685248` just below the binary64 quotient `5/3`. -/
def sample_slab_box : aabb ℚ :=
  ⟨⟨-5, 3752999689475413 / 2251799813685248, -10⟩, ⟨5, 10, 10⟩⟩

/-- A ray from the origin with direction `(3, 1, 1)`. -/
def sample_ray_three_one_one : ray ℚ := ⟨⟨0, 0, 0⟩, ⟨3, 1, 1⟩, 0⟩

/-- The sample environment with three draws and the binary64 values of the library
logarithm at them: in state 0 the draw is `1/2`, whose logarithm rounds to
`-6243314768165359 / 2 ^ 53`; in state 1 it is `1 - 2 ^ (-53)`, whose logarithm rounds to
`-2 ^ (-53)`; in every other state it is `4530142572565707 / 2 ^ 59`, whose logarithm rounds
to `-682035520491205 / 2 ^ 47`. -/
def Env.sample_draws : Env ℚ Nat :=
  { Env.sample with
    random_double := fun n =>
      (if n = 0 then 1 / 2
        else if n = 1 then 9007199254740991 / 9007199254740992
        else 4530142572565707 / 576460752303423488, n + 1)
    log := fun x =>
      if x = 1 / 2 then -(6243314768165359 / 9007199254740992)
      else if x = 9007199254740991 / 9007199254740992 then -(1 / 9007199254740992)
      else -(682035520491205 / 140737488355328) }

/-- A Lambertian sphere of radius `radius` centred at `(x, 0, 0)`, in binary64 arithmetic. -/
def sample_boundary (x radius : ℚ) : hittable ℚ Nat :=
  sphere.toHittable_rounded double_round Env.sample_draws
    ⟨⟨x, 0, 0⟩, radius, material.lambertian (constant_texture ⟨1 / 2, 1 / 2, 1 / 2⟩)⟩

/-- A ray from the origin along the x axis. -/
def sample_ray_from_origin : ray ℚ := ⟨⟨0, 0, 0⟩, ⟨1, 0, 0⟩, 0⟩

/-- A ray from the origin along the x axis with direction of length 3. -/
def sample_ray_from_origin_3 : ray ℚ := ⟨⟨0, 0, 0⟩, ⟨3, 0, 0⟩, 0⟩

/-- A medium of density `density` bounded by `sample_boundary x radius`, in binary64
arithmetic. -/
def sample_medium_rounded (x radius density : ℚ) : constant_medium ℚ Nat :=
  constant_medium.construct_rounded double_round (sample_boundary x radius) density
    (constant_texture ⟨1, 1, 1⟩)

section aabb_theorems

variable {K : Type} [LinearOrderedField K]

/-- The update `tmin = t0 > tmin ? t0 : tmin` of `aabb::hit` is a maximum. -/
theorem ite_gt_eq_max (t0 tmin : K) : (if t0 > tmin then t0 else tmin) = max tmin t0 := by
  split_ifs with h
  · exact (max_eq_right (le_of_lt h)).symm
  · exact (max_eq_left (not_lt.mp h)).symm

/-- The update `tmax = t1 < tmax ? t1 : tmax` of `aabb::hit` is a minimum. -/
theorem ite_lt_eq_min (t1 tmax : K) : (if t1 < tmax then t1 else tmax) = min tmax t1 := by
  split_ifs with h
  · exact (min_eq_right (le_of_lt h)).symm
  · exact (min_eq_left (not_lt.mp h)).symm

/-- C4: `aabb::hit` returns true exactly when the maximum of `tmin` and the three entry
parameters is strictly below the minimum of `tmax` and the three exit parameters: leaving
the loop at the first axis with an empty running interval gives the same answer as
intersecting all three axis intervals with the window and testing once. -/
theorem aabb_hit_iff_interval_nonempty (b : aabb K) (r : ray K) (tmin tmax : K) :
    b.hit r tmin tmax = true ↔
      max (max (max tmin (b.t0 r 0)) (b.t0 r 1)) (b.t0 r 2)
        < min (min (min tmax (b.t1 r 0)) (b.t1 r 1)) (b.t1 r 2) := by
  simp only [aabb.hit, aabb.hit_loop, ite_gt_eq_max, ite_lt_eq_min]
  by_cases h0 : min tmax (b.t1 r 0) ≤ max tmin (b.t0 r 0)
  · simp only [h0, if_true]
    constructor
    · intro h; exact absurd h (by decide)
    · intro h
      have h1 := lt_of_le_of_lt (le_max_left _ (b.t0 r 2)) (lt_of_lt_of_le h (min_le_left _ _))
      have h2 := lt_of_le_of_lt (le_max_left _ (b.t0 r 1)) (lt_of_lt_of_le h1 (min_le_left _ _))
      exact absurd h0 (not_le.mpr h2)
  · simp only [h0, if_false]
    by_cases h1 : min (min tmax (b.t1 r 0)) (b.t1 r 1) ≤ max (max tmin (b.t0 r 0)) (b.t0 r 1)
    · simp only [h1, if_true]
      constructor
      · intro h; exact absurd h (by decide)
      · intro h
        have := lt_of_le_of_lt (le_max_left _ (b.t0 r 2)) (lt_of_lt_of_le h (min_le_left _ _))
        exact absurd h1 (not_le.mpr this)
    · simp only [h1, if_false]
      by_cases h2 : min (min (min tmax (b.t1 r 0)) (b.t1 r 1)) (b.t1 r 2)
          ≤ max (max (max tmin (b.t0 r 0)) (b.t0 r 1)) (b.t0 r 2)
      · simp only [h2, if_true]
        constructor
        · intro h; exact absurd h (by decide)
        · intro h; exact absurd h2 (not_le.mpr h)
      · simp only [h2, if_false, true_iff]
        exact not_le.mp h2

/-- C5: `surrounding_box(A, B)` has on every axis the smaller of the two minima and the
larger of the two maxima; it contains `A` and `B`, and every box containing both `A` and
`B` contains it. -/
theorem surrounding_box_is_least_upper_box (A B : aabb K) :
    ((surrounding_box A B).min.x = min A.min.x B.min.x ∧
      (surrounding_box A B).min.y = min A.min.y B.min.y ∧
      (surrounding_box A B).min.z = min A.min.z B.min.z ∧
      (surrounding_box A B).max.x = max A.max.x B.max.x ∧
      (surrounding_box A B).max.y = max A.max.y B.max.y ∧
      (surrounding_box A B).max.z = max A.max.z B.max.z) ∧
    (surrounding_box A B).contains A ∧
    (surrounding_box A B).contains B ∧
    ∀ C : aabb K, C.contains A → C.contains B → C.contains (surrounding_box A B) := by
  refine ⟨⟨rfl, rfl, rfl, rfl, rfl, rfl⟩, ?_, ?_, ?_⟩
  · simp [aabb.contains, surrounding_box, aabb.min, aabb.max]
  · simp [aabb.contains, surrounding_box, aabb.min, aabb.max]
  · intro C hA hB
    simp only [aabb.contains, surrounding_box, aabb.min, aabb.max] at *
    simp only [le_min_iff, max_le_iff]
    tauto

end aabb_theorems

section sphere_theorems

variable {K σ : Type} [LinearOrderedField K]

/-- The method `sphere::hit` written with the named discriminant and the two candidate
roots. -/
theorem sphere.hit_eq (E : Env K σ) (s : sphere K) (r : ray K) (t_min t_max : K)
    (rec : hit_record K) :
    s.hit E r t_min t_max rec =
      if s.discriminant r > 0 then
        if s.temp_lo E r < t_max ∧ s.temp_lo E r > t_min then (true, s.fill E r (s.temp_lo E r) rec)
        else if s.temp_hi E r < t_max ∧ s.temp_hi E r > t_min then
          (true, s.fill E r (s.temp_hi E r) rec)
        else (false, rec)
      else (false, rec) := rfl

/-- The quadratic in the coefficients `a`, `half_b`, `c` of `sphere::hit`. -/
theorem sphere.quadratic_eq (s : sphere K) (r : ray K) (t : K) :
    s.quadratic r t =
      r.direction.length_squared * t * t
        + 2 * vec3.dot (r.origin.sub s.center) r.direction * t
        + ((r.origin.sub s.center).length_squared - s.radius * s.radius) := by
  simp only [sphere.quadratic, ray.at, vec3.sub, vec3.add, vec3.smul, vec3.length_squared,
    vec3.dot]
  ring

/-- A positive discriminant needs a non-zero direction: `a > 0`. -/
theorem sphere.a_pos_of_discriminant_pos (s : sphere K) (r : ray K)
    (h : 0 < s.discriminant r) : 0 < r.direction.length_squared := by
  have hnn : 0 ≤ r.direction.length_squared := by
    simp only [vec3.length_squared]
    have := mul_self_nonneg r.direction.x
    have := mul_self_nonneg r.direction.y
    have := mul_self_nonneg r.direction.z
    linarith
  rcases hnn.lt_or_eq with hpos | hzero
  · exact hpos
  · exfalso
    simp only [vec3.length_squared] at hzero
    have hx : r.direction.x = 0 := by
      have := mul_self_nonneg r.direction.x
      have := mul_self_nonneg r.direction.y
      have := mul_self_nonneg r.direction.z
      exact mul_self_eq_zero.mp (by linarith)
    have hy : r.direction.y = 0 := by
      have := mul_self_nonneg r.direction.x
      have := mul_self_nonneg r.direction.y
      have := mul_self_nonneg r.direction.z
      exact mul_self_eq_zero.mp (by linarith)
    have hz : r.direction.z = 0 := by
      have := mul_self_nonneg r.direction.x
      have := mul_self_nonneg r.direction.y
      have := mul_self_nonneg r.direction.z
      exact mul_self_eq_zero.mp (by linarith)
    simp only [sphere.discriminant, vec3.dot, vec3.length_squared, hx, hy, hz] at h
    simp at h

/-- With a positive discriminant and an exact `sqrt`, the zeros of the quadratic are exactly
the two candidates `temp_lo ≤ temp_hi` of `sphere::hit`. -/
theorem sphere.quadratic_eq_zero_iff (E : Env K σ) (s : sphere K) (r : ray K)
    (hd : 0 < s.discriminant r) (hs : E.sqrt_exact_at (s.discriminant r)) (t : K) :
    s.quadratic r t = 0 ↔ t = s.temp_lo E r ∨ t = s.temp_hi E r := by
  have ha := sphere.a_pos_of_discriminant_pos s r hd
  have ha0 : r.direction.length_squared ≠ 0 := ne_of_gt ha
  obtain ⟨_, hsq⟩ := hs
  rw [sphere.quadratic_eq]
  simp only [sphere.temp_lo, sphere.temp_hi]
  simp only [sphere.discriminant] at hsq hd ⊢
  set a := r.direction.length_squared with ha_def
  set hb := vec3.dot (r.origin.sub s.center) r.direction with hb_def
  set c := (r.origin.sub s.center).length_squared - s.radius * s.radius with hc_def
  set root := E.sqrt (hb * hb - a * c) with hroot
  rw [eq_div_iff ha0, eq_div_iff ha0]
  have key : a * (a * t * t + 2 * hb * t + c)
      = (t * a - (-hb - root)) * (t * a - (-hb + root)) := by
    linear_combination hsq
  constructor
  · intro h
    have h0 : (t * a - (-hb - root)) * (t * a - (-hb + root)) = 0 := by
      rw [← key, h, mul_zero]
    rcases mul_eq_zero.mp h0 with h1 | h1
    · left; linarith
    · right; linarith
  · intro h
    have h0 : a * (a * t * t + 2 * hb * t + c) = 0 := by
      rw [key]
      rcases h with h | h
      · rw [h]; ring
      · rw [h]; ring
    rcases mul_eq_zero.mp h0 with h1 | h1
    · exact absurd h1 ha0
    · exact h1

/-- With a positive discriminant and an exact `sqrt`, the first candidate is below the
second. -/
theorem sphere.temp_lo_lt_temp_hi (E : Env K σ) (s : sphere K) (r : ray K)
    (hd : 0 < s.discriminant r) (hs : E.sqrt_exact_at (s.discriminant r)) :
    s.temp_lo E r < s.temp_hi E r := by
  have ha := sphere.a_pos_of_discriminant_pos s r hd
  obtain ⟨hnn, hsq⟩ := hs
  have hpos : 0 < E.sqrt (s.discriminant r) := by
    rcases hnn.lt_or_eq with h | h
    · exact h
    · rw [← h] at hsq; simp at hsq; rw [← hsq] at hd; exact absurd hd (lt_irrefl _)
  simp only [sphere.temp_lo, sphere.temp_hi]
  apply div_lt_div_of_pos_right _ ha
  linarith

end sphere_theorems

section sphere_hit_theorems

variable {K σ : Type} [LinearOrderedField K]

/-- The record filled for an accepted root carries that root as `t` and `r.at(t)` as `p`. -/
theorem sphere.fill_t_p (E : Env K σ) (s : sphere K) (r : ray K) (temp : K)
    (rec : hit_record K) :
    (s.fill E r temp rec).t = temp ∧ (s.fill E r temp rec).p = r.at temp := ⟨rfl, rfl⟩

end sphere_hit_theorems

section list_theorems

variable {K σ : Type} [LinearOrderedField K]

/-- The record filled for an accepted root does not depend on the caller's record: every
field is overwritten. -/
theorem sphere.fill_indep (E : Env K σ) (s : sphere K) (r : ray K) (temp : K)
    (rec rec0 : hit_record K) : s.fill E r temp rec = s.fill E r temp rec0 := rfl

/-- With a positive discriminant and a non-negative `sqrt`, the first candidate is not above
the second. -/
theorem sphere.temp_lo_le_temp_hi (E : Env K σ) (s : sphere K) (r : ray K)
    (hd : 0 < s.discriminant r) (hs : 0 ≤ E.sqrt (s.discriminant r)) :
    s.temp_lo E r ≤ s.temp_hi E r := by
  have ha := sphere.a_pos_of_discriminant_pos s r hd
  simp only [sphere.temp_lo, sphere.temp_hi]
  apply div_le_div_of_nonneg_right _ (le_of_lt ha)
  linarith

/-- Calling `sphere::hit` with the upper bound lowered from `t_max` to `c` succeeds exactly
when the call with `t_max` succeeds with a `t` below `c`, and then fills the same record. -/
theorem sphere.hit_shrink (E : Env K σ) (s : sphere K) (r : ray K) (t_min t_max c : K)
    (rec rec0 : hit_record K) (hc : c ≤ t_max)
    (hs : 0 < s.discriminant r → 0 ≤ E.sqrt (s.discriminant r)) :
    ((s.hit E r t_min c rec).1 = true ↔
      ((s.hit E r t_min t_max rec0).1 = true ∧ (s.hit E r t_min t_max rec0).2.t < c)) ∧
    ((s.hit E r t_min c rec).1 = true →
      (s.hit E r t_min c rec).2 = (s.hit E r t_min t_max rec0).2) := by
  rw [sphere.hit_eq, sphere.hit_eq]
  by_cases hd : s.discriminant r > 0
  · have hle := sphere.temp_lo_le_temp_hi E s r hd (hs hd)
    simp only [hd, if_true]
    by_cases h1 : s.temp_lo E r < t_max ∧ s.temp_lo E r > t_min
    · simp only [h1, and_self, if_true, sphere.fill_t_p]
      by_cases h2 : s.temp_lo E r < c
      · simp only [h2, h1.2, and_self, if_true, true_iff, forall_true_left]
        exact ⟨trivial, sphere.fill_indep E s r _ rec rec0⟩
      · have h3 : ¬ (s.temp_hi E r < c) := fun h => h2 (lt_of_le_of_lt hle h)
        simp [h2, h3]
    · have h2 : ¬ (s.temp_lo E r < c ∧ s.temp_lo E r > t_min) :=
        fun h => h1 ⟨lt_of_lt_of_le h.1 hc, h.2⟩
      simp only [h1, h2, if_false]
      by_cases h3 : s.temp_hi E r < t_max ∧ s.temp_hi E r > t_min
      · simp only [h3, and_self, if_true, sphere.fill_t_p]
        by_cases h4 : s.temp_hi E r < c
        · simp only [h4, h3.2, and_self, if_true, true_iff, forall_true_left]
          exact ⟨trivial, sphere.fill_indep E s r _ rec rec0⟩
        · simp [h4]
      · have h4 : ¬ (s.temp_hi E r < c ∧ s.temp_hi E r > t_min) :=
          fun h => h3 ⟨lt_of_lt_of_le h.1 hc, h.2⟩
        simp [h3, h4]
  · simp [hd]

/-- The loop of `hittable_list::hit` over spheres, started with any values of its locals and
a bound `c ≤ t_max`: if no remaining sphere has an individual hit below `c` the state is
returned as it was; otherwise the result is the record of the first remaining sphere whose
individual `t` is minimal. -/
theorem hittable_list.hit_loop_spheres (E : Env K σ) (r : ray K) (t_min t_max : K)
    (rec0 : hit_record K) :
    ∀ (l : List (sphere K)) (temp : hit_record K) (ha : Bool) (c : K) (rec : hit_record K)
      (st : σ), c ≤ t_max →
      (∀ s ∈ l, 0 < s.discriminant r → 0 ≤ E.sqrt (s.discriminant r)) →
      ((∀ s ∈ l, (s.hit E r t_min t_max rec0).1 = true →
          c ≤ (s.hit E r t_min t_max rec0).2.t) →
        hittable_list.hit_loop r t_min (l.map (sphere.toHittable E)) temp ha c rec st
          = (ha, rec, st)) ∧
      ((∃ s ∈ l, (s.hit E r t_min t_max rec0).1 = true ∧
          (s.hit E r t_min t_max rec0).2.t < c) →
        (hittable_list.hit_loop r t_min (l.map (sphere.toHittable E)) temp ha c rec st).1
          = true ∧
        (hittable_list.hit_loop r t_min (l.map (sphere.toHittable E)) temp ha c rec st).2.2
          = st ∧
        ∃ pre s post, l = pre ++ s :: post ∧
          (s.hit E r t_min t_max rec0).1 = true ∧
          (s.hit E r t_min t_max rec0).2.t < c ∧
          (hittable_list.hit_loop r t_min (l.map (sphere.toHittable E)) temp ha c rec st).2.1
            = (s.hit E r t_min t_max rec0).2 ∧
          (∀ x ∈ pre, (x.hit E r t_min t_max rec0).1 = true →
            (s.hit E r t_min t_max rec0).2.t < (x.hit E r t_min t_max rec0).2.t) ∧
          (∀ x ∈ post, (x.hit E r t_min t_max rec0).1 = true →
            (s.hit E r t_min t_max rec0).2.t ≤ (x.hit E r t_min t_max rec0).2.t)) := by
  intro l
  induction l with
  | nil =>
    intro temp ha c rec st _ _
    simp [hittable_list.hit_loop]
  | cons s rest ih =>
    intro temp ha c rec st hc hs
    have hshr := sphere.hit_shrink E s r t_min t_max c temp rec0 hc
      (hs s (List.mem_cons_self _ _))
    have hs' : ∀ x ∈ rest, 0 < x.discriminant r → 0 ≤ E.sqrt (x.discriminant r) :=
      fun x hx => hs x (List.mem_cons_of_mem _ hx)
    simp only [List.map_cons, hittable_list.hit_loop, sphere.toHittable]
    by_cases hh : (s.hit E r t_min c temp).1 = true
    · have hrec := hshr.2 hh
      obtain ⟨hhit, hlt⟩ := hshr.1.mp hh
      simp only [hh, if_true]
      rw [hrec]
      have ih' := ih (s.hit E r t_min t_max rec0).2 true (s.hit E r t_min t_max rec0).2.t
        (s.hit E r t_min t_max rec0).2 st (le_trans (le_of_lt hlt) hc) hs'
      constructor
      · intro hall
        exact absurd (hall s (List.mem_cons_self _ _) hhit) (not_le.mpr hlt)
      · intro _
        by_cases hex : ∃ x ∈ rest, (x.hit E r t_min t_max rec0).1 = true ∧
            (x.hit E r t_min t_max rec0).2.t < (s.hit E r t_min t_max rec0).2.t
        · obtain ⟨h1, h2, pre, y, post, hl, hhity, hlty, hrecy, hpre, hpost⟩ := ih'.2 hex
          refine ⟨h1, h2, s :: pre, y, post, by simp [hl], hhity, lt_trans hlty hlt, hrecy,
            ?_, hpost⟩
          intro x hx hitx
          rcases List.mem_cons.mp hx with hxs | hmem
          · rw [hxs]; exact hlty
          · exact hpre x hmem hitx
        · have hall : ∀ x ∈ rest, (x.hit E r t_min t_max rec0).1 = true →
              (s.hit E r t_min t_max rec0).2.t ≤ (x.hit E r t_min t_max rec0).2.t := by
            intro x hx hitx
            exact not_lt.mp (fun h => hex ⟨x, hx, hitx, h⟩)
          rw [ih'.1 hall]
          exact ⟨rfl, rfl, [], s, rest, rfl, hhit, hlt, rfl, by simp, hall⟩
    · simp only [hh, if_false]
      have ih' := ih (s.hit E r t_min c temp).2 ha c rec st hc hs'
      have hnot : ¬ ((s.hit E r t_min t_max rec0).1 = true ∧
          (s.hit E r t_min t_max rec0).2.t < c) := fun h => hh (hshr.1.mpr h)
      constructor
      · intro hall
        exact ih'.1 (fun x hx => hall x (List.mem_cons_of_mem _ hx))
      · rintro ⟨y, hy, hity, hlty⟩
        rcases List.mem_cons.mp hy with hys | hmem
        · rw [hys] at hity hlty
          exact absurd ⟨hity, hlty⟩ hnot
        · obtain ⟨h1, h2, pre, z, post, hl, hhitz, hltz, hrecz, hpre, hpost⟩ :=
            ih'.2 ⟨y, hmem, hity, hlty⟩
          refine ⟨h1, h2, s :: pre, z, post, by simp [hl], hhitz, hltz, hrecz, ?_, hpost⟩
          intro x hx hitx
          rcases List.mem_cons.mp hx with hxs | hmem2
          · rw [hxs] at hitx ⊢
            exact lt_of_lt_of_le hltz (not_lt.mp (fun h => hnot ⟨hitx, h⟩))
          · exact hpre x hmem2 hitx

/-- C6: on a list of spheres `hittable_list::hit` returns true exactly when some member's own
`hit(r, t_min, t_max)` does; the record is then that of the first member in list order whose
own `t` is the minimum of the `t` values the members report; on the empty list it returns
false. -/
theorem hittable_list_hit_reports_first_closest_member (E : Env K σ) (ss : List (sphere K))
    (r : ray K) (t_min t_max : K) (rec rec0 : hit_record K) (st : σ)
    (hs : ∀ s ∈ ss, 0 < s.discriminant r → 0 ≤ E.sqrt (s.discriminant r)) :
    ((hittable_list.hit E (ss.map (sphere.toHittable E)) r t_min t_max rec st).1 = true ↔
      ∃ s ∈ ss, (s.hit E r t_min t_max rec0).1 = true) ∧
    ((hittable_list.hit E (ss.map (sphere.toHittable E)) r t_min t_max rec st).1 = true →
      ∃ pre s post, ss = pre ++ s :: post ∧
        (s.hit E r t_min t_max rec0).1 = true ∧
        (hittable_list.hit E (ss.map (sphere.toHittable E)) r t_min t_max rec st).2.1
          = (s.hit E r t_min t_max rec0).2 ∧
        (∀ x ∈ pre, (x.hit E r t_min t_max rec0).1 = true →
          (s.hit E r t_min t_max rec0).2.t < (x.hit E r t_min t_max rec0).2.t) ∧
        (∀ x ∈ post, (x.hit E r t_min t_max rec0).1 = true →
          (s.hit E r t_min t_max rec0).2.t ≤ (x.hit E r t_min t_max rec0).2.t)) ∧
    (hittable_list.hit E ([] : List (hittable K σ)) r t_min t_max rec st).1 = false := by
  have hloop := hittable_list.hit_loop_spheres E r t_min t_max rec0 ss E.uninit_rec false
    t_max rec st (le_refl _) hs
  have hwin : ∀ s : sphere K, (s.hit E r t_min t_max rec0).1 = true →
      (s.hit E r t_min t_max rec0).2.t < t_max := by
    intro s h
    rw [sphere.hit_eq] at h ⊢
    split_ifs at h ⊢ with h1 h2 h3
    · exact h2.1
    · exact h3.1
  simp only [hittable_list.hit]
  by_cases hex : ∃ s ∈ ss, (s.hit E r t_min t_max rec0).1 = true
  · obtain ⟨s, hmem, hit⟩ := hex
    obtain ⟨h1, _, pre, y, post, hl, hity, _, hrecy, hpre, hpost⟩ :=
      hloop.2 ⟨s, hmem, hit, hwin s hit⟩
    exact ⟨⟨fun _ => ⟨s, hmem, hit⟩, fun _ => h1⟩,
      fun _ => ⟨pre, y, post, hl, hity, hrecy, hpre, hpost⟩, rfl⟩
  · have hall : ∀ s ∈ ss, (s.hit E r t_min t_max rec0).1 = true →
        t_max ≤ (s.hit E r t_min t_max rec0).2.t :=
      fun s hmem hit => absurd ⟨s, hmem, hit⟩ hex
    rw [hloop.1 hall]
    exact ⟨⟨fun h => Bool.noConfusion h, fun h => absurd h hex⟩,
      fun h => Bool.noConfusion h, rfl⟩

end list_theorems

section list_box_theorems

variable {K σ : Type} [LinearOrderedField K]

/-- Containment of boxes is reflexive. -/
theorem aabb.contains_refl (A : aabb K) : A.contains A :=
  ⟨⟨le_refl _, le_refl _, le_refl _⟩, ⟨le_refl _, le_refl _, le_refl _⟩⟩

/-- Containment of boxes is transitive. -/
theorem aabb.contains_trans {A B C : aabb K} (h1 : A.contains B) (h2 : B.contains C) :
    A.contains C := by
  obtain ⟨⟨a1, a2, a3⟩, ⟨a4, a5, a6⟩⟩ := h1
  obtain ⟨⟨b1, b2, b3⟩, ⟨b4, b5, b6⟩⟩ := h2
  exact ⟨⟨le_trans a1 b1, le_trans a2 b2, le_trans a3 b3⟩,
    ⟨le_trans b4 a4, le_trans b5 a5, le_trans b6 a6⟩⟩

/-- The surrounding box contains its first argument. -/
theorem surrounding_box_contains_left (A B : aabb K) : (surrounding_box A B).contains A := by
  simp [aabb.contains, surrounding_box, aabb.min, aabb.max]

/-- The surrounding box contains its second argument. -/
theorem surrounding_box_contains_right (A B : aabb K) : (surrounding_box A B).contains B := by
  simp [aabb.contains, surrounding_box, aabb.min, aabb.max]

/-- The surrounding box of a box with itself is that box. -/
theorem surrounding_box_self (A : aabb K) : surrounding_box A A = A := by
  simp [surrounding_box, aabb.min, aabb.max]

/-- The fold of `surrounding_box` over the members' boxes contains its start value and every
member's box. -/
theorem surrounding_fold_contains (time0 time1 : K) (box0 : aabb K) :
    ∀ (l : List (hittable K σ)) (acc : aabb K),
      (l.foldl (fun a o => surrounding_box a (o.bounding_box time0 time1 box0).2) acc).contains acc ∧
      ∀ o ∈ l,
        (l.foldl (fun a o => surrounding_box a (o.bounding_box time0 time1 box0).2) acc).contains
          (o.bounding_box time0 time1 box0).2 := by
  intro l
  induction l with
  | nil => intro acc; exact ⟨aabb.contains_refl acc, fun o ho => absurd ho (List.not_mem_nil o)⟩
  | cons x rest ih =>
    intro acc
    obtain ⟨h1, h2⟩ := ih (surrounding_box acc (x.bounding_box time0 time1 box0).2)
    simp only [List.foldl_cons]
    refine ⟨aabb.contains_trans h1 (surrounding_box_contains_left _ _), ?_⟩
    intro o ho
    rcases List.mem_cons.mp ho with hox | hmem
    · rw [hox]
      exact aabb.contains_trans h1 (surrounding_box_contains_right _ _)
    · exact h2 o hmem

/-- The loop of `hittable_list::bounding_box`: it fails when some remaining member fails, and
otherwise folds `surrounding_box` over the remaining members' boxes. -/
theorem hittable_list.bounding_box_loop_spec (time0 time1 : K) (box0 : aabb K) :
    ∀ (l : List (hittable K σ)) (temp out : aabb K), (∀ o ∈ l, o.box_independent) →
      ((∃ o ∈ l, (o.bounding_box time0 time1 box0).1 = false) →
        (hittable_list.bounding_box_loop time0 time1 l temp out).1 = false) ∧
      ((∀ o ∈ l, (o.bounding_box time0 time1 box0).1 = true) →
        hittable_list.bounding_box_loop time0 time1 l temp out =
          (true, l.foldl (fun a o => surrounding_box a (o.bounding_box time0 time1 box0).2)
            out)) := by
  intro l
  induction l with
  | nil =>
    intro temp out _
    simp [hittable_list.bounding_box_loop]
  | cons x rest ih =>
    intro temp out hind
    have hx := hind x (List.mem_cons_self _ _) time0 time1 temp box0
    have hrest : ∀ o ∈ rest, o.box_independent := fun o ho => hind o (List.mem_cons_of_mem _ ho)
    simp only [hittable_list.bounding_box_loop, List.foldl_cons]
    by_cases hb : (x.bounding_box time0 time1 temp).1 = true
    · have hb0 : (x.bounding_box time0 time1 box0).1 = true := by rw [← hx.1]; exact hb
      have hbox := hx.2 hb
      obtain ⟨ih1, ih2⟩ := ih (x.bounding_box time0 time1 temp).2
        (surrounding_box out (x.bounding_box time0 time1 temp).2) hrest
      simp only [hb, Bool.not_true, Bool.false_eq_true, if_false]
      constructor
      · rintro ⟨o, ho, hfail⟩
        rcases List.mem_cons.mp ho with hox | hmem
        · rw [hox, hb0] at hfail; exact Bool.noConfusion hfail
        · exact ih1 ⟨o, hmem, hfail⟩
      · intro hall
        rw [ih2 (fun o ho => hall o (List.mem_cons_of_mem _ ho)), hbox]
    · have hbf : (x.bounding_box time0 time1 temp).1 = false := by
        cases h : (x.bounding_box time0 time1 temp).1
        · rfl
        · exact absurd h hb
      simp only [hbf, Bool.not_false, if_true]
      refine ⟨fun _ => trivial, fun hall => ?_⟩
      have := hall x (List.mem_cons_self _ _)
      rw [← hx.1, hbf] at this
      exact Bool.noConfusion this

/-- C7: `hittable_list::bounding_box` returns false exactly when the list is empty or some
member's `bounding_box` returns false; when it returns true the output box is the fold of
`surrounding_box` over the members' boxes and contains every member's box. -/
theorem hittable_list_bounding_box_fails_iff_and_is_union (E : Env K σ)
    (objects : List (hittable K σ)) (time0 time1 : K) (output_box box0 : aabb K)
    (hind : ∀ o ∈ objects, o.box_independent) :
    ((hittable_list.bounding_box E objects time0 time1 output_box).1 = false ↔
      (objects = [] ∨ ∃ o ∈ objects, (o.bounding_box time0 time1 box0).1 = false)) ∧
    ((hittable_list.bounding_box E objects time0 time1 output_box).1 = true →
      ∃ first rest, objects = first :: rest ∧
        (hittable_list.bounding_box E objects time0 time1 output_box).2 =
          rest.foldl (fun a o => surrounding_box a (o.bounding_box time0 time1 box0).2)
            (first.bounding_box time0 time1 box0).2 ∧
        ∀ o ∈ objects,
          (hittable_list.bounding_box E objects time0 time1 output_box).2.contains
            (o.bounding_box time0 time1 box0).2) := by
  cases objects with
  | nil => simp [hittable_list.bounding_box]
  | cons first rest =>
    have hf := hind first (List.mem_cons_self _ _) time0 time1 E.uninit_box box0
    obtain ⟨l1, l2⟩ := hittable_list.bounding_box_loop_spec time0 time1 box0 (first :: rest)
      (first.bounding_box time0 time1 E.uninit_box).2
      (first.bounding_box time0 time1 E.uninit_box).2 hind
    simp only [hittable_list.bounding_box]
    by_cases hb : (first.bounding_box time0 time1 E.uninit_box).1 = true
    · have hb0 : (first.bounding_box time0 time1 box0).1 = true := by rw [← hf.1]; exact hb
      simp only [hb, Bool.not_true, Bool.false_eq_true, if_false]
      by_cases hall : ∀ o ∈ first :: rest, (o.bounding_box time0 time1 box0).1 = true
      · rw [l2 hall, hf.2 hb]
        simp only [List.foldl_cons, surrounding_box_self]
        refine ⟨⟨fun h => Bool.noConfusion h, ?_⟩, fun _ => ⟨first, rest, rfl, rfl, ?_⟩⟩
        · rintro (h | ⟨o, ho, hfail⟩)
          · exact absurd h (List.cons_ne_nil _ _)
          · rw [hall o ho] at hfail; exact Bool.noConfusion hfail
        · intro o ho
          have hc := surrounding_fold_contains (σ := σ) time0 time1 box0 rest
            (first.bounding_box time0 time1 box0).2
          rcases List.mem_cons.mp ho with hox | hmem
          · rw [hox]; exact hc.1
          · exact hc.2 o hmem
      · have hex : ∃ o ∈ first :: rest, (o.bounding_box time0 time1 box0).1 = false := by
          by_contra hne
          apply hall
          intro o ho
          cases h : (o.bounding_box time0 time1 box0).1
          · exact absurd ⟨o, ho, h⟩ hne
          · rfl
        have hfalse := l1 hex
        refine ⟨⟨fun _ => Or.inr hex, fun _ => hfalse⟩, fun h => ?_⟩
        rw [hfalse] at h; exact Bool.noConfusion h
    · have hbf : (first.bounding_box time0 time1 E.uninit_box).1 = false := by
        cases h : (first.bounding_box time0 time1 E.uninit_box).1
        · rfl
        · exact absurd h hb
      have hb0 : (first.bounding_box time0 time1 box0).1 = false := by rw [← hf.1]; exact hbf
      simp only [hbf, Bool.not_false, if_true]
      exact ⟨⟨fun _ => Or.inr ⟨first, List.mem_cons_self _ _, hb0⟩, fun _ => trivial⟩,
        fun h => Bool.noConfusion h⟩

end list_box_theorems

section integrator_theorems

variable {K σ : Type} [LinearOrderedField K]

/-- C8: the defining equations of `ray_color`: black when `depth <= 0`; otherwise the
background when the scene is not hit over `(epsilon, infinity)`; otherwise the emitted colour
alone when the material of the hit does not scatter; otherwise the emitted colour plus the
attenuation times (componentwise) `ray_color` of the scattered ray with `depth - 1`. -/
theorem ray_color_defining_equations (E : Env K σ) (r : ray K) (background : vec3 K)
    (world : hittable K σ) (depth : Int) (s : σ) :
    ray_color E r background world depth s =
      if depth ≤ 0 then (Color.black, s)
      else if (ray_color.world_hit E r world s).1 = false then
        (background, (ray_color.world_hit E r world s).2.2)
      else if (ray_color.scatter E r world s).ok = false then
        (ray_color.emitted E r world s, (ray_color.scatter E r world s).state)
      else
        ((ray_color.emitted E r world s).add
          ((ray_color.scatter E r world s).attenuation.mul
            (ray_color E (ray_color.scatter E r world s).scattered background world
              (depth - 1) (ray_color.scatter E r world s).state).1),
          (ray_color E (ray_color.scatter E r world s).scattered background world
            (depth - 1) (ray_color.scatter E r world s).state).2) := by
  rw [ray_color]
  simp only [ray_color.emitted, ray_color.scatter, ray_color.world_hit]
  by_cases hd : depth ≤ 0
  · simp only [hd, if_true]
  · simp only [hd, if_false]
    cases hh : (world.hit r E.epsilon E.infinity E.uninit_rec s).1
    · simp
    · simp only [Bool.not_true, Bool.false_eq_true, if_false]
      cases hsc : ((world.hit r E.epsilon E.infinity E.uninit_rec s).2.1.mat_ptr.scatter E r
          (world.hit r E.epsilon E.infinity E.uninit_rec s).2.1 E.uninit_vec3 E.uninit_ray
          (world.hit r E.epsilon E.infinity E.uninit_rec s).2.2).ok
      · simp
      · simp

/-- Adding the product of an attenuation with black changes nothing. -/
theorem vec3.add_mul_black (e a : vec3 K) : e.add (a.mul Color.black) = e := by
  cases e
  simp [vec3.add, vec3.mul, Color.black]

/-- The materials other than `diffuse_light` emit black. -/
theorem material.emitted_eq_black (m : material K) (u v : K) (p : vec3 K)
    (h : ∀ emit, m ≠ material.diffuse_light emit) : m.emitted u v p = Color.black := by
  cases m with
  | diffuse_light emit => exact absurd rfl (h emit)
  | lambertian _ => rfl
  | metal _ _ => rfl
  | dielectric _ => rfl
  | isotropic _ => rfl

/-- C9: with `depth = 1`, `ray_color` returns the background when the scene is missed and
otherwise the emitted colour of the material that was hit, the scattered ray contributing
nothing; so a hit on a Lambertian, metal, dielectric or isotropic material gives black. -/
theorem ray_color_depth_one (E : Env K σ) (r : ray K) (background : vec3 K)
    (world : hittable K σ) (s : σ) :
    (ray_color E r background world 1 s).1 =
      (if (ray_color.world_hit E r world s).1 = false then background
       else ray_color.emitted E r world s) ∧
    ((ray_color.world_hit E r world s).1 = true →
      (∀ emit, (ray_color.world_hit E r world s).2.1.mat_ptr ≠ material.diffuse_light emit) →
      (ray_color E r background world 1 s).1 = Color.black) := by
  have key : (ray_color E r background world 1 s).1 =
      (if (ray_color.world_hit E r world s).1 = false then background
       else ray_color.emitted E r world s) := by
    rw [ray_color]
    simp only [ray_color.emitted, ray_color.scatter, ray_color.world_hit,
      show ¬ ((1 : Int) ≤ 0) by decide, if_false]
    cases hh : (world.hit r E.epsilon E.infinity E.uninit_rec s).1
    · simp
    · simp only [Bool.not_true, Bool.false_eq_true, Bool.true_eq_false, if_false]
      cases hsc : ((world.hit r E.epsilon E.infinity E.uninit_rec s).2.1.mat_ptr.scatter E r
          (world.hit r E.epsilon E.infinity E.uninit_rec s).2.1 E.uninit_vec3 E.uninit_ray
          (world.hit r E.epsilon E.infinity E.uninit_rec s).2.2).ok
      · simp
      · simp only [Bool.not_true, Bool.false_eq_true, if_false]
        rw [ray_color]
        simp only [show ((1 : Int) - 1 ≤ 0) by decide, if_true]
        exact vec3.add_mul_black _ _
  refine ⟨key, fun hhit hmat => ?_⟩
  rw [key]
  simp only [hhit, Bool.true_eq_false, if_false]
  exact material.emitted_eq_black _ _ _ _ hmat

/-- C10: `ray_color` terminates within `max(depth, 0)` nested recursive calls: run with fuel
for the outermost call and `max(depth, 0)` nested ones (or more), it returns the value of
`ray_color`. -/
theorem ray_color_terminates_within_depth (E : Env K σ) (background : vec3 K)
    (world : hittable K σ) (depth : Int) (k : Nat) (r : ray K) (s : σ) :
    ((depth.toNat : Int) = max depth 0) ∧
    ray_color_fuel E (depth.toNat + 1 + k) r background world depth s
      = some (ray_color E r background world depth s) := by
  refine ⟨Int.toNat_eq_max depth, ?_⟩
  generalize hn : depth.toNat = n
  induction n generalizing depth r s with
  | zero =>
    have hd : depth ≤ 0 := Int.toNat_eq_zero.mp hn
    rw [ray_color]
    simp only [Nat.zero_add, Nat.add_comm 1 k, ray_color_fuel, hd, if_true]
  | succ m ih =>
    have hd : ¬ depth ≤ 0 := by
      intro h
      rw [Int.toNat_eq_zero.mpr h] at hn
      exact Nat.succ_ne_zero m hn.symm
    have hm : (depth - 1).toNat = m := by omega
    rw [ray_color]
    rw [show m + 1 + 1 + k = (m + 1 + k) + 1 by omega]
    simp only [ray_color_fuel, hd, if_false]
    cases hh : (world.hit r E.epsilon E.infinity E.uninit_rec s).1
    · simp
    · simp only [Bool.not_true, Bool.false_eq_true, if_false]
      cases hsc : ((world.hit r E.epsilon E.infinity E.uninit_rec s).2.1.mat_ptr.scatter E r
          (world.hit r E.epsilon E.infinity E.uninit_rec s).2.1 E.uninit_vec3 E.uninit_ray
          (world.hit r E.epsilon E.infinity E.uninit_rec s).2.2).ok
      · simp
      · simp only [Bool.not_true, Bool.false_eq_true, if_false]
        rw [ih (depth - 1) _ _ hm]

end integrator_theorems

section geometry_theorems

variable {K σ : Type} [LinearOrderedField K]

/-- A ray parameter whose point lies in the slab of axis `a` lies between the entry and exit
parameters that `aabb::hit` computes for that axis. -/
theorem aabb.t0_le_and_le_t1 (B : aabb K) (r : ray K) (a : Nat) (t : K)
    (hd : r.direction.e a ≠ 0)
    (hlo : B._min.e a ≤ r.origin.e a + t * r.direction.e a)
    (hhi : r.origin.e a + t * r.direction.e a ≤ B._max.e a) :
    B.t0 r a ≤ t ∧ t ≤ B.t1 r a := by
  simp only [aabb.t0, aabb.t1]
  rcases lt_or_gt_of_ne hd with hneg | hpos
  · have hinv : 1 / r.direction.e a < 0 := one_div_neg.mpr hneg
    simp only [hinv, if_true]
    rw [mul_one_div, mul_one_div, div_le_iff_of_neg hneg, le_div_iff_of_neg hneg]
    constructor <;> linarith
  · have hinv : ¬ (1 / r.direction.e a < 0) := not_lt.mpr (le_of_lt (one_div_pos.mpr hpos))
    simp only [hinv, if_false]
    rw [mul_one_div, mul_one_div, div_le_iff₀ hpos, le_div_iff₀ hpos]
    constructor <;> linarith

/-- Component `a` of the point `r.at(t)`. -/
theorem ray.at_e (r : ray K) (t : K) (a : Nat) :
    (r.at t).e a = r.origin.e a + t * r.direction.e a := by
  simp only [ray.at, vec3.add, vec3.smul, vec3.e]
  split_ifs <;> rfl

/-- A coordinate of a vector of squared length `R * R` lies between `-R` and `R`. -/
theorem coord_bound_of_length_squared (x y z R : K) (hR : 0 ≤ R)
    (h : x * x + y * y + z * z = R * R) : -R ≤ x ∧ x ≤ R := by
  have hy := mul_self_nonneg y
  have hz := mul_self_nonneg z
  have hxx : x ^ 2 ≤ R ^ 2 := by
    rw [pow_two, pow_two]; linarith
  exact abs_le_of_sq_le_sq' hxx hR

/-- A point of the sphere lies in the box of `sphere::bounding_box` when the radius is not
negative. -/
theorem sphere.point_in_bounding_box (s : sphere K) (r : ray K) (t time0 time1 : K)
    (b0 : aabb K) (hr : 0 ≤ s.radius) (hq : s.quadratic r t = 0) (a : Nat) :
    (s.bounding_box time0 time1 b0).2._min.e a ≤ (r.at t).e a ∧
    (r.at t).e a ≤ (s.bounding_box time0 time1 b0).2._max.e a := by
  simp only [sphere.quadratic, vec3.length_squared, vec3.sub] at hq
  have hsum : ((r.at t).x - s.center.x) * ((r.at t).x - s.center.x)
      + ((r.at t).y - s.center.y) * ((r.at t).y - s.center.y)
      + ((r.at t).z - s.center.z) * ((r.at t).z - s.center.z) = s.radius * s.radius := by
    linarith
  have hx := coord_bound_of_length_squared _ _ _ _ hr hsum
  have hy := coord_bound_of_length_squared ((r.at t).y - s.center.y)
    ((r.at t).x - s.center.x) ((r.at t).z - s.center.z) _ hr (by linarith)
  have hz := coord_bound_of_length_squared ((r.at t).z - s.center.z)
    ((r.at t).x - s.center.x) ((r.at t).y - s.center.y) _ hr (by linarith)
  simp only [sphere.bounding_box, vec3.sub, vec3.add, vec3.e]
  split_ifs
  · constructor <;> linarith [hx.1, hx.2]
  · constructor <;> linarith [hy.1, hy.2]
  · constructor <;> linarith [hz.1, hz.2]

end geometry_theorems

section sphere_bvh_lemmas

variable {K σ : Type} [LinearOrderedField K]

/-- A successful `sphere::hit` has a positive discriminant and reports one of the two
candidates, strictly inside the window. -/
theorem sphere.hit_true_cases (E : Env K σ) (s : sphere K) (r : ray K) (t_min t_max : K)
    (rec : hit_record K) (h : (s.hit E r t_min t_max rec).1 = true) :
    0 < s.discriminant r ∧
    ((s.hit E r t_min t_max rec).2.t = s.temp_lo E r ∨
      (s.hit E r t_min t_max rec).2.t = s.temp_hi E r) ∧
    t_min < (s.hit E r t_min t_max rec).2.t ∧ (s.hit E r t_min t_max rec).2.t < t_max := by
  rw [sphere.hit_eq] at h ⊢
  split_ifs at h ⊢ with h1 h2 h3
  · exact ⟨h1, Or.inl rfl, h2.2, h2.1⟩
  · exact ⟨h1, Or.inr rfl, h3.2, h3.1⟩

/-- Cauchy-Schwarz for triples, on squares. -/
theorem vec3.dot_sq_le (u v : vec3 K) :
    vec3.dot u v * vec3.dot u v ≤ u.length_squared * v.length_squared := by
  simp only [vec3.dot, vec3.length_squared]
  nlinarith [sq_nonneg (u.x * v.y - u.y * v.x), sq_nonneg (u.x * v.z - u.z * v.x),
    sq_nonneg (u.y * v.z - u.z * v.y)]

/-- Disjoint spheres with non-negative radii have no point in common: no ray parameter is
a zero of both quadratics. -/
theorem sphere.disjoint_no_common_root (a b : sphere K) (r : ray K) (t : K)
    (hd : sphere.disjoint a b) (ha : 0 ≤ a.radius) (hb : 0 ≤ b.radius)
    (hqa : a.quadratic r t = 0) (hqb : b.quadratic r t = 0) : False := by
  have hcs := vec3.dot_sq_le ((r.at t).sub a.center) ((r.at t).sub b.center)
  simp only [sphere.quadratic] at hqa hqb
  have hua : ((r.at t).sub a.center).length_squared = a.radius * a.radius := by linarith
  have hvb : ((r.at t).sub b.center).length_squared = b.radius * b.radius := by linarith
  rw [hua, hvb] at hcs
  have hprod : 0 ≤ a.radius * b.radius := mul_nonneg ha hb
  have hsq : (vec3.dot ((r.at t).sub a.center) ((r.at t).sub b.center)) ^ 2
      ≤ (a.radius * b.radius) ^ 2 := by
    rw [pow_two, pow_two]; linarith
  have hdot := (abs_le_of_sq_le_sq' hsq hprod).1
  have hdist : (a.center.sub b.center).length_squared =
      ((r.at t).sub a.center).length_squared + ((r.at t).sub b.center).length_squared
        - 2 * vec3.dot ((r.at t).sub a.center) ((r.at t).sub b.center) := by
    simp only [vec3.length_squared, vec3.sub, vec3.dot]
    ring
  simp only [sphere.disjoint] at hd
  rw [hdist, hua, hvb] at hd
  nlinarith

end sphere_bvh_lemmas
section sphere_box_sound

variable {K σ : Type} [LinearOrderedField K]

/-- A sufficient condition for `aabb::hit`: two parameters `lo < hi` that lie in all three
slabs, with `lo` below the upper bound and `hi` above the lower bound of the window. -/
theorem aabb_hit_of_chord (B : aabb K) (r : ray K) (tmin c lo hi : K)
    (h1 : tmin < hi) (h2 : lo < c) (h3 : lo < hi) (h4 : tmin < c)
    (ha : ∀ a, a < 3 → B.t0 r a ≤ lo ∧ hi ≤ B.t1 r a) : B.hit r tmin c = true := by
  have hbase : max tmin lo < min c hi := by
    rw [max_lt_iff, lt_min_iff, lt_min_iff]
    exact ⟨⟨h4, h1⟩, h2, h3⟩
  have key : ∀ m M : K, m ≤ max tmin lo → min c hi ≤ M → ¬ (M ≤ m) := by
    intro m M hm hM hle
    exact absurd (lt_of_le_of_lt hm (lt_of_lt_of_le hbase hM)) (not_lt.mpr hle)
  obtain ⟨a0, b0⟩ := ha 0 (by decide)
  obtain ⟨a1, b1⟩ := ha 1 (by decide)
  obtain ⟨a2, b2⟩ := ha 2 (by decide)
  have m1 : max tmin (B.t0 r 0) ≤ max tmin lo := max_le_max (le_refl _) a0
  have M1 : min c hi ≤ min c (B.t1 r 0) := min_le_min (le_refl _) b0
  have m2 : max (max tmin (B.t0 r 0)) (B.t0 r 1) ≤ max tmin lo :=
    max_le m1 (le_trans a1 (le_max_right _ _))
  have M2 : min c hi ≤ min (min c (B.t1 r 0)) (B.t1 r 1) :=
    le_min M1 (le_trans (min_le_right _ _) b1)
  have m3 : max (max (max tmin (B.t0 r 0)) (B.t0 r 1)) (B.t0 r 2) ≤ max tmin lo :=
    max_le m2 (le_trans a2 (le_max_right _ _))
  have M3 : min c hi ≤ min (min (min c (B.t1 r 0)) (B.t1 r 1)) (B.t1 r 2) :=
    le_min M2 (le_trans (min_le_right _ _) b2)
  simp only [aabb.hit, aabb.hit_loop, ite_gt_eq_max, ite_lt_eq_min,
    if_neg (key _ _ m1 M1), if_neg (key _ _ m2 M2), if_neg (key _ _ m3 M3)]

/-- Component `a` of the min corner of a containing box is below that of the contained
box, and the max corner above. -/
theorem aabb.contains_e {A B : aabb K} (h : A.contains B) (a : Nat) :
    A._min.e a ≤ B._min.e a ∧ B._max.e a ≤ A._max.e a := by
  obtain ⟨⟨h1, h2, h3⟩, ⟨h4, h5, h6⟩⟩ := h
  simp only [vec3.e]
  split_ifs
  · exact ⟨h1, h4⟩
  · exact ⟨h2, h5⟩
  · exact ⟨h3, h6⟩

/-- A box containing the bounding box of a sphere of non-negative radius is hit over
`(tmin, c)` by every ray without zero direction component whose hit on the sphere has
`t < c`. -/
theorem sphere.toHittable_box_sound (E : Env K σ) (s : sphere K) (r : ray K)
    (tmin tmax : K) (rec0 : hit_record K) (st : σ) (time0 time1 : K) (b0 : aabb K)
    (hr : 0 ≤ s.radius)
    (hdir : r.direction.x ≠ 0 ∧ r.direction.y ≠ 0 ∧ r.direction.z ≠ 0)
    (hs : 0 < s.discriminant r → E.sqrt_exact_at (s.discriminant r)) :
    (s.toHittable E).box_sound r tmin tmax rec0 st time0 time1 b0 := by
  intro B c hB hhit hlt
  simp only [sphere.toHittable] at hB hhit hlt
  obtain ⟨hd, hcase, hmin, _⟩ := sphere.hit_true_cases E s r tmin tmax rec0 hhit
  have hse := hs hd
  have hlohi := sphere.temp_lo_lt_temp_hi E s r hd hse
  have hqlo := (sphere.quadratic_eq_zero_iff E s r hd hse (s.temp_lo E r)).mpr (Or.inl rfl)
  have hqhi := (sphere.quadratic_eq_zero_iff E s r hd hse (s.temp_hi E r)).mpr (Or.inr rfl)
  have hdira : ∀ a, r.direction.e a ≠ 0 := by
    intro a
    simp only [vec3.e]
    split_ifs
    · exact hdir.1
    · exact hdir.2.1
    · exact hdir.2.2
  have hslab : ∀ a, a < 3 → B.t0 r a ≤ s.temp_lo E r ∧ s.temp_hi E r ≤ B.t1 r a := by
    intro a _
    have hc := aabb.contains_e hB a
    have plo := sphere.point_in_bounding_box s r (s.temp_lo E r) time0 time1 b0 hr hqlo a
    have phi := sphere.point_in_bounding_box s r (s.temp_hi E r) time0 time1 b0 hr hqhi a
    rw [ray.at_e] at plo phi
    exact ⟨(aabb.t0_le_and_le_t1 B r a _ (hdira a) (le_trans hc.1 plo.1)
        (le_trans plo.2 hc.2)).1,
      (aabb.t0_le_and_le_t1 B r a _ (hdira a) (le_trans hc.1 phi.1)
        (le_trans phi.2 hc.2)).2⟩
  have htlo : s.temp_lo E r ≤ (s.hit E r tmin tmax rec0).2.t := by
    rcases hcase with h | h <;> rw [h]
    exact le_of_lt hlohi
  have hthi : (s.hit E r tmin tmax rec0).2.t ≤ s.temp_hi E r := by
    rcases hcase with h | h <;> rw [h]
    exact le_of_lt hlohi
  exact aabb_hit_of_chord B r tmin c (s.temp_lo E r) (s.temp_hi E r)
    (lt_of_lt_of_le hmin hthi) (lt_of_le_of_lt htlo hlt) hlohi (lt_trans hmin hlt) hslab

end sphere_box_sound

section range_lemmas

variable {K σ : Type}

/-- Membership in the sub-vector `[a, b)` obtained by `take` and `drop`. -/
theorem mem_take_drop_iff_in_range (l : List (hittable K σ)) (a b : Nat) (o : hittable K σ) :
    o ∈ (l.take b).drop a ↔ in_range l a b o := by
  simp only [in_range, List.mem_iff_getElem?, List.getElem?_drop, List.getElem?_take,
    List.get?_eq_getElem?]
  constructor
  · rintro ⟨j, hj⟩
    by_cases h : a + j < b
    · rw [if_pos h] at hj
      exact ⟨a + j, Nat.le_add_right _ _, h, hj⟩
    · rw [if_neg h] at hj
      exact Option.noConfusion hj
  · rintro ⟨i, hai, hib, hi⟩
    refine ⟨i - a, ?_⟩
    have : a + (i - a) = i := by omega
    rw [this, if_pos hib]
    exact hi

/-- The call to `std::sort` on `[a, b)` keeps the size of the vector. -/
theorem sort_range_length (E : Env K σ) (hsort : ∀ cmp l, (E.sort cmp l).Perm l)
    (cmp : hittable K σ → hittable K σ → Bool) (l : List (hittable K σ)) (a b : Nat)
    (hab : a ≤ b) (hb : b ≤ l.length) : (sort_range E cmp l a b).length = l.length := by
  simp only [sort_range, List.length_append, (hsort cmp _).length_eq, List.length_take,
    List.length_drop]
  omega

/-- The call to `std::sort` on `[a, b)` leaves the positions outside `[a, b)` alone. -/
theorem sort_range_get_outside (E : Env K σ) (hsort : ∀ cmp l, (E.sort cmp l).Perm l)
    (cmp : hittable K σ → hittable K σ → Bool) (l : List (hittable K σ)) (a b : Nat)
    (hab : a ≤ b) (hb : b ≤ l.length) (i : Nat) (hi : i < a ∨ b ≤ i) :
    (sort_range E cmp l a b).get? i = l.get? i := by
  have hlen : (E.sort cmp ((l.take b).drop a)).length = b - a := by
    rw [(hsort cmp _).length_eq, List.length_drop, List.length_take]
    omega
  have htake : (l.take a).length = a := by
    rw [List.length_take]; omega
  simp only [sort_range, List.get?_eq_getElem?]
  rcases hi with hi | hi
  · rw [List.append_assoc, List.getElem?_append_left (by rw [htake]; exact hi),
      List.getElem?_take_of_lt hi]
  · rw [List.getElem?_append_right (by rw [List.length_append, htake, hlen]; omega),
      List.getElem?_drop, List.length_append, htake, hlen]
    congr 1
    omega

/-- The call to `std::sort` on `[a, b)` keeps the set of objects in `[a, b)`. -/
theorem sort_range_in_range (E : Env K σ) (hsort : ∀ cmp l, (E.sort cmp l).Perm l)
    (cmp : hittable K σ → hittable K σ → Bool) (l : List (hittable K σ)) (a b : Nat)
    (hab : a ≤ b) (hb : b ≤ l.length) (o : hittable K σ) :
    in_range (sort_range E cmp l a b) a b o ↔ in_range l a b o := by
  have hlen : (E.sort cmp ((l.take b).drop a)).length = b - a := by
    rw [(hsort cmp _).length_eq, List.length_drop, List.length_take]
    omega
  have htake : (l.take a).length = a := by
    rw [List.length_take]; omega
  rw [← mem_take_drop_iff_in_range l a b o, ← (hsort cmp _).mem_iff, List.mem_iff_getElem?]
  simp only [in_range, sort_range, List.get?_eq_getElem?]
  constructor
  · rintro ⟨i, hai, hib, hi⟩
    refine ⟨i - a, ?_⟩
    rw [List.getElem?_append_left (by rw [List.length_append, htake, hlen]; omega),
      List.getElem?_append_right (by rw [htake]; exact hai), htake] at hi
    exact hi
  · rintro ⟨j, hj⟩
    have hjlt : j < b - a := by
      rw [← hlen]
      exact (List.getElem?_eq_some.mp hj).1
    refine ⟨a + j, Nat.le_add_right _ _, by omega, ?_⟩
    rw [List.getElem?_append_left (by rw [List.length_append, htake, hlen]; omega),
      List.getElem?_append_right (by rw [htake]; omega), htake]
    have : a + j - a = j := by omega
    rw [this]
    exact hj

end range_lemmas

section build_lemmas

variable {K σ : Type}

/-- Membership in `[a, b)` splits at any `m` between `a` and `b`. -/
theorem in_range_split (l : List (hittable K σ)) (a m b : Nat) (ham : a ≤ m) (hmb : m ≤ b)
    (o : hittable K σ) : in_range l a b o ↔ (in_range l a m o ∨ in_range l m b o) := by
  simp only [in_range]
  constructor
  · rintro ⟨i, h1, h2, h3⟩
    by_cases h : i < m
    · exact Or.inl ⟨i, h1, h, h3⟩
    · exact Or.inr ⟨i, by omega, h2, h3⟩
  · rintro (⟨i, h1, h2, h3⟩ | ⟨i, h1, h2, h3⟩)
    · exact ⟨i, h1, by omega, h3⟩
    · exact ⟨i, by omega, h2, h3⟩

/-- Membership in `[a, b)` only depends on the positions in `[a, b)`. -/
theorem in_range_congr (l l2 : List (hittable K σ)) (a b : Nat)
    (h : ∀ i, a ≤ i → i < b → l.get? i = l2.get? i) (o : hittable K σ) :
    in_range l a b o ↔ in_range l2 a b o := by
  simp only [in_range]
  constructor
  · rintro ⟨i, h1, h2, h3⟩
    exact ⟨i, h1, h2, by rw [← h i h1 h2]; exact h3⟩
  · rintro ⟨i, h1, h2, h3⟩
    exact ⟨i, h1, h2, by rw [h i h1 h2]; exact h3⟩

/-- Membership in a range of one position. -/
theorem in_range_one (l : List (hittable K σ)) (a : Nat) (x o : hittable K σ)
    (hx : l.get? a = some x) : in_range l a (a + 1) o ↔ o = x := by
  simp only [in_range]
  constructor
  · rintro ⟨i, h1, h2, h3⟩
    have : i = a := by omega
    rw [this, hx] at h3
    exact (Option.some.inj h3).symm
  · intro h
    exact ⟨a, le_refl _, Nat.lt_succ_self _, by rw [h]; exact hx⟩

end build_lemmas

section build_lemmas_field

variable {K σ : Type} [LinearOrderedField K]

/-- A leaf whose object reports a box is covered. -/
theorem bvh.covered_leaf (time0 time1 : K) (b0 : aabb K) (o : hittable K σ)
    (h : (o.bounding_box time0 time1 b0).1 = true) :
    (bvh.leaf o).covered time0 time1 b0 := by
  refine ⟨h, trivial, ?_⟩
  intro x hx
  simp only [bvh.leaves, List.mem_singleton] at hx
  rw [hx]
  exact aabb.contains_refl _

/-- A well-boxed node is covered. -/
theorem bvh.covered_node (time0 time1 : K) (b0 : aabb K) (l r : bvh K σ) (box : aabb K)
    (h : (bvh.node l r box).well_boxed time0 time1 b0) :
    (bvh.node l r box).covered time0 time1 b0 :=
  ⟨rfl, h, h.2.2⟩

/-- The node that the constructor makes of two covered children is well boxed. -/
theorem bvh_node.make_well_boxed (E : Env K σ) (time0 time1 : K) (left right : bvh K σ)
    (hl : left.covered time0 time1 E.uninit_box)
    (hr : right.covered time0 time1 E.uninit_box) :
    (bvh_node.make E left right time0 time1).well_boxed time0 time1 E.uninit_box := by
  obtain ⟨hl1, hl2, hl3⟩ := hl
  obtain ⟨_, hr2, hr3⟩ := hr
  simp only [bvh_node.make, hl1, if_true]
  refine ⟨hl2, hr2, ?_⟩
  intro o ho
  rcases List.mem_append.mp ho with h | h
  · exact aabb.contains_trans (surrounding_box_contains_left _ _) (hl3 o h)
  · exact aabb.contains_trans (surrounding_box_contains_right _ _) (hr3 o h)

/-- The leaves of the node that the constructor makes of two children. -/
theorem bvh_node.make_leaves (E : Env K σ) (time0 time1 : K) (left right : bvh K σ) :
    (bvh_node.make E left right time0 time1).leaves = left.leaves ++ right.leaves := rfl

/-- The constructor makes a node. -/
theorem bvh_node.make_is_node (E : Env K σ) (time0 time1 : K) (left right : bvh K σ) :
    ∃ l r box, bvh_node.make E left right time0 time1 = bvh.node l r box :=
  ⟨left, right, _, rfl⟩

end build_lemmas_field

section build_spec

variable {K σ : Type} [LinearOrderedField K]

/-- What the constructor `bvh_node(objects, start, end, ...)` leaves behind when it returns:
the vector keeps its size, is untouched outside `[start, end)` and holds the same objects in
`[start, end)`; the leaves of the node are exactly the objects of `[start, end)`; the
result is a node, and it is well boxed when every object of the range reports a box. -/
theorem bvh_node.build_spec (E : Env K σ) (hsort : ∀ cmp l, (E.sort cmp l).Perm l)
    (time0 time1 : K) :
    ∀ (fuel : Nat) (objects : List (hittable K σ)) (start end_ : Nat) (s : σ)
      (tree : bvh K σ) (objs : List (hittable K σ)) (s1 : σ),
      start < end_ → end_ ≤ objects.length →
      bvh_node.build E fuel objects start end_ time0 time1 s = some (tree, objs, s1) →
      objs.length = objects.length ∧
      (∀ i, i < start ∨ end_ ≤ i → objs.get? i = objects.get? i) ∧
      (∀ o, in_range objs start end_ o ↔ in_range objects start end_ o) ∧
      (∀ o, o ∈ tree.leaves ↔ in_range objects start end_ o) ∧
      (∃ l r box, tree = bvh.node l r box) ∧
      ((∀ o, in_range objects start end_ o →
          (o.bounding_box time0 time1 E.uninit_box).1 = true) →
        tree.well_boxed time0 time1 E.uninit_box) := by
  intro fuel
  induction fuel with
  | zero =>
    intro objects start end_ s tree objs s1 _ _ h
    simp only [bvh_node.build] at h
    exact Option.noConfusion h
  | succ fuel ih =>
    intro objects start end_ s tree objs s1 hse hel h
    simp only [bvh_node.build] at h
    by_cases h1 : end_ - start = 1
    · rw [if_pos h1] at h
      have hend : end_ = start + 1 := by omega
      obtain ⟨o, ho⟩ : ∃ o, objects.get? start = some o := by
        rw [List.get?_eq_getElem?]
        exact ⟨objects[start], List.getElem?_eq_getElem (by omega)⟩
      rw [ho] at h
      simp only [Option.some.injEq, Prod.mk.injEq] at h
      obtain ⟨ht, hobjs, _⟩ := h
      subst hend
      rw [← ht, ← hobjs]
      refine ⟨rfl, fun _ _ => rfl, fun _ => Iff.rfl, ?_, bvh_node.make_is_node E _ _ _ _, ?_⟩
      · intro x
        rw [bvh_node.make_leaves, in_range_one objects start o x ho]
        simp [bvh.leaves]
      · intro hbox
        have hob := hbox o ((in_range_one objects start o o ho).mpr rfl)
        exact bvh_node.make_well_boxed E time0 time1 _ _
          (bvh.covered_leaf time0 time1 _ o hob) (bvh.covered_leaf time0 time1 _ o hob)
    · rw [if_neg h1] at h
      by_cases h2 : end_ - start = 2
      · rw [if_pos h2] at h
        have hend : end_ = start + 1 + 1 := by omega
        obtain ⟨o0, ho0⟩ : ∃ o, objects.get? start = some o := by
          rw [List.get?_eq_getElem?]
          exact ⟨objects[start], List.getElem?_eq_getElem (by omega)⟩
        obtain ⟨o1, ho1⟩ : ∃ o, objects.get? (start + 1) = some o := by
          rw [List.get?_eq_getElem?]
          exact ⟨objects[start + 1], List.getElem?_eq_getElem (by omega)⟩
        rw [ho0, ho1] at h
        simp only at h
        subst hend
        have hmem : ∀ x, in_range objects start (start + 1 + 1) x ↔ (x = o0 ∨ x = o1) := by
          intro x
          rw [in_range_split objects start (start + 1) (start + 1 + 1) (by omega) (by omega),
            in_range_one objects start o0 x ho0, in_range_one objects (start + 1) o1 x ho1]
        split_ifs at h with hc
        all_goals
          simp only [Option.some.injEq, Prod.mk.injEq] at h
          obtain ⟨ht, hobjs, _⟩ := h
          rw [← ht, ← hobjs]
          refine ⟨rfl, fun _ _ => rfl, fun _ => Iff.rfl, ?_, bvh_node.make_is_node E _ _ _ _,
            ?_⟩
          · intro x
            rw [bvh_node.make_leaves, hmem x]
            simp only [bvh.leaves, List.mem_append, List.mem_singleton]
            try tauto
          · intro hbox
            have hb0 := hbox o0 ((hmem o0).mpr (Or.inl rfl))
            have hb1 := hbox o1 ((hmem o1).mpr (Or.inr rfl))
            exact bvh_node.make_well_boxed E time0 time1 _ _
              (bvh.covered_leaf time0 time1 _ _ (by assumption))
              (bvh.covered_leaf time0 time1 _ _ (by assumption))
      · rw [if_neg h2] at h
        generalize (if (E.random_int 0 2 s).1 = 0 then box_x_compare E
          else if (E.random_int 0 2 s).1 = 1 then box_y_compare E
          else box_z_compare E) = cmp at h
        have hlen1 := sort_range_length E hsort cmp objects start end_ (le_of_lt hse) hel
        have hout1 := sort_range_get_outside E hsort cmp objects start end_ (le_of_lt hse) hel
        have hin1 := sort_range_in_range E hsort cmp objects start end_ (le_of_lt hse) hel
        generalize sort_range E cmp objects start end_ = objects1 at h hlen1 hout1 hin1
        have hsm : start < start + (end_ - start) / 2 := by omega
        have hme : start + (end_ - start) / 2 < end_ := by omega
        generalize start + (end_ - start) / 2 = mid at h hsm hme
        cases hL : bvh_node.build E fuel objects1 start mid time0 time1 (E.random_int 0 2 s).2 with
        | none =>
          rw [hL] at h
          exact Option.noConfusion h
        | some resL =>
          obtain ⟨left, objects2, s2⟩ := resL
          rw [hL] at h
          simp only at h
          obtain ⟨hlen2, hout2, hin2, hleavesL, hnodeL, hwbL⟩ :=
            ih objects1 start mid _ left objects2 s2 hsm (by omega) hL
          cases hR : bvh_node.build E fuel objects2 mid end_ time0 time1 s2 with
          | none =>
            rw [hR] at h
            exact Option.noConfusion h
          | some resR =>
            obtain ⟨right, objects3, s3⟩ := resR
            rw [hR] at h
            simp only [Option.some.injEq, Prod.mk.injEq] at h
            obtain ⟨ht, hobjs, _⟩ := h
            obtain ⟨hlen3, hout3, hin3, hleavesR, hnodeR, hwbR⟩ :=
              ih objects2 mid end_ _ right objects3 s3 hme (by omega) hR
            rw [← ht, ← hobjs]
            have hR1 : ∀ o, in_range objects2 mid end_ o ↔ in_range objects1 mid end_ o :=
              fun o => in_range_congr objects2 objects1 mid end_
                (fun i hi _ => hout2 i (Or.inr hi)) o
            have hL3 : ∀ o, in_range objects3 start mid o ↔ in_range objects2 start mid o :=
              fun o => in_range_congr objects3 objects2 start mid
                (fun i _ hi => hout3 i (Or.inl hi)) o
            have hsplit1 := in_range_split objects1 start mid end_ (le_of_lt hsm) (le_of_lt hme)
            have hsplit3 := in_range_split objects3 start mid end_ (le_of_lt hsm) (le_of_lt hme)
            have hleaves : ∀ o, o ∈ (bvh_node.make E left right time0 time1).leaves ↔
                in_range objects start end_ o := by
              intro o
              rw [bvh_node.make_leaves, List.mem_append, hleavesL o, hleavesR o, hR1 o,
                ← hsplit1 o, hin1 o]
            refine ⟨by omega, ?_, ?_, hleaves, bvh_node.make_is_node E _ _ _ _, ?_⟩
            · intro i hi
              rw [hout3 i (by omega), hout2 i (by omega), hout1 i hi]
            · intro o
              rw [hsplit3 o, hL3 o, hin2 o, hin3 o, hR1 o, ← hsplit1 o, hin1 o]
            · intro hbox
              have hboxL : ∀ o, in_range objects1 start mid o →
                  (o.bounding_box time0 time1 E.uninit_box).1 = true :=
                fun o ho => hbox o ((hin1 o).mp ((hsplit1 o).mpr (Or.inl ho)))
              have hboxR : ∀ o, in_range objects2 mid end_ o →
                  (o.bounding_box time0 time1 E.uninit_box).1 = true :=
                fun o ho => hbox o ((hin1 o).mp ((hsplit1 o).mpr (Or.inr ((hR1 o).mp ho))))
              obtain ⟨l1, r1, b1, hl⟩ := hnodeL
              obtain ⟨l2, r2, b2, hr⟩ := hnodeR
              have hcl := hwbL hboxL
              have hcr := hwbR hboxR
              rw [hl] at hcl ⊢
              rw [hr] at hcr ⊢
              exact bvh_node.make_well_boxed E time0 time1 _ _
                (bvh.covered_node time0 time1 _ _ _ _ hcl)
                (bvh.covered_node time0 time1 _ _ _ _ hcr)

end build_spec

section build_terminates

variable {K σ : Type} [LinearOrderedField K]

/-- The constructor returns on every non-empty range inside the vector: fuel for as many
nested calls as the range has objects is enough. -/
theorem bvh_node.build_returns (E : Env K σ) (hsort : ∀ cmp l, (E.sort cmp l).Perm l)
    (time0 time1 : K) :
    ∀ (fuel : Nat) (objects : List (hittable K σ)) (start end_ : Nat) (s : σ),
      start < end_ → end_ ≤ objects.length → end_ - start ≤ fuel →
      ∃ res, bvh_node.build E fuel objects start end_ time0 time1 s = some res := by
  intro fuel
  induction fuel with
  | zero =>
    intro objects start end_ s hse _ hf
    omega
  | succ fuel ih =>
    intro objects start end_ s hse hel hf
    simp only [bvh_node.build]
    by_cases h1 : end_ - start = 1
    · rw [if_pos h1]
      obtain ⟨o, ho⟩ : ∃ o, objects.get? start = some o := by
        rw [List.get?_eq_getElem?]
        exact ⟨objects[start], List.getElem?_eq_getElem (by omega)⟩
      rw [ho]
      exact ⟨_, rfl⟩
    · rw [if_neg h1]
      by_cases h2 : end_ - start = 2
      · rw [if_pos h2]
        obtain ⟨o0, ho0⟩ : ∃ o, objects.get? start = some o := by
          rw [List.get?_eq_getElem?]
          exact ⟨objects[start], List.getElem?_eq_getElem (by omega)⟩
        obtain ⟨o1, ho1⟩ : ∃ o, objects.get? (start + 1) = some o := by
          rw [List.get?_eq_getElem?]
          exact ⟨objects[start + 1], List.getElem?_eq_getElem (by omega)⟩
        rw [ho0, ho1]
        simp only
        split_ifs <;> exact ⟨_, rfl⟩
      · rw [if_neg h2]
        generalize (if (E.random_int 0 2 s).1 = 0 then box_x_compare E
          else if (E.random_int 0 2 s).1 = 1 then box_y_compare E
          else box_z_compare E) = cmp
        have hlen1 := sort_range_length E hsort cmp objects start end_ (le_of_lt hse) hel
        generalize sort_range E cmp objects start end_ = objects1 at hlen1
        have hsm : start < start + (end_ - start) / 2 := by omega
        have hme : start + (end_ - start) / 2 < end_ := by omega
        have hf1 : start + (end_ - start) / 2 - start ≤ fuel := by omega
        have hf2 : end_ - (start + (end_ - start) / 2) ≤ fuel := by omega
        generalize start + (end_ - start) / 2 = mid at hsm hme hf1 hf2
        obtain ⟨⟨left, objects2, s2⟩, hL⟩ :=
          ih objects1 start mid (E.random_int 0 2 s).2 hsm (by omega) hf1
        have hlen2 := (bvh_node.build_spec E hsort time0 time1 fuel objects1 start mid _ left
          objects2 s2 hsm (by omega) hL).1
        obtain ⟨⟨right, objects3, s3⟩, hR⟩ := ih objects2 mid end_ s2 hme (by omega) hf2
        rw [hL]
        simp only
        rw [hR]
        exact ⟨_, rfl⟩

end build_terminates

/-- The whole vector as a range. -/
theorem in_range_full {K σ : Type} (l : List (hittable K σ)) (o : hittable K σ) :
    in_range l 0 l.length o ↔ o ∈ l := by
  rw [← mem_take_drop_iff_in_range, List.take_length, List.drop_zero]

section bvh_agreement

variable {K σ : Type} [LinearOrderedField K]

/-- Disjointness of spheres is symmetric. -/
theorem sphere.disjoint_symm : Symmetric (sphere.disjoint (K := K)) := by
  intro a b h
  simp only [sphere.disjoint, vec3.length_squared, vec3.sub] at h ⊢
  nlinarith

/-- Two spheres of a pairwise disjoint list whose hits on a ray report the same `t` are the
same sphere. -/
theorem sphere.eq_of_same_hit (E : Env K σ) (ss : List (sphere K))
    (hpos : ∀ s ∈ ss, 0 < s.radius) (hdisj : ss.Pairwise sphere.disjoint) (r : ray K)
    (hsqrt : ∀ s ∈ ss, 0 < s.discriminant r → E.sqrt_exact_at (s.discriminant r))
    (tmin tmax : K) (rec0 : hit_record K) (a b : sphere K) (ha : a ∈ ss) (hb : b ∈ ss)
    (hita : (a.hit E r tmin tmax rec0).1 = true) (hitb : (b.hit E r tmin tmax rec0).1 = true)
    (heq : (a.hit E r tmin tmax rec0).2.t = (b.hit E r tmin tmax rec0).2.t) : a = b := by
  by_contra hne
  have hd := hdisj.forall sphere.disjoint_symm ha hb hne
  obtain ⟨hda, hca, _, _⟩ := sphere.hit_true_cases E a r tmin tmax rec0 hita
  obtain ⟨hdb, hcb, _, _⟩ := sphere.hit_true_cases E b r tmin tmax rec0 hitb
  have hqa : a.quadratic r (a.hit E r tmin tmax rec0).2.t = 0 :=
    (sphere.quadratic_eq_zero_iff E a r hda (hsqrt a ha hda) _).mpr hca
  have hqb : b.quadratic r (b.hit E r tmin tmax rec0).2.t = 0 :=
    (sphere.quadratic_eq_zero_iff E b r hdb (hsqrt b hb hdb) _).mpr hcb
  rw [← heq] at hqb
  exact sphere.disjoint_no_common_root a b r _ hd (le_of_lt (hpos a ha)) (le_of_lt (hpos b hb))
    hqa hqb

end bvh_agreement

/-- The `bounding_box` of a sphere does not read its out-parameter. -/
theorem sphere.toHittable_box_independent {K σ : Type} [LinearOrderedField K] (E : Env K σ)
    (s : sphere K) : (s.toHittable E).box_independent :=
  fun _ _ _ _ => ⟨rfl, fun _ => rfl⟩

/-- Witness of C6: on the two sample spheres the list scan is decided by the members' own
hits. -/
theorem hittable_list_hit_reports_first_closest_member_witness :
    (∀ s ∈ sample_spheres, 0 < s.discriminant sample_ray →
      0 ≤ Env.sample.sqrt (s.discriminant sample_ray)) ∧
    (((hittable_list.hit Env.sample (sample_spheres.map (sphere.toHittable Env.sample))
        sample_ray 0 10 Env.sample.uninit_rec 0).1 = true ↔
      ∃ s ∈ sample_spheres, (s.hit Env.sample sample_ray 0 10 Env.sample.uninit_rec).1 = true) ∧
    ((hittable_list.hit Env.sample (sample_spheres.map (sphere.toHittable Env.sample))
        sample_ray 0 10 Env.sample.uninit_rec 0).1 = true →
      ∃ pre s post, sample_spheres = pre ++ s :: post ∧
        (s.hit Env.sample sample_ray 0 10 Env.sample.uninit_rec).1 = true ∧
        (hittable_list.hit Env.sample (sample_spheres.map (sphere.toHittable Env.sample))
          sample_ray 0 10 Env.sample.uninit_rec 0).2.1
          = (s.hit Env.sample sample_ray 0 10 Env.sample.uninit_rec).2 ∧
        (∀ x ∈ pre, (x.hit Env.sample sample_ray 0 10 Env.sample.uninit_rec).1 = true →
          (s.hit Env.sample sample_ray 0 10 Env.sample.uninit_rec).2.t
            < (x.hit Env.sample sample_ray 0 10 Env.sample.uninit_rec).2.t) ∧
        (∀ x ∈ post, (x.hit Env.sample sample_ray 0 10 Env.sample.uninit_rec).1 = true →
          (s.hit Env.sample sample_ray 0 10 Env.sample.uninit_rec).2.t
            ≤ (x.hit Env.sample sample_ray 0 10 Env.sample.uninit_rec).2.t)) ∧
    (hittable_list.hit Env.sample ([] : List (hittable ℚ Nat)) sample_ray 0 10
      Env.sample.uninit_rec 0).1 = false) := by
  have hs : ∀ s ∈ sample_spheres, 0 < s.discriminant sample_ray →
      0 ≤ Env.sample.sqrt (s.discriminant sample_ray) := by
    intro s hmem _
    simp only [sample_spheres, List.mem_cons, List.mem_singleton, List.not_mem_nil,
      or_false] at hmem
    rcases hmem with h | h <;> rw [h] <;>
      norm_num [sample_sphere, sample_sphere_far, sample_ray, sphere.discriminant, vec3.dot,
        vec3.sub, vec3.length_squared, Env.sample, Rat.sqrt]
  exact ⟨hs, hittable_list_hit_reports_first_closest_member Env.sample sample_spheres
    sample_ray 0 10 Env.sample.uninit_rec Env.sample.uninit_rec 0 hs⟩

/-- Witness of C7: the list of the two sample spheres has a box, the union of the members'
boxes. -/
theorem hittable_list_bounding_box_witness :
    (∀ o ∈ sample_spheres.map (sphere.toHittable Env.sample), o.box_independent) ∧
    (((hittable_list.bounding_box Env.sample
        (sample_spheres.map (sphere.toHittable Env.sample)) 0 1 Env.sample.uninit_box).1 = false ↔
      (sample_spheres.map (sphere.toHittable Env.sample) = [] ∨
        ∃ o ∈ sample_spheres.map (sphere.toHittable Env.sample),
          (o.bounding_box 0 1 Env.sample.uninit_box).1 = false)) ∧
    ((hittable_list.bounding_box Env.sample
        (sample_spheres.map (sphere.toHittable Env.sample)) 0 1 Env.sample.uninit_box).1 = true →
      ∃ first rest, sample_spheres.map (sphere.toHittable Env.sample) = first :: rest ∧
        (hittable_list.bounding_box Env.sample
          (sample_spheres.map (sphere.toHittable Env.sample)) 0 1 Env.sample.uninit_box).2 =
          rest.foldl (fun a o => surrounding_box a (o.bounding_box 0 1 Env.sample.uninit_box).2)
            (first.bounding_box 0 1 Env.sample.uninit_box).2 ∧
        ∀ o ∈ sample_spheres.map (sphere.toHittable Env.sample),
          (hittable_list.bounding_box Env.sample
            (sample_spheres.map (sphere.toHittable Env.sample)) 0 1
              Env.sample.uninit_box).2.contains
            (o.bounding_box 0 1 Env.sample.uninit_box).2)) := by
  have hind : ∀ o ∈ sample_spheres.map (sphere.toHittable Env.sample), o.box_independent := by
    intro o ho
    obtain ⟨s, _, hso⟩ := List.mem_map.mp ho
    rw [← hso]
    exact sphere.toHittable_box_independent Env.sample s
  exact ⟨hind, hittable_list_bounding_box_fails_iff_and_is_union Env.sample
    (sample_spheres.map (sphere.toHittable Env.sample)) 0 1 Env.sample.uninit_box
    Env.sample.uninit_box hind⟩

/-- Witness of C9: the sample ray hits the Lambertian sample sphere, so `ray_color` with
`depth = 1` is black whatever the background. -/
theorem ray_color_depth_one_witness :
    (ray_color.world_hit Env.sample sample_ray (sample_sphere.toHittable Env.sample) 0).1
      = true ∧
    (ray_color Env.sample sample_ray ⟨1, 1, 1⟩ (sample_sphere.toHittable Env.sample) 1 0).1
      = Color.black := by
  have hh : (ray_color.world_hit Env.sample sample_ray (sample_sphere.toHittable Env.sample)
      0).1 = true := by
    norm_num [ray_color.world_hit, sphere.toHittable, sample_sphere, sample_ray, sphere.hit,
      vec3.dot, vec3.sub, vec3.length_squared, Env.sample, Rat.sqrt]
  have hm : ∀ emit, (ray_color.world_hit Env.sample sample_ray
      (sample_sphere.toHittable Env.sample) 0).2.1.mat_ptr ≠ material.diffuse_light emit := by
    intro emit
    norm_num [ray_color.world_hit, sphere.toHittable, sample_sphere, sample_ray, sphere.hit,
      sphere.fill, hit_record.set_face_normal,
      vec3.dot, vec3.sub, vec3.length_squared, Env.sample, Rat.sqrt]
    exact fun h => material.noConfusion h
  exact ⟨hh, (ray_color_depth_one Env.sample sample_ray ⟨1, 1, 1⟩
    (sample_sphere.toHittable Env.sample) 0).2 hh hm⟩

/-- The sample environment sorts by insertion: the result is a permutation. -/
theorem Env.sample_sort_perm (cmp : hittable ℚ Nat → hittable ℚ Nat → Bool)
    (l : List (hittable ℚ Nat)) : (Env.sample.sort cmp l).Perm l :=
  List.perm_insertionSort _ l

section bvh_constructor_theorems

variable {K σ : Type} [LinearOrderedField K]

/-- Every tree that the constructor returns has the constructed shape. -/
theorem bvh_node.build_constructed (E : Env K σ) (time0 time1 : K) :
    ∀ (fuel : Nat) (objects : List (hittable K σ)) (start end_ : Nat) (s : σ)
      (tree : bvh K σ) (objs : List (hittable K σ)) (s1 : σ),
      bvh_node.build E fuel objects start end_ time0 time1 s = some (tree, objs, s1) →
      bvh.constructed E time0 time1 tree := by
  intro fuel
  induction fuel with
  | zero =>
    intro objects start end_ s tree objs s1 h
    simp only [bvh_node.build] at h
    exact Option.noConfusion h
  | succ fuel ih =>
    intro objects start end_ s tree objs s1 h
    simp only [bvh_node.build] at h
    by_cases h1 : end_ - start = 1
    · rw [if_pos h1] at h
      cases ho : objects.get? start with
      | none => rw [ho] at h; exact Option.noConfusion h
      | some o =>
        rw [ho] at h
        simp only [Option.some.injEq, Prod.mk.injEq] at h
        rw [← h.1]
        exact bvh.constructed.objects o o
    · rw [if_neg h1] at h
      by_cases h2 : end_ - start = 2
      · rw [if_pos h2] at h
        cases ho0 : objects.get? start with
        | none => rw [ho0] at h; exact Option.noConfusion h
        | some o0 =>
          cases ho1 : objects.get? (start + 1) with
          | none => rw [ho0, ho1] at h; exact Option.noConfusion h
          | some o1 =>
            rw [ho0, ho1] at h
            simp only at h
            split_ifs at h
            all_goals
              simp only [Option.some.injEq, Prod.mk.injEq] at h
              rw [← h.1]
              exact bvh.constructed.objects _ _
      · rw [if_neg h2] at h
        generalize (if (E.random_int 0 2 s).1 = 0 then box_x_compare E
          else if (E.random_int 0 2 s).1 = 1 then box_y_compare E
          else box_z_compare E) = cmp at h
        generalize sort_range E cmp objects start end_ = objects1 at h
        generalize start + (end_ - start) / 2 = mid at h
        cases hL : bvh_node.build E fuel objects1 start mid time0 time1 (E.random_int 0 2 s).2 with
        | none => rw [hL] at h; exact Option.noConfusion h
        | some resL =>
          obtain ⟨left, objects2, s2⟩ := resL
          rw [hL] at h
          simp only at h
          cases hR : bvh_node.build E fuel objects2 mid end_ time0 time1 s2 with
          | none => rw [hR] at h; exact Option.noConfusion h
          | some resR =>
            obtain ⟨right, objects3, s3⟩ := resR
            rw [hR] at h
            simp only [Option.some.injEq, Prod.mk.injEq] at h
            rw [← h.1]
            exact bvh.constructed.nodes left right (ih _ _ _ _ _ _ _ hL) (ih _ _ _ _ _ _ _ hR)

/-- A tree of the constructed shape is a node, and its `bounding_box` returns true. -/
theorem bvh.constructed_is_node (E : Env K σ) (time0 time1 : K) (tree : bvh K σ)
    (h : bvh.constructed E time0 time1 tree) : ∃ l r box, tree = bvh.node l r box := by
  cases h with
  | objects o0 o1 => exact bvh_node.make_is_node E _ _ _ _
  | nodes l r _ _ => exact bvh_node.make_is_node E _ _ _ _

/-- In a tree of the constructed shape, an object whose `bounding_box` returns false makes
the constructor of the node that holds it print the message. -/
theorem bvh.constructed_reports (E : Env K σ) (time0 time1 : K) (tree : bvh K σ)
    (h : bvh.constructed E time0 time1 tree) :
    (∃ o ∈ tree.leaves, (o.bounding_box time0 time1 E.uninit_box).1 = false) →
    tree.reports_no_box E time0 time1 = true := by
  induction h with
  | objects o0 o1 =>
    rintro ⟨o, ho, hfail⟩
    simp only [bvh_node.make, bvh.leaves, List.singleton_append, List.mem_cons,
      List.mem_singleton, List.not_mem_nil, or_false] at ho
    simp only [bvh_node.make, bvh.reports_no_box, bvh_node.no_box, bvh.bounding_box,
      Bool.or_false]
    rcases ho with h | h
    · rw [← h, hfail]; rfl
    · rw [← h, hfail]; simp
  | nodes l r _ _ ihl ihr =>
    rintro ⟨o, ho, hfail⟩
    simp only [bvh_node.make, bvh.leaves, List.mem_append] at ho
    simp only [bvh_node.make, bvh.reports_no_box]
    rcases ho with h | h
    · rw [ihl ⟨o, h, hfail⟩]; simp
    · rw [ihr ⟨o, h, hfail⟩]; simp

/-- In a tree of the constructed shape whose objects all report a box, every node's box is
the `surrounding_box` of the boxes of its two children. -/
theorem bvh.constructed_box_is_union (E : Env K σ) (time0 time1 : K) (tree : bvh K σ)
    (h : bvh.constructed E time0 time1 tree) :
    (∀ o ∈ tree.leaves, (o.bounding_box time0 time1 E.uninit_box).1 = true) →
    tree.box_is_union E time0 time1 := by
  induction h with
  | objects o0 o1 =>
    intro hall
    have h0 := hall o0 (by simp [bvh_node.make, bvh.leaves])
    simp only [bvh_node.make, bvh.box_is_union, bvh.bounding_box, h0, if_true, and_self]
  | nodes l r hl hr ihl ihr =>
    intro hall
    obtain ⟨l1, l2, lb, hleq⟩ := bvh.constructed_is_node E time0 time1 l hl
    have hL := ihl (fun o ho => hall o (by simp [bvh_node.make, bvh.leaves, ho]))
    have hR := ihr (fun o ho => hall o (by simp [bvh_node.make, bvh.leaves, ho]))
    rw [hleq] at hL ⊢
    simp only [bvh_node.make, bvh.box_is_union, bvh.bounding_box, if_true, true_and]
    exact ⟨hL, hR⟩

/-- C11 (as amended): when the collection holds an object whose `bounding_box` returns
false, the `bvh_node` constructor does not fail: it returns a node all the same, and the
constructor of the node that holds the object prints "No bounding box in bvh_node
constructor.". -/
theorem bvh_node_reports_missing_box_and_returns_node (E : Env K σ)
    (hsort : ∀ cmp l, (E.sort cmp l).Perm l) (objects : List (hittable K σ))
    (time0 time1 : K) (s : σ)
    (hbad : ∃ o ∈ objects, (o.bounding_box time0 time1 E.uninit_box).1 = false) :
    (∃ tree objs s1, bvh_node.of_list E objects.length objects time0 time1 s
      = some (tree, objs, s1)) ∧
    ∀ fuel tree objs s1,
      bvh_node.of_list E fuel objects time0 time1 s = some (tree, objs, s1) →
      (∃ l r box, tree = bvh.node l r box) ∧ tree.reports_no_box E time0 time1 = true := by
  have hlen : 0 < objects.length := by
    obtain ⟨o, ho, _⟩ := hbad
    exact List.length_pos_of_mem ho
  constructor
  · obtain ⟨⟨tree, objs, s1⟩, h⟩ := bvh_node.build_returns E hsort time0 time1 objects.length
      objects 0 objects.length s hlen (le_refl _) (by omega)
    exact ⟨tree, objs, s1, h⟩
  · intro fuel tree objs s1 hbuild
    have hc := bvh_node.build_constructed E time0 time1 fuel objects 0 objects.length s tree
      objs s1 hbuild
    obtain ⟨_, _, _, hleaves, _, _⟩ := bvh_node.build_spec E hsort time0 time1 fuel objects 0
      objects.length s tree objs s1 hlen (le_refl _) hbuild
    refine ⟨bvh.constructed_is_node E time0 time1 tree hc, ?_⟩
    obtain ⟨o, ho, hfail⟩ := hbad
    exact bvh.constructed_reports E time0 time1 tree hc
      ⟨o, (hleaves o).mpr ((in_range_full objects o).mpr ho), hfail⟩

/-- Counterexample to C11 as stated: an empty `hittable_list` reports no box, and the
constructor over the collection that holds it returns a node, whose box comes from the
default-initialised local boxes. -/
theorem bvh_node_built_despite_missing_box :
    (sample_empty_list.bounding_box 0 1 Env.sample.uninit_box).1 = false ∧
    bvh_node.of_list Env.sample 1 [sample_empty_list] 0 1 0 =
      some (bvh.node (bvh.leaf sample_empty_list) (bvh.leaf sample_empty_list)
        (surrounding_box Env.sample.uninit_box Env.sample.uninit_box),
        [sample_empty_list], 1) := by
  constructor
  · rfl
  · simp only [bvh_node.of_list, bvh_node.build, List.length]
    norm_num [Env.sample, bvh_node.make, bvh.bounding_box, sample_empty_list,
      hittable_list.toHittable, hittable_list.bounding_box]

/-- Witness of C11 (as amended), on the collection that holds an empty `hittable_list`. -/
theorem bvh_node_reports_missing_box_witness :
    (∃ o ∈ [sample_empty_list], (o.bounding_box 0 1 Env.sample.uninit_box).1 = false) ∧
    ((∃ tree objs s1, bvh_node.of_list Env.sample [sample_empty_list].length
        [sample_empty_list] 0 1 0 = some (tree, objs, s1)) ∧
      ∀ fuel tree objs s1,
        bvh_node.of_list Env.sample fuel [sample_empty_list] 0 1 0 = some (tree, objs, s1) →
        (∃ l r box, tree = bvh.node l r box) ∧
          tree.reports_no_box Env.sample 0 1 = true) := by
  have hbad : ∃ o ∈ [sample_empty_list],
      (o.bounding_box 0 1 Env.sample.uninit_box).1 = false :=
    ⟨sample_empty_list, List.mem_singleton.mpr rfl, rfl⟩
  exact ⟨hbad, bvh_node_reports_missing_box_and_returns_node Env.sample Env.sample_sort_perm
    [sample_empty_list] 0 1 0 hbad⟩

end bvh_constructor_theorems

section bvh_box_theorems

variable {K σ : Type} [LinearOrderedField K]

/-- C12: a `bvh_node` built over a non-empty range of objects that all report a bounding box
for `(time0, time1)` has at every node a cached box equal to the `surrounding_box` of its
two children's boxes; the box of every node contains the box of every object below it; and
`bvh_node::bounding_box` returns true with the cached box for any time arguments.  (The
constructor returns on such a range.) -/
theorem bvh_node_box_is_union_of_children (E : Env K σ)
    (hsort : ∀ cmp l, (E.sort cmp l).Perm l) (time0 time1 : K)
    (objects : List (hittable K σ)) (start end_ : Nat) (s : σ)
    (hse : start < end_) (hel : end_ ≤ objects.length)
    (hbox : ∀ o, in_range objects start end_ o →
      (o.bounding_box time0 time1 E.uninit_box).1 = true) :
    (∃ res, bvh_node.build E (end_ - start) objects start end_ time0 time1 s = some res) ∧
    ∀ fuel tree objs s1,
      bvh_node.build E fuel objects start end_ time0 time1 s = some (tree, objs, s1) →
      tree.box_is_union E time0 time1 ∧
      tree.well_boxed time0 time1 E.uninit_box ∧
      ∃ l r box, tree = bvh.node l r box ∧
        box = surrounding_box (l.bounding_box time0 time1 E.uninit_box).2
          (r.bounding_box time0 time1 E.uninit_box).2 ∧
        (∀ o ∈ tree.leaves, box.contains (o.bounding_box time0 time1 E.uninit_box).2) ∧
        ∀ ta tb ob, tree.bounding_box ta tb ob = (true, box) := by
  constructor
  · exact bvh_node.build_returns E hsort time0 time1 (end_ - start) objects start end_ s hse
      hel (le_refl _)
  · intro fuel tree objs s1 hbuild
    have hc := bvh_node.build_constructed E time0 time1 fuel objects start end_ s tree objs s1
      hbuild
    obtain ⟨_, _, _, hleaves, _, hwb⟩ := bvh_node.build_spec E hsort time0 time1 fuel objects
      start end_ s tree objs s1 hse hel hbuild
    have hall : ∀ o ∈ tree.leaves, (o.bounding_box time0 time1 E.uninit_box).1 = true :=
      fun o ho => hbox o ((hleaves o).mp ho)
    have hunion := bvh.constructed_box_is_union E time0 time1 tree hc hall
    have hwell := hwb hbox
    refine ⟨hunion, hwell, ?_⟩
    obtain ⟨l, r, box, htree⟩ := bvh.constructed_is_node E time0 time1 tree hc
    rw [htree] at hunion hwell ⊢
    exact ⟨l, r, box, rfl, hunion.1, hwell.2.2, fun _ _ _ => rfl⟩

/-- Witness of C12: the two sample spheres, the range being the whole vector. -/
theorem bvh_node_box_is_union_of_children_witness :
    (∀ o, in_range (sample_spheres.map (sphere.toHittable Env.sample)) 0 2 o →
      (o.bounding_box 0 1 Env.sample.uninit_box).1 = true) ∧
    ((∃ res, bvh_node.build Env.sample (2 - 0)
        (sample_spheres.map (sphere.toHittable Env.sample)) 0 2 0 1 0 = some res) ∧
    ∀ fuel tree objs s1,
      bvh_node.build Env.sample fuel (sample_spheres.map (sphere.toHittable Env.sample))
        0 2 0 1 0 = some (tree, objs, s1) →
      tree.box_is_union Env.sample 0 1 ∧
      tree.well_boxed 0 1 Env.sample.uninit_box ∧
      ∃ l r box, tree = bvh.node l r box ∧
        box = surrounding_box (l.bounding_box 0 1 Env.sample.uninit_box).2
          (r.bounding_box 0 1 Env.sample.uninit_box).2 ∧
        (∀ o ∈ tree.leaves, box.contains (o.bounding_box 0 1 Env.sample.uninit_box).2) ∧
        ∀ ta tb ob, tree.bounding_box ta tb ob = (true, box)) := by
  have hbox : ∀ o, in_range (sample_spheres.map (sphere.toHittable Env.sample)) 0 2 o →
      (o.bounding_box 0 1 Env.sample.uninit_box).1 = true := by
    intro o ho
    have hmem : o ∈ sample_spheres.map (sphere.toHittable Env.sample) :=
      (in_range_full (sample_spheres.map (sphere.toHittable Env.sample)) o).mp ho
    obtain ⟨x, _, hx⟩ := List.mem_map.mp hmem
    rw [← hx]
    rfl
  exact ⟨hbox, bvh_node_box_is_union_of_children Env.sample Env.sample_sort_perm 0 1
    (sample_spheres.map (sphere.toHittable Env.sample)) 0 2 0 (by decide) (by decide) hbox⟩

end bvh_box_theorems

section translate_theorems

variable {K σ : Type} [LinearOrderedField K]

/-- The method `translate::hit` when the child hits the moved ray. -/
theorem translate.hit_of_hit (ptr : hittable K σ) (offset : vec3 K) (r : ray K)
    (t_min t_max : K) (rec : hit_record K) (st : σ)
    (h : (ptr.hit (translate.moved_r offset r) t_min t_max rec st).1 = true) :
    translate.hit ptr offset r t_min t_max rec st =
      (true,
        ({ (ptr.hit (translate.moved_r offset r) t_min t_max rec st).2.1 with
            p := (ptr.hit (translate.moved_r offset r) t_min t_max rec st).2.1.p.add offset
          }).set_face_normal (translate.moved_r offset r)
          (ptr.hit (translate.moved_r offset r) t_min t_max rec st).2.1.normal,
        (ptr.hit (translate.moved_r offset r) t_min t_max rec st).2.2) := by
  simp only [translate.hit, h, Bool.not_true, Bool.false_eq_true, if_false]

/-- C14 fails on this input: the ray from the centre of the moved sample sphere hits it
from the inside; the sphere reports `front_face = false` for the shifted ray, and
`translate::hit`, which hands the normal that the sphere has already oriented against the ray
to `set_face_normal`, returns `front_face = true`. -/
theorem translate_hit_overwrites_front_face :
    ((sample_sphere.toHittable Env.sample).hit (translate.moved_r ⟨1, 0, 0⟩ sample_inner_ray)
      (1 / 1000) 10 Env.sample.uninit_rec 0).1 = true ∧
    ((sample_sphere.toHittable Env.sample).hit (translate.moved_r ⟨1, 0, 0⟩ sample_inner_ray)
      (1 / 1000) 10 Env.sample.uninit_rec 0).2.1.front_face = false ∧
    (sample_translated_sphere.hit sample_inner_ray (1 / 1000) 10 Env.sample.uninit_rec 0).1
      = true ∧
    (sample_translated_sphere.hit sample_inner_ray (1 / 1000) 10
      Env.sample.uninit_rec 0).2.1.front_face = true := by
  have hh : ((sample_sphere.toHittable Env.sample).hit
      (translate.moved_r ⟨1, 0, 0⟩ sample_inner_ray) (1 / 1000) 10 Env.sample.uninit_rec
      0).1 = true := by
    norm_num [translate.moved_r, sample_inner_ray, sphere.toHittable, sample_sphere,
      sphere.hit, vec3.dot, vec3.sub, vec3.length_squared, Env.sample, Rat.sqrt]
  refine ⟨hh, ?_, ?_, ?_⟩
  · norm_num [translate.moved_r, sample_inner_ray, sphere.toHittable, sample_sphere,
      sphere.hit, sphere.fill, hit_record.set_face_normal, ray.at, vec3.add, vec3.smul,
      vec3.sdiv, vec3.dot, vec3.sub, vec3.length_squared, Env.sample, Rat.sqrt]
  · simp only [sample_translated_sphere, translate.toHittable]
    rw [translate.hit_of_hit _ _ _ _ _ _ _ hh]
  · simp only [sample_translated_sphere, translate.toHittable]
    rw [translate.hit_of_hit _ _ _ _ _ _ _ hh]
    norm_num [translate.moved_r, sample_inner_ray, sphere.toHittable, sample_sphere,
      sphere.hit, sphere.fill, hit_record.set_face_normal, ray.at, vec3.add, vec3.smul,
      vec3.sdiv, vec3.dot, vec3.sub, vec3.neg, vec3.length_squared, Env.sample, Rat.sqrt]

end translate_theorems

section round_trip_theorems

variable {K σ : Type} [LinearOrderedField K]

end round_trip_theorems

section flip_face_theorems

variable {K σ : Type}

/-- C16: `flip_face(child).hit` returns the same boolean as `child.hit`; on a hit the
returned record is the child's record with only `front_face` negated (same `p`, `normal`,
`t`, material, `u` and `v`); and `flip_face(flip_face(child)).hit` yields exactly the
child's result. -/
theorem flip_face_hit_negates_front_face_only (ptr : hittable K σ) (r : ray K)
    (t_min t_max : K) (rec : hit_record K) (st : σ) :
    ((flip_face.toHittable ptr).hit r t_min t_max rec st).1
      = (ptr.hit r t_min t_max rec st).1 ∧
    ((ptr.hit r t_min t_max rec st).1 = true →
      ((flip_face.toHittable ptr).hit r t_min t_max rec st).2.1
        = { (ptr.hit r t_min t_max rec st).2.1 with
            front_face := !(ptr.hit r t_min t_max rec st).2.1.front_face } ∧
      ((flip_face.toHittable ptr).hit r t_min t_max rec st).2.1.p
        = (ptr.hit r t_min t_max rec st).2.1.p ∧
      ((flip_face.toHittable ptr).hit r t_min t_max rec st).2.1.normal
        = (ptr.hit r t_min t_max rec st).2.1.normal ∧
      ((flip_face.toHittable ptr).hit r t_min t_max rec st).2.1.t
        = (ptr.hit r t_min t_max rec st).2.1.t ∧
      ((flip_face.toHittable ptr).hit r t_min t_max rec st).2.1.mat_ptr
        = (ptr.hit r t_min t_max rec st).2.1.mat_ptr ∧
      ((flip_face.toHittable ptr).hit r t_min t_max rec st).2.1.u
        = (ptr.hit r t_min t_max rec st).2.1.u ∧
      ((flip_face.toHittable ptr).hit r t_min t_max rec st).2.1.v
        = (ptr.hit r t_min t_max rec st).2.1.v ∧
      ((flip_face.toHittable ptr).hit r t_min t_max rec st).2.1.front_face
        = !(ptr.hit r t_min t_max rec st).2.1.front_face) ∧
    (flip_face.toHittable (flip_face.toHittable ptr)).hit r t_min t_max rec st
      = ptr.hit r t_min t_max rec st := by
  have hmiss : ∀ q : hittable K σ, (q.hit r t_min t_max rec st).1 = false →
      (flip_face.toHittable q).hit r t_min t_max rec st = q.hit r t_min t_max rec st := by
    intro q hq
    simp only [flip_face.toHittable, flip_face.hit, hq, Bool.not_false, if_true]
    rw [← hq]
  have hhit : ∀ q : hittable K σ, (q.hit r t_min t_max rec st).1 = true →
      (flip_face.toHittable q).hit r t_min t_max rec st
        = (true, { (q.hit r t_min t_max rec st).2.1 with
            front_face := !(q.hit r t_min t_max rec st).2.1.front_face },
          (q.hit r t_min t_max rec st).2.2) := by
    intro q hq
    simp only [flip_face.toHittable, flip_face.hit, hq, Bool.not_true, Bool.false_eq_true,
      if_false]
  cases h : (ptr.hit r t_min t_max rec st).1
  · have h1 := hmiss ptr h
    have h2 : ((flip_face.toHittable ptr).hit r t_min t_max rec st).1 = false := by
      rw [h1]; exact h
    refine ⟨?_, fun hf => Bool.noConfusion hf, ?_⟩
    · rw [h1, h]
    · rw [hmiss _ h2, h1]
  · have h1 := hhit ptr h
    have h2 : ((flip_face.toHittable ptr).hit r t_min t_max rec st).1 = true := by
      rw [h1]
    refine ⟨?_, fun _ => ?_, ?_⟩
    · rw [h1]
    · rw [h1]
      exact ⟨rfl, rfl, rfl, rfl, rfl, rfl, rfl, rfl⟩
    · rw [hhit _ h2, h1]
      simp only [Bool.not_not]
      rw [← h]

end flip_face_theorems

section rotate_y_theorems

variable {K σ : Type} [LinearOrderedField K]

end rotate_y_theorems
section moving_sphere_theorems

variable {K σ : Type} [LinearOrderedField K]

end moving_sphere_theorems

section constant_medium_theorems

variable {K σ : Type} [LinearOrderedField K]

/-- C19: `constant_medium::hit` returns false, and leaves the caller's record alone, for
every ray for which the boundary's hit over `(-infinity, +infinity)` returns false, and also
when that call reports an entry and the boundary's hit over `(entry t + 0.0001, infinity)`
returns false; whatever `t_min`, `t_max`, the density and the random state are. -/
theorem constant_medium_hit_false_without_entry_or_exit (E : Env K σ)
    (m : constant_medium K σ) (r : ray K) (t_min t_max : K) (rec : hit_record K) (st : σ)
    (h : (m.entry E r st).1 = false ∨
      ((m.entry E r st).1 = true ∧ (m.exit E r st).1 = false)) :
    (m.entry E r st = m.boundary.hit r (-E.infinity) E.infinity E.uninit_rec st ∧
      m.exit E r st = m.boundary.hit r ((m.entry E r st).2.1.t + 1 / 10000) E.infinity
        E.uninit_rec (m.entry E r st).2.2) ∧
    ((m.toHittable E).hit r t_min t_max rec st).1 = false ∧
    ((m.toHittable E).hit r t_min t_max rec st).2.1 = rec := by
  refine ⟨⟨rfl, rfl⟩, ?_⟩
  rcases h with h | ⟨h1, h2⟩
  · simp only [constant_medium.toHittable, constant_medium.hit, h, Bool.not_false, if_true,
      and_self]
  · simp only [constant_medium.toHittable, constant_medium.hit, h1, h2, Bool.not_true,
      Bool.false_eq_true, if_false, Bool.not_false, if_true, and_self]

/-- Witness of C19: the medium in the sample sphere and a ray that passes the sphere. -/
theorem constant_medium_hit_false_witness :
    ((sample_medium Env.sample).entry Env.sample sample_miss_ray 0).1 = false ∧
    (((sample_medium Env.sample).toHittable Env.sample).hit sample_miss_ray 0 10
      Env.sample.uninit_rec 0).1 = false := by
  have h : ((sample_medium Env.sample).entry Env.sample sample_miss_ray 0).1 = false := by
    norm_num [constant_medium.entry, sample_medium, constant_medium.construct,
      sphere.toHittable, sample_sphere, sample_miss_ray, sphere.hit, vec3.dot, vec3.sub,
      vec3.length_squared, Env.sample]
  exact ⟨h, (constant_medium_hit_false_without_entry_or_exit Env.sample
    (sample_medium Env.sample) sample_miss_ray 0 10 Env.sample.uninit_rec 0 (Or.inl h)).2.1⟩

end constant_medium_theorems

section face_normal_theorems

variable {K σ : Type} [LinearOrderedField K]

end face_normal_theorems

section aabb_minmax_theorems

variable {K : Type} [LinearOrderedField K]

/-- The test `aabb::hit` depends on the box and the ray only through the per-axis pairs
`(t0, t1)` of the three axes. -/
theorem aabb_hit_congr (b b2 : aabb K) (r r2 : ray K) (tmin tmax : K)
    (h : ∀ a, a < 3 → b.t0 r a = b2.t0 r2 a ∧ b.t1 r a = b2.t1 r2 a) :
    b.hit r tmin tmax = b2.hit r2 tmin tmax := by
  have h0 := h 0 (by decide)
  have h1 := h 1 (by decide)
  have h2 := h 2 (by decide)
  simp only [aabb.hit, aabb.hit_loop, h0.1, h0.2, h1.1, h1.2, h2.1, h2.2]

/-- Component access on a vector with one axis negated. -/
theorem vec3.negate_axis_e (v : vec3 K) (a c : Nat) (ha : a < 3) (hc : c < 3) :
    (v.negate_axis a).e c = if c = a then -(v.e c) else v.e c := by
  have hc3 : c = 0 ∨ c = 1 ∨ c = 2 := by omega
  have ha3 : a = 0 ∨ a = 1 ∨ a = 2 := by omega
  rcases hc3 with rfl | rfl | rfl <;> rcases ha3 with rfl | rfl | rfl <;>
    simp [vec3.negate_axis, vec3.e]

/-- C24: for a box that is symmetric about zero on an axis (`min = -max` on that axis) and
a ray whose direction component on that axis is not zero, negating the ray's origin and
direction components on that axis leaves the per-axis pairs `(t0, t1)` and the result of
`aabb::hit` unchanged, for every `tmin` and `tmax`. -/
theorem aabb_hit_invariant_under_axis_negation (b : aabb K) (r : ray K) (a : Nat)
    (tmin tmax : K) (ha : a < 3) (hsym : b._min.e a = -(b._max.e a))
    (hdir : r.direction.e a ≠ 0) :
    (∀ c, c < 3 → b.t0 (r.negate_axis a) c = b.t0 r c ∧ b.t1 (r.negate_axis a) c = b.t1 r c) ∧
    b.hit (r.negate_axis a) tmin tmax = b.hit r tmin tmax := by
  have hax : ∀ c, c < 3 →
      b.t0 (r.negate_axis a) c = b.t0 r c ∧ b.t1 (r.negate_axis a) c = b.t1 r c := by
    intro c hc
    simp only [aabb.t0, aabb.t1, ray.negate_axis, vec3.negate_axis_e _ a c ha hc]
    by_cases hca : c = a
    · subst hca
      simp only [if_true, hsym, one_div, inv_neg]
      rcases lt_or_gt_of_ne hdir with hneg | hpos
      · have h1 : (r.direction.e c)⁻¹ < 0 := inv_lt_zero.mpr hneg
        have h2 : ¬ (-(r.direction.e c)⁻¹ < 0) := by
          intro h
          linarith
        simp only [h1, h2, if_true, if_false]
        constructor <;> ring
      · have h1 : ¬ ((r.direction.e c)⁻¹ < 0) := not_lt.mpr (le_of_lt (inv_pos.mpr hpos))
        have h2 : -(r.direction.e c)⁻¹ < 0 := by
          have := inv_pos.mpr hpos
          linarith
        simp only [h1, h2, if_true, if_false]
        constructor <;> ring
    · simp only [hca, if_false, and_self]
  exact ⟨hax, aabb_hit_congr b b (r.negate_axis a) r tmin tmax hax⟩

/-- Witness of C24: the box with corners `(-1, -1, -1)` and `(1, 1, 1)`, the ray with
direction `(1, -1, 2)` and the y axis. -/
theorem aabb_hit_invariant_under_axis_negation_witness :
    sample_box._min.e 1 = -(sample_box._max.e 1) ∧ sample_slab_ray.direction.e 1 ≠ 0 ∧
    sample_box.hit (sample_slab_ray.negate_axis 1) 0 10 = sample_box.hit sample_slab_ray 0 10 := by
  have hsym : sample_box._min.e 1 = -(sample_box._max.e 1) := by
    norm_num [sample_box, vec3.e]
  have hdir : sample_slab_ray.direction.e 1 ≠ 0 := by
    norm_num [sample_slab_ray, vec3.e]
  exact ⟨hsym, hdir,
    (aabb_hit_invariant_under_axis_negation sample_box sample_slab_ray 1 0 10 (by decide)
      hsym hdir).2⟩

end aabb_minmax_theorems

section image_texture_theorems

variable {K σ : Type} [LinearOrderedField K]

/-- C25: for every `image_texture` constructed with null pixel data and every `u`, `v`, `p`,
`value` returns the fixed debug colour `(0, 1, 1)` and reads no pixel, whatever `nx` and `ny`
are; seen as a `texture` it returns that colour as an ordinary value. -/
theorem image_texture_without_data_is_debug_colour (E : Env K σ) (to_int : K → Int)
    (nx ny : Int) (u v : K) (p : vec3 K) :
    image_texture.value E to_int ⟨none, nx, ny⟩ u v p = ⟨0, 1, 1⟩ ∧
    (image_texture.value_reads E to_int ⟨none, nx, ny⟩ u v p).2 = [] ∧
    (image_texture.toTexture E to_int ⟨none, nx, ny⟩).value u v p = ⟨0, 1, 1⟩ :=
  ⟨rfl, rfl, rfl⟩

end image_texture_theorems

section box_theorems

variable {K σ : Type} [LinearOrderedField K]

/-- The box that a rectangle reports, and the one that a flipped rectangle reports. -/
theorem aarect.toHittable_bounding_box (thickness : K) (q : aarect K) (t0 t1 : K)
    (ob : aabb K) :
    ((aarect.toHittable thickness q : hittable K σ).bounding_box t0 t1 ob
      = (true, ⟨q.vector (q.k - thickness) q.a0 q.b0,
          q.vector (q.k + thickness) q.a1 q.b1⟩)) ∧
    ((flip_face.toHittable (aarect.toHittable thickness q : hittable K σ)).bounding_box
        t0 t1 ob
      = (true, ⟨q.vector (q.k - thickness) q.a0 q.b0,
          q.vector (q.k + thickness) q.a1 q.b1⟩)) :=
  ⟨rfl, rfl⟩

/-- The `bounding_box` of the `hittable_list` that holds the six sides of a box with corners
`p0 <= p1`, for rectangles of thickness `>= 0`: the corners moved outwards by the
thickness on every axis. -/
theorem box.sides_bounding_box (E : Env K σ) (thickness : K) (p0 p1 : vec3 K)
    (mat : material K) (t0 t1 : K) (ob : aabb K)
    (hx : p0.x ≤ p1.x) (hy : p0.y ≤ p1.y) (hz : p0.z ≤ p1.z) (hth : 0 ≤ thickness) :
    hittable_list.bounding_box E (box.construct thickness p0 p1 mat : box K σ).sides t0 t1 ob
      = (true, ⟨p0.sub ⟨thickness, thickness, thickness⟩,
          p1.add ⟨thickness, thickness, thickness⟩⟩) := by
  have n10 : ¬ ((1 : Nat) = 0) := by decide
  have n20 : ¬ ((2 : Nat) = 0) := by decide
  have n21 : ¬ ((2 : Nat) = 1) := by decide
  have n12 : ¬ ((1 : Nat) = 2) := by decide
  have n02 : ¬ ((0 : Nat) = 2) := by decide
  have n01 : ¬ ((0 : Nat) = 1) := by decide
  simp only [box.construct, xy_rect, xz_rect, yz_rect, hittable_list.bounding_box,
    hittable_list.bounding_box_loop, aarect.toHittable_bounding_box, Bool.not_true,
    Bool.false_eq_true, if_false, surrounding_box, aabb.min, aabb.max, aarect.vector,
    vec3.sub, vec3.add, n10, n20, n21, n12, n02, n01, if_true,
    Prod.mk.injEq, aabb.mk.injEq, vec3.mk.injEq, true_and]
  refine ⟨⟨?_, ?_, ?_⟩, ⟨?_, ?_, ?_⟩⟩
  · apply le_antisymm
    · simp only [min_le_iff, le_refl, true_or, or_true]
    · simp only [le_min_iff]
      repeat' constructor
      all_goals linarith
  · apply le_antisymm
    · simp only [min_le_iff, le_refl, true_or, or_true]
    · simp only [le_min_iff]
      repeat' constructor
      all_goals linarith
  · apply le_antisymm
    · simp only [min_le_iff, le_refl, true_or, or_true]
    · simp only [le_min_iff]
      repeat' constructor
      all_goals linarith
  · apply le_antisymm
    · simp only [max_le_iff]
      repeat' constructor
      all_goals linarith
    · simp only [le_max_iff, le_refl, true_or, or_true]
  · apply le_antisymm
    · simp only [max_le_iff]
      repeat' constructor
      all_goals linarith
    · simp only [le_max_iff, le_refl, true_or, or_true]
  · apply le_antisymm
    · simp only [max_le_iff]
      repeat' constructor
      all_goals linarith
    · simp only [le_max_iff, le_refl, true_or, or_true]

/-- C26 (as amended): for a box built from corners `p0 <= p1`, `box::bounding_box` does not
consult the sides: it returns true with `aabb(p0, p1)` for any time arguments. The
`bounding_box` of the `hittable_list` that holds the six rectangles, each reporting a box of
thickness `>= 0` along its fixed axis, returns the corners moved outwards by that thickness
on every axis, a box that contains `aabb(p0, p1)`. The method `box::hit` delegates to the
list. -/
theorem box_bounding_box_returns_corners (E : Env K σ) (thickness : K) (p0 p1 : vec3 K)
    (mat : material K) (hx : p0.x ≤ p1.x) (hy : p0.y ≤ p1.y) (hz : p0.z ≤ p1.z)
    (hth : 0 ≤ thickness) :
    (∀ t0 t1 ob, ((box.construct thickness p0 p1 mat : box K σ).toHittable E).bounding_box
        t0 t1 ob = (true, ⟨p0, p1⟩)) ∧
    (∀ t0 t1 ob,
      hittable_list.bounding_box E (box.construct thickness p0 p1 mat : box K σ).sides
          t0 t1 ob
        = (true, ⟨p0.sub ⟨thickness, thickness, thickness⟩,
            p1.add ⟨thickness, thickness, thickness⟩⟩)) ∧
    (∀ t0 t1 ob,
      (hittable_list.bounding_box E (box.construct thickness p0 p1 mat : box K σ).sides
          t0 t1 ob).2.contains
        (((box.construct thickness p0 p1 mat : box K σ).toHittable E).bounding_box
          t0 t1 ob).2) ∧
    (∀ r t_min t_max rec st,
      ((box.construct thickness p0 p1 mat : box K σ).toHittable E).hit r t_min t_max rec st
        = hittable_list.hit E (box.construct thickness p0 p1 mat : box K σ).sides r t_min
            t_max rec st) := by
  refine ⟨fun _ _ _ => rfl,
    fun t0 t1 ob => box.sides_bounding_box E thickness p0 p1 mat t0 t1 ob hx hy hz hth,
    fun t0 t1 ob => ?_, fun _ _ _ _ _ => rfl⟩
  rw [box.sides_bounding_box E thickness p0 p1 mat t0 t1 ob hx hy hz hth]
  simp only [box.toHittable, box.bounding_box, box.construct, aabb.contains, vec3.sub,
    vec3.add]
  exact ⟨⟨by linarith, by linarith, by linarith⟩, ⟨by linarith, by linarith, by linarith⟩⟩

/-- Counterexample to C26 as stated: for the unit box, whose sides report boxes of thickness
`1/10000`, `box::bounding_box` returns the corners `(0, 0, 0)` and `(1, 1, 1)`, and the
`bounding_box` of the list of the six sides returns a larger box. -/
theorem box_bounding_box_differs_from_sides :
    (sample_unit_box.toHittable Env.sample).bounding_box 0 1 Env.sample.uninit_box
      = (true, ⟨⟨0, 0, 0⟩, ⟨1, 1, 1⟩⟩) ∧
    hittable_list.bounding_box Env.sample sample_unit_box.sides 0 1 Env.sample.uninit_box
      = (true, ⟨⟨-(1 / 10000), -(1 / 10000), -(1 / 10000)⟩,
          ⟨10001 / 10000, 10001 / 10000, 10001 / 10000⟩⟩) ∧
    (sample_unit_box.toHittable Env.sample).bounding_box 0 1 Env.sample.uninit_box
      ≠ hittable_list.bounding_box Env.sample sample_unit_box.sides 0 1
          Env.sample.uninit_box := by
  have hb : (sample_unit_box.toHittable Env.sample).bounding_box 0 1 Env.sample.uninit_box
      = (true, ⟨⟨0, 0, 0⟩, ⟨1, 1, 1⟩⟩) := rfl
  have hl : hittable_list.bounding_box Env.sample sample_unit_box.sides 0 1
      Env.sample.uninit_box
      = (true, ⟨⟨-(1 / 10000), -(1 / 10000), -(1 / 10000)⟩,
          ⟨10001 / 10000, 10001 / 10000, 10001 / 10000⟩⟩) := by
    have h := box.sides_bounding_box Env.sample (1 / 10000 : ℚ) ⟨0, 0, 0⟩ ⟨1, 1, 1⟩
      (material.lambertian (constant_texture ⟨1 / 2, 1 / 2, 1 / 2⟩)) 0 1
      Env.sample.uninit_box (by norm_num) (by norm_num) (by norm_num) (by norm_num)
    simp only [sample_unit_box]
    rw [h]
    norm_num [vec3.sub, vec3.add]
  refine ⟨hb, hl, ?_⟩
  rw [hb, hl]
  intro h
  simp only [Prod.mk.injEq, aabb.mk.injEq, vec3.mk.injEq, true_and] at h
  have := h.1.1
  norm_num at this

/-- Witness of C26 (as amended): the unit box with sides of thickness `1/10000`. -/
theorem box_bounding_box_returns_corners_witness :
    (0 : ℚ) ≤ 1 / 10000 ∧
    (sample_unit_box.toHittable Env.sample).bounding_box 0 1 Env.sample.uninit_box
      = (true, ⟨⟨0, 0, 0⟩, ⟨1, 1, 1⟩⟩) :=
  ⟨by norm_num, (box_bounding_box_returns_corners Env.sample (1 / 10000 : ℚ) ⟨0, 0, 0⟩
    ⟨1, 1, 1⟩ (material.lambertian (constant_texture ⟨1 / 2, 1 / 2, 1 / 2⟩)) (by norm_num)
    (by norm_num) (by norm_num) (by norm_num)).1 0 1 Env.sample.uninit_box⟩

end box_theorems

section bvh_shape_theorems

variable {K σ : Type} [LinearOrderedField K]

/-- What a returning `bvh_node` constructor did on a range of more than two objects: both
nested constructors returned, the left one on `[start, mid)` of the sorted vector and the
right one on `[mid, end)`, and the node holds their results. -/
theorem bvh_node.build_children (E : Env K σ) (fuel : Nat) (objects : List (hittable K σ))
    (start end_ : Nat) (time0 time1 : K) (s : σ) (tree : bvh K σ)
    (objs : List (hittable K σ)) (s1 : σ) (h1 : end_ - start ≠ 1) (h2 : end_ - start ≠ 2)
    (h : bvh_node.build E (fuel + 1) objects start end_ time0 time1 s
      = some (tree, objs, s1)) :
    ∃ left objs2 s2 right,
      bvh_node.build E fuel
          (sort_range E (bvh_node.comparator E (E.random_int 0 2 s).1) objects start end_)
          start (bvh_node.mid start end_) time0 time1 (E.random_int 0 2 s).2
        = some (left, objs2, s2) ∧
      bvh_node.build E fuel objs2 (bvh_node.mid start end_) end_ time0 time1 s2
        = some (right, objs, s1) ∧
      tree = bvh_node.make E left right time0 time1 := by
  simp only [bvh_node.build, h1, h2, if_false] at h
  simp only [bvh_node.comparator, bvh_node.mid]
  cases hl : bvh_node.build E fuel
      (sort_range E
        (if (E.random_int 0 2 s).1 = 0 then box_x_compare E
          else if (E.random_int 0 2 s).1 = 1 then box_y_compare E else box_z_compare E)
        objects start end_)
      start (start + (end_ - start) / 2) time0 time1 (E.random_int 0 2 s).2 with
  | none =>
    rw [hl] at h
    exact Option.noConfusion h
  | some resl =>
    obtain ⟨left, objs2, s2⟩ := resl
    rw [hl] at h
    simp only at h
    cases hr : bvh_node.build E fuel objs2 (start + (end_ - start) / 2) end_ time0 time1
        s2 with
    | none =>
      rw [hr] at h
      exact Option.noConfusion h
    | some resr =>
      obtain ⟨right, objs3, s3⟩ := resr
      rw [hr] at h
      simp only [Option.some.injEq, Prod.mk.injEq] at h
      obtain ⟨ht, ho, hs⟩ := h
      subst ho
      subst hs
      exact ⟨left, objs2, s2, right, rfl, hr, ht.symm⟩

/-- The two ranges of the recursion: on a range of `k >= 3` objects the left range holds
`floor(k / 2)` objects and the right range `ceil(k / 2)`, both at least one and fewer than
`k`. -/
theorem bvh_node.mid_spec (start end_ : Nat) (h3 : 3 ≤ end_ - start) :
    start < bvh_node.mid start end_ ∧ bvh_node.mid start end_ < end_ ∧
    bvh_node.mid start end_ - start = (end_ - start) / 2 ∧
    end_ - bvh_node.mid start end_ = (end_ - start + 1) / 2 ∧
    1 ≤ bvh_node.mid start end_ - start ∧
    bvh_node.mid start end_ - start < end_ - start ∧
    1 ≤ end_ - bvh_node.mid start end_ ∧
    end_ - bvh_node.mid start end_ < end_ - start := by
  simp only [bvh_node.mid]
  omega

/-- A range of one or two objects inside the vector is built by one constructor call, with
no nested constructor. -/
theorem bvh_node.build_small (E : Env K σ) (objects : List (hittable K σ))
    (start end_ : Nat) (time0 time1 : K) (s : σ) (hse : start < end_)
    (hel : end_ ≤ objects.length) (h2 : end_ - start ≤ 2) :
    ∃ res, bvh_node.build E 1 objects start end_ time0 time1 s = some res := by
  simp only [bvh_node.build]
  obtain ⟨o0, ho0⟩ : ∃ o, objects.get? start = some o := by
    rw [List.get?_eq_getElem?]
    exact ⟨objects[start], List.getElem?_eq_getElem (by omega)⟩
  by_cases h1 : end_ - start = 1
  · rw [if_pos h1, ho0]
    exact ⟨_, rfl⟩
  · have h22 : end_ - start = 2 := by omega
    rw [if_neg h1, if_pos h22]
    obtain ⟨o1, ho1⟩ : ∃ o, objects.get? (start + 1) = some o := by
      rw [List.get?_eq_getElem?]
      exact ⟨objects[start + 1], List.getElem?_eq_getElem (by omega)⟩
    rw [ho0, ho1]
    simp only
    split_ifs <;> exact ⟨_, rfl⟩

/-- C28: for every object vector, every range with `start < end <= size` and every sequence
of random axis choices, the `bvh_node` constructor terminates: it returns within as many
nested calls as the range has objects; a range of one or two objects is built without a
nested call; and on a larger range the two nested calls are on `[start, mid)` and
`[mid, end)`, each holding at least one object and fewer objects than the parent. -/
theorem bvh_node_construction_terminates (E : Env K σ)
    (hsort : ∀ cmp l, (E.sort cmp l).Perm l) (time0 time1 : K)
    (objects : List (hittable K σ)) (start end_ : Nat) (s : σ)
    (hse : start < end_) (hel : end_ ≤ objects.length) :
    (∀ fuel, end_ - start ≤ fuel →
      ∃ res, bvh_node.build E fuel objects start end_ time0 time1 s = some res) ∧
    (end_ - start ≤ 2 →
      ∃ res, bvh_node.build E 1 objects start end_ time0 time1 s = some res) ∧
    (3 ≤ end_ - start →
      (1 ≤ bvh_node.mid start end_ - start ∧
        bvh_node.mid start end_ - start < end_ - start ∧
        1 ≤ end_ - bvh_node.mid start end_ ∧
        end_ - bvh_node.mid start end_ < end_ - start) ∧
      ∀ fuel tree objs s1,
        bvh_node.build E (fuel + 1) objects start end_ time0 time1 s
          = some (tree, objs, s1) →
        ∃ left objs2 s2 right,
          bvh_node.build E fuel
              (sort_range E (bvh_node.comparator E (E.random_int 0 2 s).1) objects start
                end_)
              start (bvh_node.mid start end_) time0 time1 (E.random_int 0 2 s).2
            = some (left, objs2, s2) ∧
          bvh_node.build E fuel objs2 (bvh_node.mid start end_) end_ time0 time1 s2
            = some (right, objs, s1) ∧
          tree = bvh_node.make E left right time0 time1) := by
  refine ⟨fun fuel hf => bvh_node.build_returns E hsort time0 time1 fuel objects start end_ s
      hse hel hf,
    fun h2 => bvh_node.build_small E objects start end_ time0 time1 s hse hel h2,
    fun h3 => ?_⟩
  obtain ⟨_, _, _, _, a, b, c, d⟩ := bvh_node.mid_spec start end_ h3
  refine ⟨⟨a, b, c, d⟩, fun fuel tree objs s1 h => ?_⟩
  exact bvh_node.build_children E fuel objects start end_ time0 time1 s tree objs s1
    (by omega) (by omega) h

/-- Witness of C28: three spheres, the range being the whole vector. -/
theorem bvh_node_construction_terminates_witness :
    (0 : Nat) < 3 ∧ 3 ≤ sample_three_objects.length ∧
    ∃ res, bvh_node.build Env.sample 3 sample_three_objects 0 3 0 1 0 = some res :=
  ⟨by decide, by decide,
    (bvh_node_construction_terminates Env.sample Env.sample_sort_perm 0 1
      sample_three_objects 0 3 0 (by decide) (by decide)).1 3 (le_refl _)⟩

end bvh_shape_theorems

section bvh_leaves_theorems

variable {K σ : Type} [LinearOrderedField K]

/-- The `bvh_node` constructor on a range of one object: the object is both children. -/
theorem bvh_node.build_one (E : Env K σ) (fuel : Nat) (objects : List (hittable K σ))
    (start end_ : Nat) (time0 time1 : K) (s : σ) (tree : bvh K σ)
    (objs : List (hittable K σ)) (s1 : σ) (h1 : end_ - start = 1)
    (h : bvh_node.build E fuel objects start end_ time0 time1 s = some (tree, objs, s1)) :
    ∃ o, objects.get? start = some o ∧
      tree = bvh_node.make E (bvh.leaf o) (bvh.leaf o) time0 time1 ∧ objs = objects := by
  cases fuel with
  | zero =>
    simp only [bvh_node.build] at h
    exact Option.noConfusion h
  | succ fuel =>
    simp only [bvh_node.build, h1, if_true] at h
    cases ho : objects.get? start with
    | none =>
      rw [ho] at h
      exact Option.noConfusion h
    | some o =>
      rw [ho] at h
      simp only [Option.some.injEq, Prod.mk.injEq] at h
      exact ⟨o, rfl, h.1.symm, h.2.1.symm⟩

/-- C29: for every non-empty range `[start, end)` inside the vector and every sequence of
axis choices, the constructor returns, and the leaf objects of the `bvh_node` tree are
exactly the objects that were in `[start, end)` before construction; sorting permutes the
vector within the range only (same size, same objects in the range, untouched outside);
and in the one-object case that object is both the left and the right child. -/
theorem bvh_node_leaves_are_objects_of_range (E : Env K σ)
    (hsort : ∀ cmp l, (E.sort cmp l).Perm l) (time0 time1 : K)
    (objects : List (hittable K σ)) (start end_ : Nat) (s : σ)
    (hse : start < end_) (hel : end_ ≤ objects.length) :
    (∃ res, bvh_node.build E (end_ - start) objects start end_ time0 time1 s = some res) ∧
    ∀ fuel tree objs s1,
      bvh_node.build E fuel objects start end_ time0 time1 s = some (tree, objs, s1) →
      (∀ o, o ∈ tree.leaves ↔ in_range objects start end_ o) ∧
      objs.length = objects.length ∧
      (∀ i, i < start ∨ end_ ≤ i → objs.get? i = objects.get? i) ∧
      (∀ o, in_range objs start end_ o ↔ in_range objects start end_ o) ∧
      (end_ - start = 1 →
        ∃ o box, objects.get? start = some o ∧
          tree = bvh.node (bvh.leaf o) (bvh.leaf o) box) := by
  constructor
  · exact bvh_node.build_returns E hsort time0 time1 (end_ - start) objects start end_ s hse
      hel (le_refl _)
  · intro fuel tree objs s1 hbuild
    obtain ⟨hlen, hout, hin, hleaves, _, _⟩ := bvh_node.build_spec E hsort time0 time1 fuel
      objects start end_ s tree objs s1 hse hel hbuild
    refine ⟨hleaves, hlen, hout, hin, fun h1 => ?_⟩
    obtain ⟨o, ho, ht, _⟩ := bvh_node.build_one E fuel objects start end_ time0 time1 s tree
      objs s1 h1 hbuild
    exact ⟨o, _, ho, ht⟩

/-- Witness of C29: three spheres, the range being the whole vector. -/
theorem bvh_node_leaves_are_objects_of_range_witness :
    (0 : Nat) < 3 ∧ 3 ≤ sample_three_objects.length ∧
    ∃ res, bvh_node.build Env.sample (3 - 0) sample_three_objects 0 3 0 1 0 = some res :=
  ⟨by decide, by decide,
    (bvh_node_leaves_are_objects_of_range Env.sample Env.sample_sort_perm 0 1
      sample_three_objects 0 3 0 (by decide) (by decide)).1⟩

/-- The depth of the node that the tail of the constructor makes. -/
theorem bvh_node.make_depth (E : Env K σ) (left right : bvh K σ) (time0 time1 : K) :
    (bvh_node.make E left right time0 time1).depth = 1 + max left.depth right.depth := rfl

/-- The step of the depth bound: a node over `k >= 3` objects whose children over
`floor(k / 2)` and `ceil(k / 2)` objects obey the bound obeys it. -/
theorem bvh.depth_step (k dl dr : Nat) (h3 : 3 ≤ k)
    (hl : dl ≤ max 1 (Nat.clog 2 (k / 2))) (hr : dr ≤ max 1 (Nat.clog 2 ((k + 1) / 2))) :
    1 + max dl dr ≤ max 1 (Nat.clog 2 k) := by
  have hk : Nat.clog 2 k = Nat.clog 2 ((k + 1) / 2) + 1 := by
    have h := Nat.clog_of_two_le (b := 2) (n := k) (by decide) (by omega)
    simpa using h
  have hpos : 0 < Nat.clog 2 ((k + 1) / 2) := Nat.clog_pos (by decide) (by omega)
  have hmono : Nat.clog 2 (k / 2) ≤ Nat.clog 2 ((k + 1) / 2) :=
    Nat.clog_mono_right 2 (by omega)
  have hl2 : dl ≤ Nat.clog 2 ((k + 1) / 2) := le_trans hl (max_le hpos hmono)
  have hr2 : dr ≤ Nat.clog 2 ((k + 1) / 2) := le_trans hr (max_le hpos (le_refl _))
  have hm : max dl dr ≤ Nat.clog 2 ((k + 1) / 2) := max_le hl2 hr2
  rw [hk]
  exact le_trans (by omega) (le_max_right _ _)

/-- The tree that the constructor returns on a non-empty range has at least one and at most
`max(1, ceil(log2 n))` levels of nodes, `n` being the number of objects of the range. -/
theorem bvh_node.build_depth (E : Env K σ) (time0 time1 : K) :
    ∀ (fuel : Nat) (objects : List (hittable K σ)) (start end_ : Nat) (s : σ)
      (tree : bvh K σ) (objs : List (hittable K σ)) (s1 : σ),
      start < end_ →
      bvh_node.build E fuel objects start end_ time0 time1 s = some (tree, objs, s1) →
      1 ≤ tree.depth ∧ tree.depth ≤ max 1 (Nat.clog 2 (end_ - start)) := by
  intro fuel
  induction fuel with
  | zero =>
    intro objects start end_ s tree objs s1 _ h
    simp only [bvh_node.build] at h
    exact Option.noConfusion h
  | succ fuel ih =>
    intro objects start end_ s tree objs s1 hse h
    by_cases h1 : end_ - start = 1
    · obtain ⟨o, _, ht, _⟩ := bvh_node.build_one E (fuel + 1) objects start end_ time0 time1
        s tree objs s1 h1 h
      rw [ht, bvh_node.make_depth]
      simp only [bvh.depth, max_self, add_zero]
      exact ⟨le_refl _, le_max_left _ _⟩
    · by_cases h2 : end_ - start = 2
      · simp only [bvh_node.build, h1, h2, if_false, if_true] at h
        cases ho0 : objects.get? start with
        | none =>
          rw [ho0] at h
          exact Option.noConfusion h
        | some o0 =>
          cases ho1 : objects.get? (start + 1) with
          | none =>
            rw [ho0, ho1] at h
            exact Option.noConfusion h
          | some o1 =>
            rw [ho0, ho1] at h
            simp only at h
            split_ifs at h <;>
              · simp only [Option.some.injEq, Prod.mk.injEq] at h
                rw [← h.1, bvh_node.make_depth]
                simp only [bvh.depth, max_self, add_zero]
                exact ⟨le_refl _, le_max_left _ _⟩
      · obtain ⟨left, objs2, s2, right, hl, hr, ht⟩ := bvh_node.build_children E fuel objects
          start end_ time0 time1 s tree objs s1 h1 h2 h
        have h3 : 3 ≤ end_ - start := by omega
        obtain ⟨m1, m2, m3, m4, _⟩ := bvh_node.mid_spec start end_ h3
        have dl := (ih _ start (bvh_node.mid start end_) _ left objs2 s2 m1 hl).2
        have dr := (ih _ (bvh_node.mid start end_) end_ _ right objs s1 m2 hr).2
        rw [m3] at dl
        rw [m4] at dr
        rw [ht, bvh_node.make_depth]
        exact ⟨by omega, bvh.depth_step (end_ - start) left.depth right.depth h3 dl dr⟩

/-- C30: for every non-empty range of `n` objects inside the vector and every sequence of
axis choices, the constructor returns a balanced tree: a node over `k >= 3` objects is made
of the trees built over the `floor(k / 2)` objects of `[start, mid)` and the `ceil(k / 2)`
objects of `[mid, end)`, and the number of `bvh_node` levels on the longest path from the
root to a leaf is at least 1 and at most `max(1, ceil(log2 n))`. -/
theorem bvh_node_tree_is_balanced (E : Env K σ) (hsort : ∀ cmp l, (E.sort cmp l).Perm l)
    (time0 time1 : K) (objects : List (hittable K σ)) (start end_ : Nat) (s : σ)
    (hse : start < end_) (hel : end_ ≤ objects.length) :
    (∃ res, bvh_node.build E (end_ - start) objects start end_ time0 time1 s = some res) ∧
    (∀ fuel tree objs s1,
      bvh_node.build E fuel objects start end_ time0 time1 s = some (tree, objs, s1) →
      1 ≤ tree.depth ∧ tree.depth ≤ max 1 (Nat.clog 2 (end_ - start))) ∧
    (3 ≤ end_ - start →
      bvh_node.mid start end_ - start = (end_ - start) / 2 ∧
      end_ - bvh_node.mid start end_ = (end_ - start + 1) / 2 ∧
      (end_ - start) / 2 + (end_ - start + 1) / 2 = end_ - start ∧
      ∀ fuel tree objs s1,
        bvh_node.build E (fuel + 1) objects start end_ time0 time1 s
          = some (tree, objs, s1) →
        ∃ left objs2 s2 right,
          bvh_node.build E fuel
              (sort_range E (bvh_node.comparator E (E.random_int 0 2 s).1) objects start
                end_)
              start (bvh_node.mid start end_) time0 time1 (E.random_int 0 2 s).2
            = some (left, objs2, s2) ∧
          bvh_node.build E fuel objs2 (bvh_node.mid start end_) end_ time0 time1 s2
            = some (right, objs, s1) ∧
          tree = bvh_node.make E left right time0 time1 ∧
          tree.depth = 1 + max left.depth right.depth) := by
  refine ⟨bvh_node.build_returns E hsort time0 time1 (end_ - start) objects start end_ s hse
      hel (le_refl _),
    fun fuel tree objs s1 h => bvh_node.build_depth E time0 time1 fuel objects start end_ s
      tree objs s1 hse h,
    fun h3 => ?_⟩
  obtain ⟨_, _, m3, m4, _⟩ := bvh_node.mid_spec start end_ h3
  refine ⟨m3, m4, by omega, fun fuel tree objs s1 h => ?_⟩
  obtain ⟨left, objs2, s2, right, hl, hr, ht⟩ := bvh_node.build_children E fuel objects
    start end_ time0 time1 s tree objs s1 (by omega) (by omega) h
  exact ⟨left, objs2, s2, right, hl, hr, ht, by rw [ht, bvh_node.make_depth]⟩

/-- Witness of C30: three spheres, the range being the whole vector. -/
theorem bvh_node_tree_is_balanced_witness :
    (0 : Nat) < 3 ∧ 3 ≤ sample_three_objects.length ∧
    ∀ fuel tree objs s1,
      bvh_node.build Env.sample fuel sample_three_objects 0 3 0 1 0 = some (tree, objs, s1) →
      1 ≤ tree.depth ∧ tree.depth ≤ max 1 (Nat.clog 2 (3 - 0)) :=
  ⟨by decide, by decide,
    (bvh_node_tree_is_balanced Env.sample Env.sample_sort_perm 0 1
      sample_three_objects 0 3 0 (by decide) (by decide)).2.1⟩

end bvh_leaves_theorems

section sphere_uv_theorems

variable {K σ : Type} [LinearOrderedField K]

/-- C31: `get_sphere_uv` yields `u = 1 - (atan2(p.z, p.x) + pi) / (2 pi)` and
`v = (asin(p.y) + pi / 2) / pi`; for `-1 <= p.y <= 1`, in particular for every point of the
unit sphere, both lie in `[0, 1]`. The library facts used: `pi > 0`, `atan2` returns in
`[-pi, pi]`, and `asin` returns in `[-pi/2, pi/2]` on `[-1, 1]`. -/
theorem get_sphere_uv_in_unit_square (E : Env K σ) (p : vec3 K)
    (hpi : 0 < E.pi)
    (hatan : ∀ y x : K, -E.pi ≤ E.atan2 y x ∧ E.atan2 y x ≤ E.pi)
    (hasin : ∀ y : K, -1 ≤ y → y ≤ 1 → -(E.pi / 2) ≤ E.asin y ∧ E.asin y ≤ E.pi / 2) :
    (get_sphere_uv E p).1 = 1 - (E.atan2 p.z p.x + E.pi) / (2 * E.pi) ∧
    (get_sphere_uv E p).2 = (E.asin p.y + E.pi / 2) / E.pi ∧
    (0 ≤ (get_sphere_uv E p).1 ∧ (get_sphere_uv E p).1 ≤ 1) ∧
    (-1 ≤ p.y → p.y ≤ 1 → 0 ≤ (get_sphere_uv E p).2 ∧ (get_sphere_uv E p).2 ≤ 1) ∧
    (p.length_squared = 1 → -1 ≤ p.y ∧ p.y ≤ 1) := by
  have h2pi : 0 < 2 * E.pi := by linarith
  obtain ⟨ha1, ha2⟩ := hatan p.z p.x
  refine ⟨rfl, rfl, ⟨?_, ?_⟩, fun hy1 hy2 => ?_, fun hlen => ?_⟩
  · show 0 ≤ 1 - (E.atan2 p.z p.x + E.pi) / (2 * E.pi)
    have : (E.atan2 p.z p.x + E.pi) / (2 * E.pi) ≤ 1 := by
      rw [div_le_one h2pi]
      linarith
    linarith
  · show 1 - (E.atan2 p.z p.x + E.pi) / (2 * E.pi) ≤ 1
    have : 0 ≤ (E.atan2 p.z p.x + E.pi) / (2 * E.pi) :=
      div_nonneg (by linarith) (le_of_lt h2pi)
    linarith
  · obtain ⟨hs1, hs2⟩ := hasin p.y hy1 hy2
    constructor
    · show 0 ≤ (E.asin p.y + E.pi / 2) / E.pi
      exact div_nonneg (by linarith) (le_of_lt hpi)
    · show (E.asin p.y + E.pi / 2) / E.pi ≤ 1
      rw [div_le_one hpi]
      linarith
  · simp only [vec3.length_squared] at hlen
    have := coord_bound_of_length_squared p.y p.x p.z 1 (by norm_num) (by linarith)
    exact this

/-- Witness of C31: the sample environment (`pi = 3`, `atan2` and `asin` constantly 0) and
the point `(1, 0, 0)` of the unit sphere. -/
theorem get_sphere_uv_in_unit_square_witness :
    (0 : ℚ) < Env.sample.pi ∧
    (0 ≤ (get_sphere_uv Env.sample (⟨1, 0, 0⟩ : vec3 ℚ)).1 ∧
      (get_sphere_uv Env.sample (⟨1, 0, 0⟩ : vec3 ℚ)).1 ≤ 1) := by
  have hpi : (0 : ℚ) < Env.sample.pi := by norm_num [Env.sample]
  have hatan : ∀ y x : ℚ, -Env.sample.pi ≤ Env.sample.atan2 y x ∧
      Env.sample.atan2 y x ≤ Env.sample.pi := by
    intro y x
    norm_num [Env.sample]
  have hasin : ∀ y : ℚ, -1 ≤ y → y ≤ 1 →
      -(Env.sample.pi / 2) ≤ Env.sample.asin y ∧ Env.sample.asin y ≤ Env.sample.pi / 2 := by
    intro y _ _
    norm_num [Env.sample]
  exact ⟨hpi, (get_sphere_uv_in_unit_square Env.sample ⟨1, 0, 0⟩ hpi hatan hasin).2.2.1⟩

end sphere_uv_theorems

section energy_theorems

variable {K σ : Type} [LinearOrderedField K]

/-- The function `ray_color` at `depth <= 0`. -/
theorem ray_color_of_depth_nonpos (E : Env K σ) (r : ray K) (background : vec3 K)
    (world : hittable K σ) (depth : Int) (s : σ) (hd : depth ≤ 0) :
    (ray_color E r background world depth s).1 = Color.black := by
  rw [ray_color]
  simp only [hd, if_true]

/-- The function `ray_color` when the scene is missed. -/
theorem ray_color_of_miss (E : Env K σ) (r : ray K) (background : vec3 K)
    (world : hittable K σ) (depth : Int) (s : σ) (hd : ¬ depth ≤ 0)
    (hh : (ray_color.world_hit E r world s).1 = false) :
    (ray_color E r background world depth s).1 = background := by
  rw [ray_color]
  simp only [ray_color.world_hit] at hh
  simp only [hd, if_false, hh, Bool.not_false, if_true]

/-- The function `ray_color` when the material of the hit does not scatter. -/
theorem ray_color_of_no_scatter (E : Env K σ) (r : ray K) (background : vec3 K)
    (world : hittable K σ) (depth : Int) (s : σ) (hd : ¬ depth ≤ 0)
    (hh : (ray_color.world_hit E r world s).1 = true)
    (hsc : (ray_color.scatter E r world s).ok = false) :
    (ray_color E r background world depth s).1 = ray_color.emitted E r world s := by
  rw [ray_color]
  simp only [ray_color.world_hit, ray_color.scatter, ray_color.emitted] at hh hsc ⊢
  simp only [hd, if_false, hh, hsc, Bool.not_true, Bool.not_false, Bool.false_eq_true, if_true]

/-- The function `ray_color` when the material of the hit scatters. -/
theorem ray_color_of_scatter (E : Env K σ) (r : ray K) (background : vec3 K)
    (world : hittable K σ) (depth : Int) (s : σ) (hd : ¬ depth ≤ 0)
    (hh : (ray_color.world_hit E r world s).1 = true)
    (hsc : (ray_color.scatter E r world s).ok = true) :
    (ray_color E r background world depth s).1 =
      (ray_color.emitted E r world s).add
        ((ray_color.scatter E r world s).attenuation.mul
          (ray_color E (ray_color.scatter E r world s).scattered background world
            (depth - 1) (ray_color.scatter E r world s).state).1) := by
  rw [ray_color]
  simp only [ray_color.world_hit, ray_color.scatter, ray_color.emitted] at hh hsc ⊢
  simp only [hd, if_false, hh, hsc, Bool.not_true, Bool.false_eq_true]

/-- C34: for a scene in which every material that a hit reports emits black and every
attenuation that its `scatter` returns has all components in `[0, 1]`, and a background with
non-negative components: each component of the result of `ray_color` lies between 0 and the
corresponding component of the background, for every ray and every depth; with a black
background the result is black. -/
theorem ray_color_bounded_by_background (E : Env K σ) (world : hittable K σ)
    (background : vec3 K)
    (hbg : 0 ≤ background.x ∧ 0 ≤ background.y ∧ 0 ≤ background.z)
    (hemit : ∀ r s, (ray_color.world_hit E r world s).1 = true →
      ray_color.emitted E r world s = Color.black)
    (hatt : ∀ r s, (ray_color.world_hit E r world s).1 = true →
      (ray_color.scatter E r world s).ok = true →
      (0 ≤ (ray_color.scatter E r world s).attenuation.x ∧
        (ray_color.scatter E r world s).attenuation.x ≤ 1) ∧
      (0 ≤ (ray_color.scatter E r world s).attenuation.y ∧
        (ray_color.scatter E r world s).attenuation.y ≤ 1) ∧
      (0 ≤ (ray_color.scatter E r world s).attenuation.z ∧
        (ray_color.scatter E r world s).attenuation.z ≤ 1))
    (r : ray K) (depth : Int) (s : σ) :
    ((0 ≤ (ray_color E r background world depth s).1.x ∧
        (ray_color E r background world depth s).1.x ≤ background.x) ∧
      (0 ≤ (ray_color E r background world depth s).1.y ∧
        (ray_color E r background world depth s).1.y ≤ background.y) ∧
      (0 ≤ (ray_color E r background world depth s).1.z ∧
        (ray_color E r background world depth s).1.z ≤ background.z)) ∧
    (background = Color.black → (ray_color E r background world depth s).1 = Color.black) := by
  have key : ∀ (n : Nat) (depth : Int) (r : ray K) (s : σ), depth.toNat = n →
      (0 ≤ (ray_color E r background world depth s).1.x ∧
        (ray_color E r background world depth s).1.x ≤ background.x) ∧
      (0 ≤ (ray_color E r background world depth s).1.y ∧
        (ray_color E r background world depth s).1.y ≤ background.y) ∧
      (0 ≤ (ray_color E r background world depth s).1.z ∧
        (ray_color E r background world depth s).1.z ≤ background.z) := by
    intro n
    induction n with
    | zero =>
      intro depth r s hn
      have hd : depth ≤ 0 := Int.toNat_eq_zero.mp hn
      rw [ray_color_of_depth_nonpos E r background world depth s hd]
      simp only [Color.black]
      exact ⟨⟨le_refl _, hbg.1⟩, ⟨le_refl _, hbg.2.1⟩, ⟨le_refl _, hbg.2.2⟩⟩
    | succ m ih =>
      intro depth r s hn
      have hd : ¬ depth ≤ 0 := by
        intro h
        rw [Int.toNat_eq_zero.mpr h] at hn
        exact Nat.succ_ne_zero m hn.symm
      have hm : (depth - 1).toNat = m := by omega
      cases hh : (ray_color.world_hit E r world s).1
      · rw [ray_color_of_miss E r background world depth s hd hh]
        exact ⟨⟨hbg.1, le_refl _⟩, ⟨hbg.2.1, le_refl _⟩, ⟨hbg.2.2, le_refl _⟩⟩
      · cases hsc : (ray_color.scatter E r world s).ok
        · rw [ray_color_of_no_scatter E r background world depth s hd hh hsc, hemit r s hh]
          simp only [Color.black]
          exact ⟨⟨le_refl _, hbg.1⟩, ⟨le_refl _, hbg.2.1⟩, ⟨le_refl _, hbg.2.2⟩⟩
        · rw [ray_color_of_scatter E r background world depth s hd hh hsc, hemit r s hh]
          obtain ⟨⟨ax0, ax1⟩, ⟨ay0, ay1⟩, ⟨az0, az1⟩⟩ := hatt r s hh hsc
          obtain ⟨⟨cx0, cx1⟩, ⟨cy0, cy1⟩, ⟨cz0, cz1⟩⟩ :=
            ih (depth - 1) (ray_color.scatter E r world s).scattered
              (ray_color.scatter E r world s).state hm
          simp only [Color.black, vec3.add, vec3.mul, zero_add]
          refine ⟨⟨mul_nonneg ax0 cx0, ?_⟩, ⟨mul_nonneg ay0 cy0, ?_⟩,
            ⟨mul_nonneg az0 cz0, ?_⟩⟩
          · exact le_trans (mul_le_of_le_one_left cx0 ax1) cx1
          · exact le_trans (mul_le_of_le_one_left cy0 ay1) cy1
          · exact le_trans (mul_le_of_le_one_left cz0 az1) cz1
  have hb := key depth.toNat depth r s rfl
  refine ⟨hb, fun hblack => ?_⟩
  have bx : background.x = 0 := by rw [hblack]; rfl
  have by_ : background.y = 0 := by rw [hblack]; rfl
  have bz : background.z = 0 := by rw [hblack]; rfl
  obtain ⟨⟨x0, x1⟩, ⟨y0, y1⟩, ⟨z0, z1⟩⟩ := hb
  rw [bx] at x1
  rw [by_] at y1
  rw [bz] at z1
  cases hv : (ray_color E r background world depth s).1 with
  | mk x y z =>
    rw [hv] at x0 x1 y0 y1 z0 z1
    simp only [Color.black, vec3.mk.injEq]
    exact ⟨le_antisymm x1 x0, le_antisymm y1 y0, le_antisymm z1 z0⟩

/-- The record that `sphere::hit` returns with true carries the material of the sphere. -/
theorem sphere.hit_mat_ptr (E : Env K σ) (s : sphere K) (r : ray K) (t_min t_max : K)
    (rec : hit_record K) (h : (s.hit E r t_min t_max rec).1 = true) :
    (s.hit E r t_min t_max rec).2.mat_ptr = s.mat_ptr := by
  rw [sphere.hit_eq] at h ⊢
  by_cases hd : s.discriminant r > 0
  · simp only [hd, if_true] at h ⊢
    by_cases h1 : s.temp_lo E r < t_max ∧ s.temp_lo E r > t_min
    · simp only [h1, and_self, if_true]
      rfl
    · simp only [h1, if_false] at h ⊢
      by_cases h2 : s.temp_hi E r < t_max ∧ s.temp_hi E r > t_min
      · simp only [h2, and_self, if_true]
        rfl
      · simp only [h2, if_false] at h
        exact Bool.noConfusion h
  · simp only [hd, if_false] at h
    exact Bool.noConfusion h

/-- Witness of C34: the scene of the grey Lambertian sample sphere, a white background, the
sample ray and depth 3. -/
theorem ray_color_bounded_by_background_witness :
    (0 ≤ (ray_color Env.sample sample_ray ⟨1, 1, 1⟩ (sample_sphere.toHittable Env.sample)
      3 0).1.x ∧
    (ray_color Env.sample sample_ray ⟨1, 1, 1⟩ (sample_sphere.toHittable Env.sample)
      3 0).1.x ≤ 1) := by
  have hm : ∀ (r : ray ℚ) (s : Nat),
      (ray_color.world_hit Env.sample r (sample_sphere.toHittable Env.sample) s).1 = true →
      (ray_color.world_hit Env.sample r (sample_sphere.toHittable Env.sample) s).2.1.mat_ptr
        = material.lambertian (constant_texture ⟨1 / 2, 1 / 2, 1 / 2⟩) :=
    fun r s h => sphere.hit_mat_ptr Env.sample sample_sphere r _ _ _ h
  have hemit : ∀ (r : ray ℚ) (s : Nat),
      (ray_color.world_hit Env.sample r (sample_sphere.toHittable Env.sample) s).1 = true →
      ray_color.emitted Env.sample r (sample_sphere.toHittable Env.sample) s
        = Color.black := by
    intro r s h
    simp only [ray_color.emitted, hm r s h, material.emitted]
  have hatt : ∀ (r : ray ℚ) (s : Nat),
      (ray_color.world_hit Env.sample r (sample_sphere.toHittable Env.sample) s).1 = true →
      (ray_color.scatter Env.sample r (sample_sphere.toHittable Env.sample) s).ok = true →
      (0 ≤ (ray_color.scatter Env.sample r (sample_sphere.toHittable Env.sample)
          s).attenuation.x ∧
        (ray_color.scatter Env.sample r (sample_sphere.toHittable Env.sample)
          s).attenuation.x ≤ 1) ∧
      (0 ≤ (ray_color.scatter Env.sample r (sample_sphere.toHittable Env.sample)
          s).attenuation.y ∧
        (ray_color.scatter Env.sample r (sample_sphere.toHittable Env.sample)
          s).attenuation.y ≤ 1) ∧
      (0 ≤ (ray_color.scatter Env.sample r (sample_sphere.toHittable Env.sample)
          s).attenuation.z ∧
        (ray_color.scatter Env.sample r (sample_sphere.toHittable Env.sample)
          s).attenuation.z ≤ 1) := by
    intro r s h _
    simp only [ray_color.scatter, hm r s h, material.scatter, constant_texture]
    norm_num
  exact (ray_color_bounded_by_background Env.sample (sample_sphere.toHittable Env.sample)
    ⟨1, 1, 1⟩ ⟨by norm_num, by norm_num, by norm_num⟩ hemit hatt sample_ray 3 0).1.1

end energy_theorems

section image_texture_range_theorems

variable {K σ : Type} [LinearOrderedField K]

/-- The function `std::clamp` returns a value between its bounds when they are ordered. -/
theorem std.clamp_bounds (v lo hi : Int) (h : lo ≤ hi) :
    lo ≤ std.clamp v lo hi ∧ std.clamp v lo hi ≤ hi := by
  simp only [std.clamp]
  split_ifs <;> omega

/-- An element of an array of bytes, or the 0 that stands for a read outside the array, is
below 256. -/
theorem image_texture.byte_lt (bytes : List Nat) (k : Int) (h : ∀ b ∈ bytes, b < 256) :
    image_texture.byte bytes k < 256 := by
  have hget : ∀ (l : List Nat) (n : Nat), (∀ b ∈ l, b < 256) → l.getD n 0 < 256 := by
    intro l
    induction l with
    | nil =>
      intro n _
      simp
    | cons a t ih =>
      intro n hl
      cases n with
      | zero => simpa using hl a (List.mem_cons_self _ _)
      | succ m => simpa using ih m (fun b hb => hl b (List.mem_cons_of_mem _ hb))
  simp only [image_texture.byte]
  split_ifs
  · decide
  · exact hget bytes _ h

/-- A byte divided by 255 lies in `[0, 1]`. -/
theorem image_texture.channel_bounds (bytes : List Nat) (k : Int)
    (h : ∀ b ∈ bytes, b < 256) :
    (0 : K) ≤ ((image_texture.byte bytes k : Nat) : K) / 255 ∧
    ((image_texture.byte bytes k : Nat) : K) / 255 ≤ 1 := by
  have hlt := image_texture.byte_lt bytes k h
  have hle : ((image_texture.byte bytes k : Nat) : K) ≤ 255 := by
    have : image_texture.byte bytes k ≤ 255 := by omega
    exact_mod_cast this
  constructor
  · exact div_nonneg (Nat.cast_nonneg _) (by norm_num)
  · rw [div_le_one (by norm_num)]
    exact hle

/-- A result inside the range of a 32-bit `int` is held as it is. -/
theorem int32_wrap_of_range (n : Int) (h0 : -2147483648 ≤ n) (h1 : n < 2147483648) :
    int32_wrap n = n := by
  simp only [int32_wrap]
  omega

/-- The index of a colour channel of a pixel inside the image, when the number of bytes
`3 * nx * ny` is in the range of `int`: no operation wraps, and the index lies inside the
array. -/
theorem image_texture.index_bounds (t : image_texture) (i j c : Int)
    (hsize : 3 * t.nx * t.ny < 2147483648)
    (hi0 : 0 ≤ i) (hi1 : i ≤ t.nx - 1) (hj0 : 0 ≤ j) (hj1 : j ≤ t.ny - 1) (hc0 : 0 ≤ c)
    (hc2 : c ≤ 2) :
    t.index i j c = 3 * i + 3 * t.nx * j + c ∧
    0 ≤ t.index i j c ∧ t.index i j c < 3 * t.nx * t.ny := by
  have hnx : 1 ≤ t.nx := by omega
  have hny : 1 ≤ t.ny := by omega
  have h1 : 0 ≤ t.nx * j := mul_nonneg (by omega) hj0
  have h2 : t.nx * j ≤ t.nx * (t.ny - 1) := mul_le_mul_of_nonneg_left hj1 (by omega)
  have h3 : t.nx * 1 ≤ t.nx * t.ny := mul_le_mul_of_nonneg_left hny (by omega)
  have e0 : 3 * t.nx * t.ny = 3 * (t.nx * t.ny) := by ring
  have e1 : 3 * t.nx * j = 3 * (t.nx * j) := by ring
  have e2 : t.nx * (t.ny - 1) = t.nx * t.ny - t.nx := by ring
  have w1 : int32_wrap (3 * i) = 3 * i := int32_wrap_of_range _ (by omega) (by omega)
  have w2 : int32_wrap (3 * t.nx) = 3 * t.nx := int32_wrap_of_range _ (by omega) (by omega)
  have w3 : int32_wrap (3 * t.nx * j) = 3 * t.nx * j :=
    int32_wrap_of_range _ (by omega) (by omega)
  have w4 : int32_wrap (3 * i + 3 * t.nx * j) = 3 * i + 3 * t.nx * j :=
    int32_wrap_of_range _ (by omega) (by omega)
  have w5 : int32_wrap (3 * i + 3 * t.nx * j + c) = 3 * i + 3 * t.nx * j + c :=
    int32_wrap_of_range _ (by omega) (by omega)
  have e : t.index i j c = 3 * i + 3 * t.nx * j + c := by
    simp only [image_texture.index, w1, w2, w3, w4, w5]
  rw [e]
  exact ⟨rfl, by omega, by omega⟩

/-- C36 (amended): for an `image_texture` with non-null data of `3 * nx * ny` bytes,
`nx >= 1`, `ny >= 1` and `3 * nx * ny` in the range of a 32-bit `int`, and every `u` and
`v`: after the clamps `0 <= i < nx` and `0 <= j < ny`, the three indices
`3 * i + 3 * nx * j + {0, 1, 2}` that `value` reads lie in `[0, 3 * nx * ny)`, inside the
array, and each component of the returned colour lies in `[0, 1]`. -/
theorem image_texture_reads_inside_array_without_overflow (E : Env K σ) (to_int : K → Int)
    (t : image_texture) (bytes : List Nat) (u v : K) (p : vec3 K)
    (hdata : t.data = some bytes) (hlen : (bytes.length : Int) = 3 * t.nx * t.ny)
    (hbyte : ∀ b ∈ bytes, b < 256) (hnx : 1 ≤ t.nx) (hny : 1 ≤ t.ny)
    (hsize : 3 * t.nx * t.ny < 2147483648) :
    (0 ≤ t.i to_int u ∧ t.i to_int u < t.nx) ∧
    (0 ≤ t.j E to_int v ∧ t.j E to_int v < t.ny) ∧
    (t.value_reads E to_int u v p).2
      = [3 * t.i to_int u + 3 * t.nx * t.j E to_int v + 0,
         3 * t.i to_int u + 3 * t.nx * t.j E to_int v + 1,
         3 * t.i to_int u + 3 * t.nx * t.j E to_int v + 2] ∧
    (∀ k ∈ (t.value_reads E to_int u v p).2,
      0 ≤ k ∧ k < 3 * t.nx * t.ny ∧ k.toNat < bytes.length) ∧
    (0 ≤ (t.value E to_int u v p).x ∧ (t.value E to_int u v p).x ≤ 1) ∧
    (0 ≤ (t.value E to_int u v p).y ∧ (t.value E to_int u v p).y ≤ 1) ∧
    (0 ≤ (t.value E to_int u v p).z ∧ (t.value E to_int u v p).z ≤ 1) := by
  have h3 : t.nx * 1 ≤ t.nx * t.ny := mul_le_mul_of_nonneg_left hny (by omega)
  have h4 : 1 * t.ny ≤ t.nx * t.ny := mul_le_mul_of_nonneg_right hnx (by omega)
  have e0 : 3 * t.nx * t.ny = 3 * (t.nx * t.ny) := by ring
  have wx : int32_wrap (t.nx - 1) = t.nx - 1 := int32_wrap_of_range _ (by omega) (by omega)
  have wy : int32_wrap (t.ny - 1) = t.ny - 1 := int32_wrap_of_range _ (by omega) (by omega)
  obtain ⟨hi0, hi1⟩ := std.clamp_bounds (to_int (u * (t.nx : K))) 0 (t.nx - 1) (by omega)
  obtain ⟨hj0, hj1⟩ := std.clamp_bounds (to_int ((1 - v) * (t.ny : K) - E.epsilon)) 0
    (t.ny - 1) (by omega)
  have hi0b : 0 ≤ t.i to_int u := by
    simp only [image_texture.i, wx]
    exact hi0
  have hi1b : t.i to_int u ≤ t.nx - 1 := by
    simp only [image_texture.i, wx]
    exact hi1
  have hj0b : 0 ≤ t.j E to_int v := by
    simp only [image_texture.j, wy]
    exact hj0
  have hj1b : t.j E to_int v ≤ t.ny - 1 := by
    simp only [image_texture.j, wy]
    exact hj1
  have hreads : (t.value_reads E to_int u v p).2
      = [t.index (t.i to_int u) (t.j E to_int v) 0,
         t.index (t.i to_int u) (t.j E to_int v) 1,
         t.index (t.i to_int u) (t.j E to_int v) 2] := by
    simp only [image_texture.value_reads, hdata]
  have hval : t.value E to_int u v p
      = ⟨((image_texture.byte bytes (t.index (t.i to_int u) (t.j E to_int v) 0) : Nat) : K)
            / 255,
          ((image_texture.byte bytes (t.index (t.i to_int u) (t.j E to_int v) 1) : Nat) : K)
            / 255,
          ((image_texture.byte bytes (t.index (t.i to_int u) (t.j E to_int v) 2) : Nat) : K)
            / 255⟩ := by
    simp only [image_texture.value, image_texture.value_reads, hdata]
  have hidx : ∀ c : Int, 0 ≤ c → c ≤ 2 →
      t.index (t.i to_int u) (t.j E to_int v) c
        = 3 * t.i to_int u + 3 * t.nx * t.j E to_int v + c ∧
      0 ≤ t.index (t.i to_int u) (t.j E to_int v) c ∧
      t.index (t.i to_int u) (t.j E to_int v) c < 3 * t.nx * t.ny ∧
      (t.index (t.i to_int u) (t.j E to_int v) c).toNat < bytes.length := by
    intro c hc0 hc2
    obtain ⟨e, a, b⟩ := image_texture.index_bounds t _ _ c hsize hi0b hi1b hj0b hj1b hc0 hc2
    refine ⟨e, a, b, ?_⟩
    have : ((t.index (t.i to_int u) (t.j E to_int v) c).toNat : Int) < (bytes.length : Int) := by
      rw [Int.toNat_of_nonneg a, hlen]
      exact b
    exact_mod_cast this
  refine ⟨⟨hi0b, by omega⟩, ⟨hj0b, by omega⟩, ?_, ?_, ?_, ?_, ?_⟩
  · rw [hreads, (hidx 0 (by decide) (by decide)).1, (hidx 1 (by decide) (by decide)).1,
      (hidx 2 (by decide) (by decide)).1]
  · intro k hk
    rw [hreads] at hk
    simp only [List.mem_cons, List.mem_singleton, List.not_mem_nil, or_false] at hk
    rcases hk with rfl | rfl | rfl
    · exact (hidx 0 (by decide) (by decide)).2
    · exact (hidx 1 (by decide) (by decide)).2
    · exact (hidx 2 (by decide) (by decide)).2
  · rw [hval]
    exact image_texture.channel_bounds bytes _ hbyte
  · rw [hval]
    exact image_texture.channel_bounds bytes _ hbyte
  · rw [hval]
    exact image_texture.channel_bounds bytes _ hbyte

/-- Witness of C36 (amended): the sample image of two by one pixels, read at `u = 3/4`,
`v = 1/2`. -/
theorem image_texture_reads_inside_array_without_overflow_witness :
    sample_image.data = some [255, 255, 0, 0, 0, 255] ∧
    (1 : Int) ≤ sample_image.nx ∧ (1 : Int) ≤ sample_image.ny ∧
    3 * sample_image.nx * sample_image.ny < 2147483648 ∧
    (∀ k ∈ (sample_image.value_reads Env.sample sample_to_int (3 / 4) (1 / 2)
        (⟨0, 0, 0⟩ : vec3 ℚ)).2,
      0 ≤ k ∧ k < 3 * sample_image.nx * sample_image.ny ∧
        k.toNat < [255, 255, 0, 0, 0, 255].length) :=
  ⟨rfl, by decide, by decide, by decide,
    (image_texture_reads_inside_array_without_overflow Env.sample sample_to_int sample_image
      [255, 255, 0, 0, 0, 255] (3 / 4) (1 / 2) ⟨0, 0, 0⟩ rfl (by decide) (by decide)
      (by decide) (by decide) (by decide)).2.2.2.1⟩

/-- Counterexample to C36: an image of 30000 by 30000 pixels with its `3 * nx * ny` =
2 700 000 000 bytes, read at `u = 0`, `v = 0`.  The clamped indices are `i = 0` and
`j = 29999`, inside the image, and `3 * nx * j = 2 699 910 000` exceeds the largest `int`
`2^31 - 1`: in 32-bit arithmetic the product is `-1 595 057 296`, so the three indices that
`value` reads are negative, outside the array. -/
theorem image_texture_reads_outside_array_on_int_overflow :
    ((List.replicate 2700000000 (0 : Nat)).length : Int) = 3 * 30000 * 30000 ∧
    (∀ b ∈ List.replicate 2700000000 (0 : Nat), b < 256) ∧
    image_texture.i sample_to_int ⟨some (List.replicate 2700000000 0), 30000, 30000⟩ (0 : ℚ)
      = 0 ∧
    image_texture.j Env.sample sample_to_int
      ⟨some (List.replicate 2700000000 0), 30000, 30000⟩ (0 : ℚ) = 29999 ∧
    (3 * 30000 * 29999 : Int) = 2699910000 ∧ (2147483647 : Int) < 2699910000 ∧
    (image_texture.value_reads Env.sample sample_to_int
      ⟨some (List.replicate 2700000000 0), 30000, 30000⟩ (0 : ℚ) 0 ⟨0, 0, 0⟩).2
      = [-1595057296, -1595057295, -1595057294] ∧
    ¬ ∀ k ∈ (image_texture.value_reads Env.sample sample_to_int
        ⟨some (List.replicate 2700000000 0), 30000, 30000⟩ (0 : ℚ) 0 ⟨0, 0, 0⟩).2,
      0 ≤ k ∧ k < 3 * 30000 * 30000 := by
  have hi : image_texture.i sample_to_int
      ⟨some (List.replicate 2700000000 0), 30000, 30000⟩ (0 : ℚ) = 0 := by
    norm_num [image_texture.i, sample_to_int, std.clamp, int32_wrap]
  have hj : image_texture.j Env.sample sample_to_int
      ⟨some (List.replicate 2700000000 0), 30000, 30000⟩ (0 : ℚ) = 29999 := by
    have hf : ⌊(30000 - 1 / 1000 : ℚ)⌋ = 29999 := by
      rw [Int.floor_eq_iff]
      constructor <;> norm_num
    norm_num [image_texture.j, sample_to_int, std.clamp, int32_wrap, Env.sample, hf]
  have hr : (image_texture.value_reads Env.sample sample_to_int
      ⟨some (List.replicate 2700000000 0), 30000, 30000⟩ (0 : ℚ) 0 ⟨0, 0, 0⟩).2
      = [-1595057296, -1595057295, -1595057294] := by
    simp only [image_texture.value_reads, hi, hj, image_texture.index]
    norm_num [int32_wrap]
  refine ⟨by rw [List.length_replicate]; norm_num, ?_, hi, hj, by norm_num, by norm_num, hr, ?_⟩
  · intro b hb
    rw [List.eq_of_mem_replicate hb]
    decide
  · rw [hr]
    intro h
    have := (h (-1595057296) (List.mem_cons_self _ _)).1
    omega

end image_texture_range_theorems

/-! ## Evaluating `double_round` -/

/-- An argument strictly within one half of the integer `m` rounds to `m`. -/
theorem round_half_even_of_lt (x : ℚ) (m : ℤ) (h1 : (m : ℚ) - 1 / 2 < x)
    (h2 : x < m + 1 / 2) : round_half_even x = m := by
  unfold round_half_even
  by_cases hx : (m : ℚ) ≤ x
  · have hf : ⌊x⌋ = m := by
      rw [Int.floor_eq_iff]
      exact ⟨hx, by linarith⟩
    simp only [hf]
    rw [if_pos (by linarith)]
  · push_neg at hx
    have hf : ⌊x⌋ = m - 1 := by
      rw [Int.floor_eq_iff]
      constructor
      · push_cast; linarith
      · push_cast; linarith
    simp only [hf]
    push_cast
    rw [if_neg (by linarith), if_pos (by linarith)]
    ring

/-- An argument half-way between the even integer `m` and a neighbour rounds to `m`. -/
theorem round_half_even_of_tie (x : ℚ) (m : ℤ) (h : x = m + 1 / 2 ∨ x = m - 1 / 2)
    (hm : m % 2 = 0) : round_half_even x = m := by
  unfold round_half_even
  rcases h with h | h
  · have hf : ⌊x⌋ = m := by
      rw [Int.floor_eq_iff]
      constructor <;> linarith
    simp only [hf]
    rw [if_neg (by linarith), if_neg (by linarith), if_pos hm]
  · have hf : ⌊x⌋ = m - 1 := by
      rw [Int.floor_eq_iff]
      constructor <;> push_cast <;> linarith
    simp only [hf]
    push_cast
    have hodd : ¬ ((m - 1) % 2 = 0) := by omega
    rw [if_neg (by linarith), if_neg (by linarith), if_neg hodd]
    ring

/-- Zero is a binary64 number. -/
theorem double_round_zero : double_round 0 = 0 := by
  simp [double_round]

/-- The value of `double_round` at a positive `q` with `2 ^ (e + 52) ≤ q < 2 ^ (e + 53)`:
the multiple `m * 2 ^ e` for the integer `m` that `q / 2 ^ e` rounds to. -/
theorem double_round_of_pos (q : ℚ) (e m : ℤ) (hlo : (2 : ℚ) ^ (e + 52) ≤ q)
    (hhi : q < (2 : ℚ) ^ (e + 53)) (hm : round_half_even (q / 2 ^ e) = m) :
    double_round q = m * 2 ^ e := by
  have hpos : 0 < q := lt_of_lt_of_le (by positivity) hlo
  have hq : q ≠ 0 := ne_of_gt hpos
  have two : 1 < 2 := by norm_num
  have hlog : Int.log 2 |q| = e + 52 := by
    rw [abs_of_pos hpos]
    apply le_antisymm
    · have := (Int.lt_zpow_iff_log_lt two hpos).mp (by exact_mod_cast hhi)
      omega
    · exact (Int.zpow_le_iff_le_log two hpos).mp (by exact_mod_cast hlo)
  unfold double_round
  rw [if_neg hq]
  simp only [hlog, add_sub_cancel_right, hm]

/-- The value of `double_round` at a negative `q` with `2 ^ (e + 52) ≤ -q < 2 ^ (e + 53)`:
the multiple `m * 2 ^ e` for the integer `m` that `q / 2 ^ e` rounds to. -/
theorem double_round_of_neg (q : ℚ) (e m : ℤ) (hlo : (2 : ℚ) ^ (e + 52) ≤ -q)
    (hhi : -q < (2 : ℚ) ^ (e + 53)) (hm : round_half_even (q / 2 ^ e) = m) :
    double_round q = m * 2 ^ e := by
  have hpos : 0 < -q := lt_of_lt_of_le (by positivity) hlo
  have hq : q ≠ 0 := by
    intro h
    rw [h] at hpos
    simp at hpos
  have two : 1 < 2 := by norm_num
  have hlog : Int.log 2 |q| = e + 52 := by
    rw [abs_of_neg (by linarith)]
    apply le_antisymm
    · have := (Int.lt_zpow_iff_log_lt two hpos).mp (by exact_mod_cast hhi)
      omega
    · exact (Int.zpow_le_iff_le_log two hpos).mp (by exact_mod_cast hlo)
  unfold double_round
  rw [if_neg hq]
  simp only [hlog, add_sub_cancel_right, hm]

/-! ## Laws of `double_round` -/

/-- The integer that `round_half_even` returns is strictly within one half of the argument,
or exactly one half away from it and even. -/
theorem round_half_even_spec (x : ℚ) :
    ((round_half_even x : ℚ) - 1 / 2 < x ∧ x < round_half_even x + 1 / 2) ∨
    ((x = round_half_even x + 1 / 2 ∨ x = round_half_even x - 1 / 2) ∧
      round_half_even x % 2 = 0) := by
  have h0 : (⌊x⌋ : ℚ) ≤ x := Int.floor_le x
  have h1 : x < ⌊x⌋ + 1 := Int.lt_floor_add_one x
  unfold round_half_even
  simp only
  split_ifs with c1 c2 c3
  · left
    constructor <;> linarith
  · left
    push_cast
    constructor <;> linarith
  · right
    have e : x - ⌊x⌋ = 1 / 2 := le_antisymm (not_lt.mp c2) (not_lt.mp c1)
    exact ⟨Or.inl (by linarith), c3⟩
  · right
    have e : x - ⌊x⌋ = 1 / 2 := le_antisymm (not_lt.mp c2) (not_lt.mp c1)
    refine ⟨Or.inr (by push_cast; linarith), ?_⟩
    omega

/-- The integer that `round_half_even` returns is at most one half away from the argument. -/
theorem round_half_even_near (x : ℚ) :
    (round_half_even x : ℚ) - 1 / 2 ≤ x ∧ x ≤ round_half_even x + 1 / 2 := by
  rcases round_half_even_spec x with ⟨h1, h2⟩ | ⟨h | h, _⟩
  · exact ⟨le_of_lt h1, le_of_lt h2⟩
  · constructor <;> linarith
  · constructor <;> linarith

/-- An integer rounds to itself. -/
theorem round_half_even_intCast (n : ℤ) : round_half_even (n : ℚ) = n :=
  round_half_even_of_lt _ _ (by linarith) (by linarith)

/-- The function `round_half_even` is monotone. -/
theorem round_half_even_mono {x y : ℚ} (h : x ≤ y) : round_half_even x ≤ round_half_even y := by
  by_contra hc
  push_neg at hc
  have hc1 : round_half_even y + 1 ≤ round_half_even x := hc
  have hc2 : (round_half_even y : ℚ) + 1 ≤ round_half_even x := by exact_mod_cast hc1
  obtain ⟨_, hx⟩ := round_half_even_near x
  obtain ⟨hy, _⟩ := round_half_even_near y
  -- all inequalities are equalities
  have ex : x = y := by linarith
  rw [ex] at hc
  exact lt_irrefl _ hc

/-- The function `round_half_even` is odd. -/
theorem round_half_even_neg (x : ℚ) : round_half_even (-x) = -round_half_even x := by
  rcases round_half_even_spec x with ⟨h1, h2⟩ | ⟨h, he⟩
  · apply round_half_even_of_lt
    · push_cast; linarith
    · push_cast; linarith
  · apply round_half_even_of_tie
    · rcases h with h | h
      · right; push_cast; linarith
      · left; push_cast; linarith
    · omega

/-- The exponent of a non-zero rational: `2 ^ log ≤ |q| < 2 ^ (log + 1)`. -/
theorem zpow_log_le_abs_lt (q : ℚ) (hq : q ≠ 0) :
    (2 : ℚ) ^ (Int.log 2 |q|) ≤ |q| ∧ |q| < (2 : ℚ) ^ (Int.log 2 |q| + 1) := by
  have hpos : 0 < |q| := abs_pos.mpr hq
  have two : 1 < 2 := by norm_num
  have h1 := Int.zpow_log_le_self two hpos
  have h2 := Int.lt_zpow_succ_log_self two |q|
  exact ⟨by exact_mod_cast h1, by exact_mod_cast h2⟩

/-- The definition of `double_round` at a non-zero argument. -/
theorem double_round_of_ne (q : ℚ) (hq : q ≠ 0) :
    double_round q
      = (round_half_even (q / 2 ^ (Int.log 2 |q| - 52)) : ℚ) * 2 ^ (Int.log 2 |q| - 52) := by
  unfold double_round
  rw [if_neg hq]

/-- The function `double_round` is odd. -/
theorem double_round_neg (q : ℚ) : double_round (-q) = -double_round q := by
  by_cases hq : q = 0
  · rw [hq, neg_zero, double_round_zero, neg_zero]
  · rw [double_round_of_ne _ (neg_ne_zero.mpr hq), double_round_of_ne _ hq, abs_neg, neg_div,
      round_half_even_neg]
    push_cast
    ring

/-- A positive argument rounds into the closed binade that holds it. -/
theorem double_round_pos_bounds (q : ℚ) (hq : 0 < q) :
    (2 : ℚ) ^ (Int.log 2 |q|) ≤ double_round q ∧
    double_round q ≤ (2 : ℚ) ^ (Int.log 2 |q| + 1) := by
  obtain ⟨hlo, hhi⟩ := zpow_log_le_abs_lt q (ne_of_gt hq)
  rw [abs_of_pos hq] at hlo hhi
  rw [double_round_of_ne q (ne_of_gt hq), abs_of_pos hq]
  have hE : (0 : ℚ) < 2 ^ (Int.log 2 q - 52) := by positivity
  have e1 : (2 : ℚ) ^ (Int.log 2 q) = ((2 ^ 52 : ℤ) : ℚ) * 2 ^ (Int.log 2 q - 52) := by
    have : (2 : ℚ) ^ (Int.log 2 q) = 2 ^ ((52 : ℤ) + (Int.log 2 q - 52)) := by
      congr 1
      ring
    rw [this, zpow_add₀ (by norm_num)]
    norm_num
  have e2 : (2 : ℚ) ^ (Int.log 2 q + 1) = ((2 ^ 53 : ℤ) : ℚ) * 2 ^ (Int.log 2 q - 52) := by
    have : (2 : ℚ) ^ (Int.log 2 q + 1) = 2 ^ ((53 : ℤ) + (Int.log 2 q - 52)) := by
      congr 1
      ring
    rw [this, zpow_add₀ (by norm_num)]
    norm_num
  have h1 : ((2 ^ 52 : ℤ) : ℚ) ≤ q / 2 ^ (Int.log 2 q - 52) := by
    rw [le_div_iff₀ hE, ← e1]
    exact hlo
  have h2 : q / 2 ^ (Int.log 2 q - 52) ≤ ((2 ^ 53 : ℤ) : ℚ) := by
    rw [div_le_iff₀ hE, ← e2]
    exact le_of_lt hhi
  have r1 := round_half_even_mono h1
  have r2 := round_half_even_mono h2
  rw [round_half_even_intCast] at r1 r2
  rw [e1, e2]
  constructor
  · exact mul_le_mul_of_nonneg_right (by exact_mod_cast r1) (le_of_lt hE)
  · exact mul_le_mul_of_nonneg_right (by exact_mod_cast r2) (le_of_lt hE)

/-- A positive argument rounds to a positive number. -/
theorem double_round_pos (q : ℚ) (hq : 0 < q) : 0 < double_round q :=
  lt_of_lt_of_le (by positivity) (double_round_pos_bounds q hq).1

/-- On positive arguments `double_round` is monotone. -/
theorem double_round_mono_of_pos (p q : ℚ) (hp : 0 < p) (h : p ≤ q) :
    double_round p ≤ double_round q := by
  have hq : 0 < q := lt_of_lt_of_le hp h
  have hlog : Int.log 2 p ≤ Int.log 2 q := Int.log_mono_right hp h
  rcases eq_or_lt_of_le hlog with heq | hlt
  · rw [double_round_of_ne p (ne_of_gt hp), double_round_of_ne q (ne_of_gt hq), abs_of_pos hp,
      abs_of_pos hq, heq]
    have hE : (0 : ℚ) < 2 ^ (Int.log 2 q - 52) := by positivity
    have hy : p / 2 ^ (Int.log 2 q - 52) ≤ q / 2 ^ (Int.log 2 q - 52) :=
      div_le_div_of_nonneg_right h (le_of_lt hE)
    have := round_half_even_mono hy
    exact mul_le_mul_of_nonneg_right (by exact_mod_cast this) (le_of_lt hE)
  · have h1 := (double_round_pos_bounds p hp).2
    have h2 := (double_round_pos_bounds q hq).1
    rw [abs_of_pos hp] at h1
    rw [abs_of_pos hq] at h2
    have h3 : (2 : ℚ) ^ (Int.log 2 p + 1) ≤ 2 ^ (Int.log 2 q) :=
      zpow_le_zpow_right₀ (by norm_num) (by omega)
    exact le_trans h1 (le_trans h3 h2)

/-- The function `double_round` is monotone. -/
theorem double_round_monotone : Monotone double_round := by
  intro p q h
  rcases lt_trichotomy p 0 with hp | hp | hp
  · rcases lt_trichotomy q 0 with hq | hq | hq
    · have := double_round_mono_of_pos (-q) (-p) (by linarith) (by linarith)
      rw [double_round_neg, double_round_neg] at this
      linarith
    · rw [hq, double_round_zero]
      have := double_round_pos (-p) (by linarith)
      rw [double_round_neg] at this
      linarith
    · have h1 := double_round_pos (-p) (by linarith)
      rw [double_round_neg] at h1
      have h2 := double_round_pos q hq
      linarith
  · rw [hp] at h ⊢
    rw [double_round_zero]
    rcases eq_or_lt_of_le h with hq | hq
    · rw [← hq, double_round_zero]
    · exact le_of_lt (double_round_pos q hq)
  · exact double_round_mono_of_pos p q hp h

/-- The rounding error is at most half a unit in the last place. -/
theorem double_round_error (q : ℚ) (hq : q ≠ 0) :
    |double_round q - q| ≤ 2 ^ (Int.log 2 |q| - 52) / 2 := by
  rw [double_round_of_ne q hq]
  have hE : (0 : ℚ) < 2 ^ (Int.log 2 |q| - 52) := by positivity
  obtain ⟨h1, h2⟩ := round_half_even_near (q / 2 ^ (Int.log 2 |q| - 52))
  have e : q = q / 2 ^ (Int.log 2 |q| - 52) * 2 ^ (Int.log 2 |q| - 52) := by
    field_simp
  rw [abs_le]
  constructor
  · have := mul_le_mul_of_nonneg_right h1 (le_of_lt hE)
    nlinarith
  · have := mul_le_mul_of_nonneg_right h2 (le_of_lt hE)
    nlinarith

/-- A positive integer of at most 53 bits times a power of two is a binary64 number. -/
theorem double_round_of_pos_representable (M k : ℤ) (h0 : 0 < M) (h1 : M ≤ 2 ^ 53) :
    double_round ((M : ℚ) * 2 ^ k) = (M : ℚ) * 2 ^ k := by
  have two : 1 < 2 := by norm_num
  have hMq : (0 : ℚ) < M := by exact_mod_cast h0
  have hq : (0 : ℚ) < (M : ℚ) * 2 ^ k := by positivity
  rcases eq_or_lt_of_le h1 with heq | hlt
  · have e : ((M : ℚ) * 2 ^ k) = 2 ^ (53 + k) := by
      rw [heq, zpow_add₀ (by norm_num)]
      norm_num
    rw [e]
    have hlog : Int.log 2 |(2 : ℚ) ^ (53 + k)| = 53 + k := by
      rw [abs_of_pos (by positivity)]
      have hl : Int.log 2 (((2 : ℕ) : ℚ) ^ (53 + k)) = 53 + k := Int.log_zpow two (53 + k)
      exact_mod_cast hl
    rw [double_round_of_ne _ (by positivity), hlog]
    have ey : (2 : ℚ) ^ (53 + k) / 2 ^ (53 + k - 52) = ((2 ^ 52 : ℤ) : ℚ) := by
      rw [← zpow_sub₀ (by norm_num)]
      have : 53 + k - (53 + k - 52) = (52 : ℤ) := by ring
      rw [this]
      norm_num
    rw [ey, round_half_even_intCast]
    have : (2 : ℚ) ^ (53 + k) = 2 ^ ((52 : ℤ) + (53 + k - 52)) := by
      congr 1
      ring
    rw [this, zpow_add₀ (by norm_num)]
    norm_num
  · have hlt2 : (M : ℚ) * 2 ^ k < 2 ^ (53 + k) := by
      rw [zpow_add₀ (by norm_num)]
      have : (M : ℚ) < 2 ^ (53 : ℤ) := by
        have : (M : ℚ) < ((2 ^ 53 : ℤ) : ℚ) := by exact_mod_cast hlt
        norm_num at this ⊢
        exact this
      exact mul_lt_mul_of_pos_right this (by positivity)
    have hlog : Int.log 2 |(M : ℚ) * 2 ^ k| < 53 + k := by
      rw [abs_of_pos hq]
      exact (Int.lt_zpow_iff_log_lt two hq).mp (by exact_mod_cast hlt2)
    rw [double_round_of_ne _ (ne_of_gt hq)]
    obtain ⟨n, hn⟩ : ∃ n : ℕ, (n : ℤ) = k - (Int.log 2 |(M : ℚ) * 2 ^ k| - 52) :=
      ⟨(k - (Int.log 2 |(M : ℚ) * 2 ^ k| - 52)).toNat, Int.toNat_of_nonneg (by omega)⟩
    have ey : (M : ℚ) * 2 ^ k / 2 ^ (Int.log 2 |(M : ℚ) * 2 ^ k| - 52)
        = ((M * 2 ^ n : ℤ) : ℚ) := by
      rw [mul_div_assoc, ← zpow_sub₀ (by norm_num), ← hn]
      push_cast
      rw [zpow_natCast]
    rw [ey, round_half_even_intCast]
    push_cast
    rw [mul_assoc, ← zpow_natCast, ← zpow_add₀ (by norm_num), hn]
    congr 2
    ring

/-- Every value of `double_round` is a fixed point of `double_round`. -/
theorem double_round_idempotent (q : ℚ) : double_round (double_round q) = double_round q := by
  have key : ∀ p : ℚ, 0 < p → double_round (double_round p) = double_round p := by
    intro p hp
    have hb := double_round_pos_bounds p hp
    have hpos := double_round_pos p hp
    rw [double_round_of_ne p (ne_of_gt hp)] at hb hpos ⊢
    have hE : (0 : ℚ) < 2 ^ (Int.log 2 |p| - 52) := by positivity
    have h0 : 0 < round_half_even (p / 2 ^ (Int.log 2 |p| - 52)) := by
      have := pos_of_mul_pos_left hpos (le_of_lt hE)
      exact_mod_cast this
    have h1 : round_half_even (p / 2 ^ (Int.log 2 |p| - 52)) ≤ 2 ^ 53 := by
      have e2 : (2 : ℚ) ^ (Int.log 2 |p| + 1)
          = ((2 ^ 53 : ℤ) : ℚ) * 2 ^ (Int.log 2 |p| - 52) := by
        have : (2 : ℚ) ^ (Int.log 2 |p| + 1) = 2 ^ ((53 : ℤ) + (Int.log 2 |p| - 52)) := by
          congr 1
          ring
        rw [this, zpow_add₀ (by norm_num)]
        norm_num
      have := hb.2
      rw [e2] at this
      have := le_of_mul_le_mul_right this hE
      exact_mod_cast this
    exact double_round_of_pos_representable _ _ h0 h1
  rcases lt_trichotomy q 0 with hq | hq | hq
  · have := key (-q) (by linarith)
    rw [double_round_neg, double_round_neg] at this
    linarith
  · rw [hq, double_round_zero, double_round_zero]
  · exact key q hq

/-- One is a binary64 number. -/
theorem double_round_one : double_round 1 = 1 := by
  have := double_round_of_pos_representable 1 0 (by norm_num) (by norm_num)
  simpa using this

/-- For `a` in `[0, 1]` the computed sum `a + (1 - a)` is 1: the error of the difference is
at most `2 ^ (-54)`, and every number within `2 ^ (-54)` of 1 rounds to 1. -/
theorem double_round_add_one_sub (a : ℚ) (h0 : 0 ≤ a) (h1 : a ≤ 1) :
    double_round (a + double_round (1 - a)) = 1 := by
  rcases eq_or_lt_of_le h0 with ha | ha
  · rw [← ha, sub_zero, double_round_one, zero_add, double_round_one]
  rcases eq_or_lt_of_le h1 with hb | hb
  · rw [hb, sub_self, double_round_zero, add_zero, double_round_one]
  have hx0 : 0 < 1 - a := by linarith
  have hx1 : 1 - a < 1 := by linarith
  have two : 1 < 2 := by norm_num
  have hlog : Int.log 2 |1 - a| < 0 := by
    rw [abs_of_pos hx0]
    exact (Int.lt_zpow_iff_log_lt two hx0).mp (by simpa using hx1)
  have herr := double_round_error (1 - a) (ne_of_gt hx0)
  have hsmall : (2 : ℚ) ^ (Int.log 2 |1 - a| - 52) ≤ 2 ^ (-53 : ℤ) :=
    zpow_le_zpow_right₀ (by norm_num) (by omega)
  have e53 : (2 : ℚ) ^ (-53 : ℤ) = 1 / 9007199254740992 := by norm_num
  rw [e53] at hsmall
  have hup : a + double_round (1 - a) ≤ 1 + 1 / 18014398509481984 := by
    have := (abs_le.mp herr).2
    linarith
  have hdn : 1 - 1 / 18014398509481984 ≤ a + double_round (1 - a) := by
    have := (abs_le.mp herr).1
    linarith
  apply le_antisymm
  · refine le_trans (double_round_monotone hup) ?_
    rw [double_round_of_pos (1 + 1 / 18014398509481984) (-52) 4503599627370496 (by norm_num)
      (by norm_num) (round_half_even_of_lt _ _ (by norm_num) (by norm_num))]
    norm_num
  · refine le_trans ?_ (double_round_monotone hdn)
    rw [double_round_of_pos (1 - 1 / 18014398509481984) (-53) 9007199254740992 (by norm_num)
      (by norm_num) (round_half_even_of_tie _ _ (by norm_num) (by norm_num))]
    norm_num


/-! ## Values of `double_round` used below -/

/-- The binary64 number nearest to `-1`. -/
theorem double_round_value_0 : double_round (-1) = -1 := by
  rw [double_round_of_neg (-1) (-52) (-4503599627370496) (by norm_num) (by norm_num)
    (round_half_even_of_lt _ _ (by norm_num) (by norm_num))]
  norm_num

/-- The binary64 number nearest to `1`. -/
theorem double_round_value_1 : double_round (1) = 1 := by
  rw [double_round_of_pos (1) (-52) (4503599627370496) (by norm_num) (by norm_num)
    (round_half_even_of_lt _ _ (by norm_num) (by norm_num))]
  norm_num

/-- The binary64 number nearest to `2`. -/
theorem double_round_value_2 : double_round (2) = 2 := by
  rw [double_round_of_pos (2) (-51) (4503599627370496) (by norm_num) (by norm_num)
    (round_half_even_of_lt _ _ (by norm_num) (by norm_num))]
  norm_num

/-- The binary64 number nearest to `3`. -/
theorem double_round_value_3 : double_round (3) = 3 := by
  rw [double_round_of_pos (3) (-51) (6755399441055744) (by norm_num) (by norm_num)
    (round_half_even_of_lt _ _ (by norm_num) (by norm_num))]
  norm_num

/-- The binary64 number nearest to `-2`. -/
theorem double_round_value_4 : double_round (-2) = -2 := by
  rw [double_round_of_neg (-2) (-51) (-4503599627370496) (by norm_num) (by norm_num)
    (round_half_even_of_lt _ _ (by norm_num) (by norm_num))]
  norm_num

/-- The binary64 number nearest to `4`. -/
theorem double_round_value_5 : double_round (4) = 4 := by
  rw [double_round_of_pos (4) (-50) (4503599627370496) (by norm_num) (by norm_num)
    (round_half_even_of_lt _ _ (by norm_num) (by norm_num))]
  norm_num

/-- The binary64 number nearest to `1 / 3`. -/
theorem double_round_value_6 : double_round (1 / 3) = 6004799503160661 / 18014398509481984 := by
  rw [double_round_of_pos (1 / 3) (-54) (6004799503160661) (by norm_num) (by norm_num)
    (round_half_even_of_lt _ _ (by norm_num) (by norm_num))]
  norm_num

/-- The binary64 number nearest to `48038396025285291 / 18014398509481984`. -/
theorem double_round_value_7 : double_round (48038396025285291 / 18014398509481984) = 6004799503160661 / 2251799813685248 := by
  rw [double_round_of_pos (48038396025285291 / 18014398509481984) (-51) (6004799503160661) (by norm_num) (by norm_num)
    (round_half_even_of_lt _ _ (by norm_num) (by norm_num))]
  norm_num

/-- The binary64 number nearest to `-(6004799503160661 / 2251799813685248)`. -/
theorem double_round_value_8 : double_round (-(6004799503160661 / 2251799813685248)) = -(6004799503160661 / 2251799813685248) := by
  rw [double_round_of_neg (-(6004799503160661 / 2251799813685248)) (-51) (-6004799503160661) (by norm_num) (by norm_num)
    (round_half_even_of_lt _ _ (by norm_num) (by norm_num))]
  norm_num

/-- The binary64 number nearest to `36057617073158521194928777956921 / 5070602400912917605986812821504`. -/
theorem double_round_value_9 : double_round (36057617073158521194928777956921 / 5070602400912917605986812821504) = 2001599834386887 / 281474976710656 := by
  rw [double_round_of_pos (36057617073158521194928777956921 / 5070602400912917605986812821504) (-50) (8006399337547548) (by norm_num) (by norm_num)
    (round_half_even_of_lt _ _ (by norm_num) (by norm_num))]
  norm_num

/-- The binary64 number nearest to `2001599834386887 / 281474976710656`. -/
theorem double_round_value_10 : double_round (2001599834386887 / 281474976710656) = 2001599834386887 / 281474976710656 := by
  rw [double_round_of_pos (2001599834386887 / 281474976710656) (-50) (8006399337547548) (by norm_num) (by norm_num)
    (round_half_even_of_lt _ _ (by norm_num) (by norm_num))]
  norm_num

/-- The binary64 number nearest to `1720124857676231 / 281474976710656`. -/
theorem double_round_value_11 : double_round (1720124857676231 / 281474976710656) = 1720124857676231 / 281474976710656 := by
  rw [double_round_of_pos (1720124857676231 / 281474976710656) (-50) (6880499430704924) (by norm_num) (by norm_num)
    (round_half_even_of_lt _ _ (by norm_num) (by norm_num))]
  norm_num

/-- The binary64 number nearest to `3752999689475413 / 2251799813685248`. -/
theorem double_round_value_12 : double_round (3752999689475413 / 2251799813685248) = 3752999689475413 / 2251799813685248 := by
  rw [double_round_of_pos (3752999689475413 / 2251799813685248) (-52) (7505999378950826) (by norm_num) (by norm_num)
    (round_half_even_of_lt _ _ (by norm_num) (by norm_num))]
  norm_num

/-- The binary64 number nearest to `-(3752999689475413 / 2251799813685248)`. -/
theorem double_round_value_13 : double_round (-(3752999689475413 / 2251799813685248)) = -(3752999689475413 / 2251799813685248) := by
  rw [double_round_of_neg (-(3752999689475413 / 2251799813685248)) (-52) (-7505999378950826) (by norm_num) (by norm_num)
    (round_half_even_of_lt _ _ (by norm_num) (by norm_num))]
  norm_num

/-- The binary64 number nearest to `3002399751580331 / 2251799813685248`. -/
theorem double_round_value_14 : double_round (3002399751580331 / 2251799813685248) = 3002399751580331 / 2251799813685248 := by
  rw [double_round_of_pos (3002399751580331 / 2251799813685248) (-52) (6004799503160662) (by norm_num) (by norm_num)
    (round_half_even_of_lt _ _ (by norm_num) (by norm_num))]
  norm_num

/-- The binary64 number nearest to `-(12009599006321323 / 18014398509481984)`. -/
theorem double_round_value_15 : double_round (-(12009599006321323 / 18014398509481984)) = -(3002399751580331 / 4503599627370496) := by
  rw [double_round_of_neg (-(12009599006321323 / 18014398509481984)) (-53) (-6004799503160662) (by norm_num) (by norm_num)
    (round_half_even_of_tie _ _ (Or.inl (by norm_num)) (by norm_num))]
  norm_num

/-- The binary64 number nearest to `24019198012642645 / 18014398509481984`. -/
theorem double_round_value_16 : double_round (24019198012642645 / 18014398509481984) = 6004799503160661 / 4503599627370496 := by
  rw [double_round_of_pos (24019198012642645 / 18014398509481984) (-52) (6004799503160661) (by norm_num) (by norm_num)
    (round_half_even_of_lt _ _ (by norm_num) (by norm_num))]
  norm_num

/-- The binary64 number nearest to `1 / 2`. -/
theorem double_round_value_17 : double_round (1 / 2) = 1 / 2 := by
  rw [double_round_of_pos (1 / 2) (-53) (4503599627370496) (by norm_num) (by norm_num)
    (round_half_even_of_lt _ _ (by norm_num) (by norm_num))]
  norm_num

/-- The binary64 number nearest to `6004799503160661 / 18014398509481984`. -/
theorem double_round_value_18 : double_round (6004799503160661 / 18014398509481984) = 6004799503160661 / 18014398509481984 := by
  rw [double_round_of_pos (6004799503160661 / 18014398509481984) (-54) (6004799503160661) (by norm_num) (by norm_num)
    (round_half_even_of_lt _ _ (by norm_num) (by norm_num))]
  norm_num

/-- The binary64 number nearest to `-(3002399751580331 / 4503599627370496)`. -/
theorem double_round_value_19 : double_round (-(3002399751580331 / 4503599627370496)) = -(3002399751580331 / 4503599627370496) := by
  rw [double_round_of_neg (-(3002399751580331 / 4503599627370496)) (-53) (-6004799503160662) (by norm_num) (by norm_num)
    (round_half_even_of_lt _ _ (by norm_num) (by norm_num))]
  norm_num

/-- The binary64 number nearest to `3002399751580331 / 4503599627370496`. -/
theorem double_round_value_20 : double_round (3002399751580331 / 4503599627370496) = 3002399751580331 / 4503599627370496 := by
  rw [double_round_of_pos (3002399751580331 / 4503599627370496) (-53) (6004799503160662) (by norm_num) (by norm_num)
    (round_half_even_of_lt _ _ (by norm_num) (by norm_num))]
  norm_num

/-- The binary64 number nearest to `9014404268289633301131946069561 / 20282409603651670423947251286016`. -/
theorem double_round_value_21 : double_round (9014404268289633301131946069561 / 20282409603651670423947251286016) = 4003199668773775 / 9007199254740992 := by
  rw [double_round_of_pos (9014404268289633301131946069561 / 20282409603651670423947251286016) (-54) (8006399337547550) (by norm_num) (by norm_num)
    (round_half_even_of_lt _ _ (by norm_num) (by norm_num))]
  norm_num

/-- The binary64 number nearest to `4003199668773775 / 9007199254740992`. -/
theorem double_round_value_22 : double_round (4003199668773775 / 9007199254740992) = 4003199668773775 / 9007199254740992 := by
  rw [double_round_of_pos (4003199668773775 / 9007199254740992) (-54) (8006399337547550) (by norm_num) (by norm_num)
    (round_half_even_of_lt _ _ (by norm_num) (by norm_num))]
  norm_num

/-- The binary64 number nearest to `-(5003999585967217 / 9007199254740992)`. -/
theorem double_round_value_23 : double_round (-(5003999585967217 / 9007199254740992)) = -(5003999585967217 / 9007199254740992) := by
  rw [double_round_of_neg (-(5003999585967217 / 9007199254740992)) (-53) (-5003999585967217) (by norm_num) (by norm_num)
    (round_half_even_of_lt _ _ (by norm_num) (by norm_num))]
  norm_num

/-- The binary64 number nearest to `-(7505999378950827 / 4503599627370496)`. -/
theorem double_round_value_24 : double_round (-(7505999378950827 / 4503599627370496)) = -(7505999378950827 / 4503599627370496) := by
  rw [double_round_of_neg (-(7505999378950827 / 4503599627370496)) (-52) (-7505999378950827) (by norm_num) (by norm_num)
    (round_half_even_of_lt _ _ (by norm_num) (by norm_num))]
  norm_num

/-- The binary64 number nearest to `1501199875790165 / 4503599627370496`. -/
theorem double_round_value_25 : double_round (1501199875790165 / 4503599627370496) = 1501199875790165 / 4503599627370496 := by
  rw [double_round_of_pos (1501199875790165 / 4503599627370496) (-54) (6004799503160660) (by norm_num) (by norm_num)
    (round_half_even_of_lt _ _ (by norm_num) (by norm_num))]
  norm_num

/-- The binary64 number nearest to `-(1501199875790165 / 4503599627370496)`. -/
theorem double_round_value_26 : double_round (-(1501199875790165 / 4503599627370496)) = -(1501199875790165 / 4503599627370496) := by
  rw [double_round_of_neg (-(1501199875790165 / 4503599627370496)) (-54) (-6004799503160660) (by norm_num) (by norm_num)
    (round_half_even_of_lt _ _ (by norm_num) (by norm_num))]
  norm_num

/-- The binary64 number nearest to `1 / 18014398509481984`. -/
theorem double_round_value_27 : double_round (1 / 18014398509481984) = 1 / 18014398509481984 := by
  rw [double_round_of_pos (1 / 18014398509481984) (-106) (4503599627370496) (by norm_num) (by norm_num)
    (round_half_even_of_lt _ _ (by norm_num) (by norm_num))]
  norm_num

/-- The binary64 number nearest to `-5`. -/
theorem double_round_value_45 : double_round (-5) = -5 := by
  rw [double_round_of_neg (-5) (-50) (-5629499534213120) (by norm_num) (by norm_num)
    (round_half_even_of_lt _ _ (by norm_num) (by norm_num))]
  norm_num

/-- The binary64 number nearest to `-(30023997515803305 / 18014398509481984)`. -/
theorem double_round_value_46 : double_round (-(30023997515803305 / 18014398509481984)) = -(3752999689475413 / 2251799813685248) := by
  rw [double_round_of_neg (-(30023997515803305 / 18014398509481984)) (-52) (-7505999378950826) (by norm_num) (by norm_num)
    (round_half_even_of_lt _ _ (by norm_num) (by norm_num))]
  norm_num

/-- The binary64 number nearest to `5`. -/
theorem double_round_value_47 : double_round (5) = 5 := by
  rw [double_round_of_pos (5) (-50) (5629499534213120) (by norm_num) (by norm_num)
    (round_half_even_of_lt _ _ (by norm_num) (by norm_num))]
  norm_num

/-- The binary64 number nearest to `30023997515803305 / 18014398509481984`. -/
theorem double_round_value_48 : double_round (30023997515803305 / 18014398509481984) = 3752999689475413 / 2251799813685248 := by
  rw [double_round_of_pos (30023997515803305 / 18014398509481984) (-52) (7505999378950826) (by norm_num) (by norm_num)
    (round_half_even_of_lt _ _ (by norm_num) (by norm_num))]
  norm_num

/-- The binary64 number nearest to `10`. -/
theorem double_round_value_49 : double_round (10) = 10 := by
  rw [double_round_of_pos (10) (-49) (5629499534213120) (by norm_num) (by norm_num)
    (round_half_even_of_lt _ _ (by norm_num) (by norm_num))]
  norm_num

/-- The binary64 number nearest to `-(5 / 3)`. -/
theorem double_round_value_50 : double_round (-(5 / 3)) = -(7505999378950827 / 4503599627370496) := by
  rw [double_round_of_neg (-(5 / 3)) (-52) (-7505999378950827) (by norm_num) (by norm_num)
    (round_half_even_of_lt _ _ (by norm_num) (by norm_num))]
  norm_num

/-- The binary64 number nearest to `5 / 3`. -/
theorem double_round_value_51 : double_round (5 / 3) = 7505999378950827 / 4503599627370496 := by
  rw [double_round_of_pos (5 / 3) (-52) (7505999378950827) (by norm_num) (by norm_num)
    (round_half_even_of_lt _ _ (by norm_num) (by norm_num))]
  norm_num

/-- The binary64 number nearest to `-10`. -/
theorem double_round_value_52 : double_round (-10) = -10 := by
  rw [double_round_of_neg (-10) (-49) (-5629499534213120) (by norm_num) (by norm_num)
    (round_half_even_of_lt _ _ (by norm_num) (by norm_num))]
  norm_num

/-- The binary64 number nearest to `9007199254740993 / 9007199254740992`. -/
theorem double_round_value_55 : double_round (9007199254740993 / 9007199254740992) = 1 := by
  rw [double_round_of_pos (9007199254740993 / 9007199254740992) (-52) (4503599627370496) (by norm_num) (by norm_num)
    (round_half_even_of_tie _ _ (Or.inl (by norm_num)) (by norm_num))]
  norm_num

/-- The binary64 number nearest to `1 / 10000`. -/
theorem double_round_value_67 : double_round (1 / 10000) = 7378697629483821 / 73786976294838206464 := by
  rw [double_round_of_pos (1 / 10000) (-66) (7378697629483821) (by norm_num) (by norm_num)
    (round_half_even_of_lt _ _ (by norm_num) (by norm_num))]
  norm_num

/-- The binary64 number nearest to `-(147566573892046929107 / 73786976294838206464)`. -/
theorem double_round_value_68 : double_round (-(147566573892046929107 / 73786976294838206464)) = -(9006748894778255 / 4503599627370496) := by
  rw [double_round_of_neg (-(147566573892046929107 / 73786976294838206464)) (-52) (-9006748894778255) (by norm_num) (by norm_num)
    (round_half_even_of_lt _ _ (by norm_num) (by norm_num))]
  norm_num

/-- The binary64 number nearest to `73794354992467690285 / 73786976294838206464`. -/
theorem double_round_value_73 : double_round (73794354992467690285 / 73786976294838206464) = 4504049987333233 / 4503599627370496 := by
  rw [double_round_of_pos (73794354992467690285 / 73786976294838206464) (-52) (4504049987333233) (by norm_num) (by norm_num)
    (round_half_even_of_lt _ _ (by norm_num) (by norm_num))]
  norm_num

/-- The binary64 number nearest to `1 / 9007199254740992`. -/
theorem double_round_value_74 : double_round (1 / 9007199254740992) = 1 / 9007199254740992 := by
  rw [double_round_of_pos (1 / 9007199254740992) (-105) (4503599627370496) (by norm_num) (by norm_num)
    (round_half_even_of_lt _ _ (by norm_num) (by norm_num))]
  norm_num

/-- The binary64 number nearest to `9`. -/
theorem double_round_value_75 : double_round (9) = 9 := by
  rw [double_round_of_pos (9) (-49) (5066549580791808) (by norm_num) (by norm_num)
    (round_half_even_of_lt _ _ (by norm_num) (by norm_num))]
  norm_num

/-- The binary64 number nearest to `36`. -/
theorem double_round_value_76 : double_round (36) = 36 := by
  rw [double_round_of_pos (36) (-47) (5066549580791808) (by norm_num) (by norm_num)
    (round_half_even_of_lt _ _ (by norm_num) (by norm_num))]
  norm_num

/-- The binary64 number nearest to `-36`. -/
theorem double_round_value_77 : double_round (-36) = -36 := by
  rw [double_round_of_neg (-36) (-47) (-5066549580791808) (by norm_num) (by norm_num)
    (round_half_even_of_lt _ _ (by norm_num) (by norm_num))]
  norm_num

/-- The binary64 number nearest to `-324`. -/
theorem double_round_value_78 : double_round (-324) = -324 := by
  rw [double_round_of_neg (-324) (-44) (-5699868278390784) (by norm_num) (by norm_num)
    (round_half_even_of_lt _ _ (by norm_num) (by norm_num))]
  norm_num

/-- The binary64 number nearest to `324`. -/
theorem double_round_value_79 : double_round (324) = 324 := by
  rw [double_round_of_pos (324) (-44) (5699868278390784) (by norm_num) (by norm_num)
    (round_half_even_of_lt _ _ (by norm_num) (by norm_num))]
  norm_num

/-- The binary64 number nearest to `-18`. -/
theorem double_round_value_80 : double_round (-18) = -18 := by
  rw [double_round_of_neg (-18) (-48) (-5066549580791808) (by norm_num) (by norm_num)
    (round_half_even_of_lt _ _ (by norm_num) (by norm_num))]
  norm_num

/-- The binary64 number nearest to `-6`. -/
theorem double_round_value_81 : double_round (-6) = -6 := by
  rw [double_round_of_neg (-6) (-50) (-6755399441055744) (by norm_num) (by norm_num)
    (round_half_even_of_lt _ _ (by norm_num) (by norm_num))]
  norm_num

/-- The binary64 number nearest to `-3`. -/
theorem double_round_value_82 : double_round (-3) = -3 := by
  rw [double_round_of_neg (-3) (-51) (-6755399441055744) (by norm_num) (by norm_num)
    (round_half_even_of_lt _ _ (by norm_num) (by norm_num))]
  norm_num

/-- The binary64 number nearest to `18`. -/
theorem double_round_value_83 : double_round (18) = 18 := by
  rw [double_round_of_pos (18) (-48) (5066549580791808) (by norm_num) (by norm_num)
    (round_half_even_of_lt _ _ (by norm_num) (by norm_num))]
  norm_num

/-- The binary64 number nearest to `6`. -/
theorem double_round_value_84 : double_round (6) = 6 := by
  rw [double_round_of_pos (6) (-50) (6755399441055744) (by norm_num) (by norm_num)
    (round_half_even_of_lt _ _ (by norm_num) (by norm_num))]
  norm_num

/-- The binary64 number nearest to `3637522775953093 / 2251799813685248`. -/
theorem double_round_value_85 : double_round (3637522775953093 / 2251799813685248) = 3637522775953093 / 2251799813685248 := by
  rw [double_round_of_pos (3637522775953093 / 2251799813685248) (-52) (7275045551906186) (by norm_num) (by norm_num)
    (round_half_even_of_lt _ _ (by norm_num) (by norm_num))]
  norm_num

/-- The binary64 number nearest to `10912568327859279 / 2251799813685248`. -/
theorem double_round_value_86 : double_round (10912568327859279 / 2251799813685248) = 682035520491205 / 140737488355328 := by
  rw [double_round_of_pos (10912568327859279 / 2251799813685248) (-50) (5456284163929640) (by norm_num) (by norm_num)
    (round_half_even_of_tie _ _ (Or.inr (by norm_num)) (by norm_num))]
  norm_num

/-- The binary64 number nearest to `682035520491205 / 140737488355328`. -/
theorem double_round_value_87 : double_round (682035520491205 / 140737488355328) = 682035520491205 / 140737488355328 := by
  rw [double_round_of_pos (682035520491205 / 140737488355328) (-50) (5456284163929640) (by norm_num) (by norm_num)
    (round_half_even_of_lt _ _ (by norm_num) (by norm_num))]
  norm_num

/-- The binary64 number nearest to `682035520491205 / 422212465065984`. -/
theorem double_round_value_88 : double_round (682035520491205 / 422212465065984) = 7275045551906187 / 4503599627370496 := by
  rw [double_round_of_pos (682035520491205 / 422212465065984) (-52) (7275045551906187) (by norm_num) (by norm_num)
    (round_half_even_of_lt _ _ (by norm_num) (by norm_num))]
  norm_num

/-- The binary64 number nearest to `7275045551906187 / 4503599627370496`. -/
theorem double_round_value_89 : double_round (7275045551906187 / 4503599627370496) = 7275045551906187 / 4503599627370496 := by
  rw [double_round_of_pos (7275045551906187 / 4503599627370496) (-52) (7275045551906187) (by norm_num) (by norm_num)
    (round_half_even_of_lt _ _ (by norm_num) (by norm_num))]
  norm_num

/-- The binary64 number nearest to `21825136655718561 / 4503599627370496`. -/
theorem double_round_value_90 : double_round (21825136655718561 / 4503599627370496) = 682035520491205 / 140737488355328 := by
  rw [double_round_of_pos (21825136655718561 / 4503599627370496) (-50) (5456284163929640) (by norm_num) (by norm_num)
    (round_half_even_of_lt _ _ (by norm_num) (by norm_num))]
  norm_num

/-- The binary64 number nearest to `-8`. -/
theorem double_round_value_91 : double_round (-8) = -8 := by
  rw [double_round_of_neg (-8) (-49) (-4503599627370496) (by norm_num) (by norm_num)
    (round_half_even_of_lt _ _ (by norm_num) (by norm_num))]
  norm_num

/-- The binary64 number nearest to `1 / 32`. -/
theorem double_round_value_92 : double_round (1 / 32) = 1 / 32 := by
  rw [double_round_of_pos (1 / 32) (-57) (4503599627370496) (by norm_num) (by norm_num)
    (round_half_even_of_lt _ _ (by norm_num) (by norm_num))]
  norm_num

/-- The binary64 number nearest to `-(1 / 4)`. -/
theorem double_round_value_93 : double_round (-(1 / 4)) = -(1 / 4) := by
  rw [double_round_of_neg (-(1 / 4)) (-54) (-4503599627370496) (by norm_num) (by norm_num)
    (round_half_even_of_lt _ _ (by norm_num) (by norm_num))]
  norm_num

/-- The binary64 number nearest to `35 / 4`. -/
theorem double_round_value_94 : double_round (35 / 4) = 35 / 4 := by
  rw [double_round_of_pos (35 / 4) (-49) (4925812092436480) (by norm_num) (by norm_num)
    (round_half_even_of_lt _ _ (by norm_num) (by norm_num))]
  norm_num

/-- The binary64 number nearest to `2147483647 / 1073741824`. -/
theorem double_round_value_95 : double_round (2147483647 / 1073741824) = 2147483647 / 1073741824 := by
  rw [double_round_of_pos (2147483647 / 1073741824) (-52) (9007199250546688) (by norm_num) (by norm_num)
    (round_half_even_of_lt _ _ (by norm_num) (by norm_num))]
  norm_num

/-- The binary64 number nearest to `1 / 1073741824`. -/
theorem double_round_value_96 : double_round (1 / 1073741824) = 1 / 1073741824 := by
  rw [double_round_of_pos (1 / 1073741824) (-82) (4503599627370496) (by norm_num) (by norm_num)
    (round_half_even_of_lt _ _ (by norm_num) (by norm_num))]
  norm_num

/-- The binary64 number nearest to `2147483647`. -/
theorem double_round_value_97 : double_round (2147483647) = 2147483647 := by
  rw [double_round_of_pos (2147483647) (-22) (9007199250546688) (by norm_num) (by norm_num)
    (round_half_even_of_lt _ _ (by norm_num) (by norm_num))]
  norm_num

/-- The binary64 number nearest to `4611686014132420609`. -/
theorem double_round_value_98 : double_round (4611686014132420609) = 4611686014132420608 := by
  rw [double_round_of_pos (4611686014132420609) (9) (9007199246352384) (by norm_num) (by norm_num)
    (round_half_even_of_lt _ _ (by norm_num) (by norm_num))]
  norm_num

/-- The binary64 number nearest to `-4611686014132420607`. -/
theorem double_round_value_99 : double_round (-4611686014132420607) = -4611686014132420608 := by
  rw [double_round_of_neg (-4611686014132420607) (9) (-9007199246352384) (by norm_num) (by norm_num)
    (round_half_even_of_lt _ _ (by norm_num) (by norm_num))]
  norm_num

/-- The binary64 number nearest to `-4611686014132420608`. -/
theorem double_round_value_100 : double_round (-4611686014132420608) = -4611686014132420608 := by
  rw [double_round_of_neg (-4611686014132420608) (9) (-9007199246352384) (by norm_num) (by norm_num)
    (round_half_even_of_lt _ _ (by norm_num) (by norm_num))]
  norm_num

/-- The binary64 number nearest to `1152921504606846975 / 1152921504606846976`. -/
theorem double_round_value_101 : double_round (1152921504606846975 / 1152921504606846976) = 1 := by
  rw [double_round_of_pos (1152921504606846975 / 1152921504606846976) (-53) (9007199254740992) (by norm_num) (by norm_num)
    (round_half_even_of_lt _ _ (by norm_num) (by norm_num))]
  norm_num

/-- The binary64 number nearest to `1152921504606846977 / 1152921504606846976`. -/
theorem double_round_value_102 : double_round (1152921504606846977 / 1152921504606846976) = 1 := by
  rw [double_round_of_pos (1152921504606846977 / 1152921504606846976) (-52) (4503599627370496) (by norm_num) (by norm_num)
    (round_half_even_of_lt _ _ (by norm_num) (by norm_num))]
  norm_num

/-- The binary64 number nearest to `-(1 / 2)`. -/
theorem double_round_value_103 : double_round (-(1 / 2)) = -(1 / 2) := by
  rw [double_round_of_neg (-(1 / 2)) (-53) (-4503599627370496) (by norm_num) (by norm_num)
    (round_half_even_of_lt _ _ (by norm_num) (by norm_num))]
  norm_num

/-- The binary64 number nearest to `1 / 4`. -/
theorem double_round_value_104 : double_round (1 / 4) = 1 / 4 := by
  rw [double_round_of_pos (1 / 4) (-54) (4503599627370496) (by norm_num) (by norm_num)
    (round_half_even_of_lt _ _ (by norm_num) (by norm_num))]
  norm_num

/-- The binary64 number nearest to `3 / 4`. -/
theorem double_round_value_105 : double_round (3 / 4) = 3 / 4 := by
  rw [double_round_of_pos (3 / 4) (-53) (6755399441055744) (by norm_num) (by norm_num)
    (round_half_even_of_lt _ _ (by norm_num) (by norm_num))]
  norm_num

/-- The binary64 number nearest to `12009599006321323 / 18014398509481984`. -/
theorem double_round_value_106 : double_round (12009599006321323 / 18014398509481984) = 3002399751580331 / 4503599627370496 := by
  rw [double_round_of_pos (12009599006321323 / 18014398509481984) (-53) (6004799503160662) (by norm_num) (by norm_num)
    (round_half_even_of_tie _ _ (Or.inr (by norm_num)) (by norm_num))]
  norm_num

/-- The binary64 number nearest to `3002399751580331 / 6004799503160661`. -/
theorem double_round_value_107 : double_round (3002399751580331 / 6004799503160661) = 4503599627370497 / 9007199254740992 := by
  rw [double_round_of_pos (3002399751580331 / 6004799503160661) (-53) (4503599627370497) (by norm_num) (by norm_num)
    (round_half_even_of_lt _ _ (by norm_num) (by norm_num))]
  norm_num

/-- The binary64 number nearest to `20282409603651679431146506027009 / 81129638414606681695789005144064`. -/
theorem double_round_value_108 : double_round (20282409603651679431146506027009 / 81129638414606681695789005144064) = 2251799813685249 / 9007199254740992 := by
  rw [double_round_of_pos (20282409603651679431146506027009 / 81129638414606681695789005144064) (-54) (4503599627370498) (by norm_num) (by norm_num)
    (round_half_even_of_lt _ _ (by norm_num) (by norm_num))]
  norm_num

/-- The binary64 number nearest to `6755399441055743 / 9007199254740992`. -/
theorem double_round_value_109 : double_round (6755399441055743 / 9007199254740992) = 6755399441055743 / 9007199254740992 := by
  rw [double_round_of_pos (6755399441055743 / 9007199254740992) (-53) (6755399441055743) (by norm_num) (by norm_num)
    (round_half_even_of_lt _ _ (by norm_num) (by norm_num))]
  norm_num

/-- The binary64 number nearest to `2251799813685249 / 9007199254740992`. -/
theorem double_round_value_110 : double_round (2251799813685249 / 9007199254740992) = 2251799813685249 / 9007199254740992 := by
  rw [double_round_of_pos (2251799813685249 / 9007199254740992) (-54) (4503599627370498) (by norm_num) (by norm_num)
    (round_half_even_of_lt _ _ (by norm_num) (by norm_num))]
  norm_num

section rounded_sphere_theorems

variable {K σ : Type} [LinearOrderedField K]

/-- The record filled for an accepted candidate carries that candidate as `t` and the
computed `r.at(t)` as `p`. -/
theorem sphere.fill_rounded_t_p (fl : K → K) (E : Env K σ) (s : sphere K) (r : ray K)
    (temp : K) (rec : hit_record K) :
    (s.fill_rounded fl E r temp rec).t = temp ∧
    (s.fill_rounded fl E r temp rec).p = ray.at_rounded fl r temp := ⟨rfl, rfl⟩

/-- With the identity as rounding, `sphere::hit` in rounded arithmetic is the exact
`sphere.hit`. -/
theorem sphere.hit_rounded_id (E : Env K σ) (s : sphere K) (r : ray K) (t_min t_max : K)
    (rec : hit_record K) :
    s.hit_rounded (fun x => x) E r t_min t_max rec = s.hit E r t_min t_max rec := rfl

/-- On a hit, the reported point is the computed `r.at(t)` for the reported `t`. -/
theorem sphere.hit_rounded_point (fl : K → K) (E : Env K σ) (s : sphere K) (r : ray K)
    (t_min t_max : K) (rec : hit_record K)
    (h : (s.hit_rounded fl E r t_min t_max rec).1 = true) :
    (s.hit_rounded fl E r t_min t_max rec).2.p
      = ray.at_rounded fl r (s.hit_rounded fl E r t_min t_max rec).2.t := by
  simp only [sphere.hit_rounded] at h ⊢
  split_ifs at h ⊢ <;> rfl

end rounded_sphere_theorems

section rounded_translate_theorems

variable {K σ : Type} [LinearOrderedField K]

/-- When the child hits the moved ray, `translate::hit` returns true with the child's `t`
and the child's point plus the offset. -/
theorem translate.hit_rounded_of_hit (fl : K → K) (ptr : hittable K σ) (offset : vec3 K)
    (r : ray K) (t_min t_max : K) (rec : hit_record K) (st : σ)
    (h : (ptr.hit (translate.moved_r_rounded fl offset r) t_min t_max rec st).1 = true) :
    (translate.hit_rounded fl ptr offset r t_min t_max rec st).1 = true ∧
    (translate.hit_rounded fl ptr offset r t_min t_max rec st).2.1.t
      = (ptr.hit (translate.moved_r_rounded fl offset r) t_min t_max rec st).2.1.t ∧
    (translate.hit_rounded fl ptr offset r t_min t_max rec st).2.1.p
      = vec3.add_rounded fl
          (ptr.hit (translate.moved_r_rounded fl offset r) t_min t_max rec st).2.1.p offset ∧
    (translate.hit_rounded fl ptr offset r t_min t_max rec st).2.1.normal
      = (if vec3.dot_rounded fl r.direction
            (ptr.hit (translate.moved_r_rounded fl offset r) t_min t_max rec st).2.1.normal < 0
          then (ptr.hit (translate.moved_r_rounded fl offset r) t_min t_max rec st).2.1.normal
          else
            (ptr.hit (translate.moved_r_rounded fl offset r) t_min t_max rec
              st).2.1.normal.neg) := by
  simp only [translate.hit_rounded, h, Bool.not_true, Bool.false_eq_true, if_false]
  refine ⟨trivial, rfl, rfl, ?_⟩
  simp only [hit_record.set_face_normal_rounded, decide_eq_true_eq]
  rfl

/-- C13 (amended): whatever the rounding of the arithmetic operations,
`translate(child, offset).hit(r, t_min, t_max)` returns true iff
`child.hit(r', t_min, t_max)` does for `r' = ray(r.origin - offset, r.direction, r.time)`,
the difference as computed, and it then reports the child's `t` and the child's hit point
plus the offset, the sum as computed. -/
theorem translate_hit_iff_child_hit_and_point_shifted (fl : K → K) (ptr : hittable K σ)
    (offset : vec3 K) (r : ray K) (t_min t_max : K) (rec : hit_record K) (st : σ) :
    let moved_r : ray K :=
      ⟨⟨fl (r.origin.x - offset.x), fl (r.origin.y - offset.y), fl (r.origin.z - offset.z)⟩,
        r.direction, r.time⟩
    ((translate.hit_rounded fl ptr offset r t_min t_max rec st).1 = true ↔
      (ptr.hit moved_r t_min t_max rec st).1 = true) ∧
    ((ptr.hit moved_r t_min t_max rec st).1 = true →
      (translate.hit_rounded fl ptr offset r t_min t_max rec st).2.1.t
        = (ptr.hit moved_r t_min t_max rec st).2.1.t ∧
      (translate.hit_rounded fl ptr offset r t_min t_max rec st).2.1.p
        = ⟨fl ((ptr.hit moved_r t_min t_max rec st).2.1.p.x + offset.x),
           fl ((ptr.hit moved_r t_min t_max rec st).2.1.p.y + offset.y),
           fl ((ptr.hit moved_r t_min t_max rec st).2.1.p.z + offset.z)⟩) := by
  intro moved_r
  have hdef : translate.hit_rounded fl ptr offset r t_min t_max rec st =
      if !(ptr.hit moved_r t_min t_max rec st).1 then
        (false, (ptr.hit moved_r t_min t_max rec st).2.1,
          (ptr.hit moved_r t_min t_max rec st).2.2)
      else
        (true,
          ({ (ptr.hit moved_r t_min t_max rec st).2.1 with
              p := vec3.add_rounded fl (ptr.hit moved_r t_min t_max rec st).2.1.p offset
            }).set_face_normal_rounded fl moved_r (ptr.hit moved_r t_min t_max rec st).2.1.normal,
          (ptr.hit moved_r t_min t_max rec st).2.2) := rfl
  rw [hdef]
  cases hc : (ptr.hit moved_r t_min t_max rec st).1
  · simp
  · exact ⟨⟨fun _ => rfl, fun _ => rfl⟩, fun _ => ⟨rfl, rfl⟩⟩

end rounded_translate_theorems

/-- Counterexample to C13: the unit sphere at the origin translated by `(1, 0, 0)` and the
ray from `(x, 0, 0)` along the negative x axis, `x` the binary64 number nearest to `1/3`,
window `(0, 10)`.  In binary64 arithmetic the child reports its point `r'.at(t)` on the moved
ray, and `translate::hit` reports the point `(0, 0, 0)`, while `r.at(t)` for the reported
`t` is `(2 ^ (-54), 0, 0)`. -/
theorem translate_hit_point_off_the_ray_in_double_arithmetic :
    (translate.hit_rounded double_round
      (sphere.toHittable_rounded double_round Env.sample sample_sphere) ⟨1, 0, 0⟩
      sample_ray_from_third 0 10 Env.sample.uninit_rec 0).1 = true ∧
    ((sphere.toHittable_rounded double_round Env.sample sample_sphere).hit
        (translate.moved_r_rounded double_round ⟨1, 0, 0⟩ sample_ray_from_third) 0 10
        Env.sample.uninit_rec 0).2.1.p
      = ray.at_rounded double_round
          (translate.moved_r_rounded double_round ⟨1, 0, 0⟩ sample_ray_from_third)
          ((sphere.toHittable_rounded double_round Env.sample sample_sphere).hit
            (translate.moved_r_rounded double_round ⟨1, 0, 0⟩ sample_ray_from_third) 0 10
            Env.sample.uninit_rec 0).2.1.t ∧
    (translate.hit_rounded double_round
      (sphere.toHittable_rounded double_round Env.sample sample_sphere) ⟨1, 0, 0⟩
      sample_ray_from_third 0 10 Env.sample.uninit_rec 0).2.1.p = ⟨0, 0, 0⟩ ∧
    ray.at_rounded double_round sample_ray_from_third
      (translate.hit_rounded double_round
        (sphere.toHittable_rounded double_round Env.sample sample_sphere) ⟨1, 0, 0⟩
        sample_ray_from_third 0 10 Env.sample.uninit_rec 0).2.1.t
      = ⟨1 / 18014398509481984, 0, 0⟩ := by
  have hc : (sphere.hit_rounded double_round Env.sample sample_sphere
      (translate.moved_r_rounded double_round ⟨1, 0, 0⟩ sample_ray_from_third) 0 10
      Env.sample.uninit_rec).1 = true := by
    norm_num [sphere.hit_rounded, translate.moved_r_rounded, sample_sphere,
      sample_ray_from_third, vec3.sub_rounded, vec3.dot_rounded, vec3.length_squared_rounded,
      Env.sample, Rat.sqrt, double_round_zero,
      double_round_value_15, double_round_value_19, double_round_value_1, double_round_value_20,
      double_round_value_21, double_round_value_22, double_round_value_23, double_round_value_24,
      double_round_value_25, double_round_value_26, double_round_value_0, double_round_value_27]
  have ht : (sphere.hit_rounded double_round Env.sample sample_sphere
      (translate.moved_r_rounded double_round ⟨1, 0, 0⟩ sample_ray_from_third) 0 10
      Env.sample.uninit_rec).2.t = 1501199875790165 / 4503599627370496 := by
    norm_num [sphere.hit_rounded, translate.moved_r_rounded, sample_sphere,
      sample_ray_from_third, vec3.sub_rounded, vec3.dot_rounded, vec3.length_squared_rounded,
      Env.sample, Rat.sqrt, double_round_zero, sphere.fill_rounded_t_p,
      double_round_value_15, double_round_value_19, double_round_value_1, double_round_value_20,
      double_round_value_21, double_round_value_22, double_round_value_23, double_round_value_24,
      double_round_value_25, double_round_value_26, double_round_value_0, double_round_value_27]
  have hp : (sphere.hit_rounded double_round Env.sample sample_sphere
      (translate.moved_r_rounded double_round ⟨1, 0, 0⟩ sample_ray_from_third) 0 10
      Env.sample.uninit_rec).2.p
        = ray.at_rounded double_round
          (translate.moved_r_rounded double_round ⟨1, 0, 0⟩ sample_ray_from_third)
          (sphere.hit_rounded double_round Env.sample sample_sphere
            (translate.moved_r_rounded double_round ⟨1, 0, 0⟩ sample_ray_from_third) 0 10
            Env.sample.uninit_rec).2.t :=
    sphere.hit_rounded_point double_round Env.sample sample_sphere _ 0 10
      Env.sample.uninit_rec hc
  have hres := translate.hit_rounded_of_hit double_round
    (sphere.toHittable_rounded double_round Env.sample sample_sphere) ⟨1, 0, 0⟩
    sample_ray_from_third 0 10 Env.sample.uninit_rec 0 hc
  refine ⟨hres.1, hp, ?_, ?_⟩
  · rw [hres.2.2.1]
    show vec3.add_rounded double_round (sphere.hit_rounded double_round Env.sample
      sample_sphere (translate.moved_r_rounded double_round ⟨1, 0, 0⟩ sample_ray_from_third)
      0 10 Env.sample.uninit_rec).2.p ⟨1, 0, 0⟩ = ⟨0, 0, 0⟩
    rw [hp, ht]
    norm_num [ray.at_rounded, translate.moved_r_rounded, sample_ray_from_third,
      vec3.add_rounded, vec3.smul_rounded, vec3.sub_rounded, double_round_zero,
      double_round_value_15, double_round_value_19, double_round_value_1, double_round_value_20,
      double_round_value_21, double_round_value_22, double_round_value_23, double_round_value_24,
      double_round_value_25, double_round_value_26, double_round_value_0, double_round_value_27]
  · rw [hres.2.1]
    show ray.at_rounded double_round sample_ray_from_third (sphere.hit_rounded double_round
      Env.sample sample_sphere
      (translate.moved_r_rounded double_round ⟨1, 0, 0⟩ sample_ray_from_third)
      0 10 Env.sample.uninit_rec).2.t = _
    rw [ht]
    norm_num [ray.at_rounded, sample_ray_from_third, vec3.add_rounded, vec3.smul_rounded,
      double_round_zero,
      double_round_value_15, double_round_value_19, double_round_value_1, double_round_value_20,
      double_round_value_21, double_round_value_22, double_round_value_23, double_round_value_24,
      double_round_value_25, double_round_value_26, double_round_value_0, double_round_value_27]

section rounded_aabb_theorems

variable {K : Type} [LinearOrderedField K]

/-- The pair `(t0, t1)` of `aabb::hit` in rounded arithmetic, on an axis where the box has
`min <= max`, is the minimum and the maximum of the two computed products. -/
theorem aabb_t0_t1_rounded_eq_minmax_products (fl : K → K) (hfl : Monotone fl) (b : aabb K)
    (r : ray K) (a : Nat) (hbox : b._min.e a ≤ b._max.e a) :
    b.t0_rounded fl r a = aabb_t0_minmax_products fl b r a ∧
    b.t1_rounded fl r a = aabb_t1_minmax_products fl b r a := by
  simp only [aabb.t0_rounded, aabb.t1_rounded, aabb_t0_minmax_products,
    aabb_t1_minmax_products, aabb.invD_rounded]
  have hsub : fl (b._min.e a - r.origin.e a) ≤ fl (b._max.e a - r.origin.e a) :=
    hfl (by linarith)
  by_cases hinv : fl (1 / r.direction.e a) < 0
  · have hle : fl (fl (b._max.e a - r.origin.e a) * fl (1 / r.direction.e a))
        ≤ fl (fl (b._min.e a - r.origin.e a) * fl (1 / r.direction.e a)) :=
      hfl (mul_le_mul_of_nonpos_right hsub (le_of_lt hinv))
    simp only [hinv, if_true]
    exact ⟨(min_eq_right hle).symm, (max_eq_left hle).symm⟩
  · have hle : fl (fl (b._min.e a - r.origin.e a) * fl (1 / r.direction.e a))
        ≤ fl (fl (b._max.e a - r.origin.e a) * fl (1 / r.direction.e a)) :=
      hfl (mul_le_mul_of_nonneg_right hsub (not_lt.mp hinv))
    simp only [hinv, if_false]
    exact ⟨(min_eq_left hle).symm, (max_eq_right hle).symm⟩

/-- C23 (amended): for a box with `min <= max` on every axis and a monotone rounding of the
arithmetic operations, the per-axis pair `(t0, t1)` that `aabb::hit` obtains by multiplying
with the inverse direction and swapping when the inverse is negative equals
`(min(a, b), max(a, b))` for the products `a = (min - origin) * (1 / direction)` and
`b = (max - origin) * (1 / direction)` as computed, and `aabb::hit` returns the same result
as the min/max formulation of its comment with these products in place of the quotients,
whatever the sign of each direction component. -/
theorem aabb_hit_agrees_with_minmax_of_computed_products (fl : K → K) (hfl : Monotone fl)
    (b : aabb K) (r : ray K) (hbox : ∀ a, a < 3 → b._min.e a ≤ b._max.e a) :
    (∀ a, a < 3 →
      b.t0_rounded fl r a
        = min (fl (fl (b._min.e a - r.origin.e a) * fl (1 / r.direction.e a)))
            (fl (fl (b._max.e a - r.origin.e a) * fl (1 / r.direction.e a))) ∧
      b.t1_rounded fl r a
        = max (fl (fl (b._min.e a - r.origin.e a) * fl (1 / r.direction.e a)))
            (fl (fl (b._max.e a - r.origin.e a) * fl (1 / r.direction.e a)))) ∧
    ∀ tmin tmax, b.hit_rounded fl r tmin tmax = aabb_hit_minmax_products fl b r tmin tmax := by
  have hax : ∀ a, a < 3 →
      b.t0_rounded fl r a = aabb_t0_minmax_products fl b r a ∧
      b.t1_rounded fl r a = aabb_t1_minmax_products fl b r a :=
    fun a ha => aabb_t0_t1_rounded_eq_minmax_products fl hfl b r a (hbox a ha)
  refine ⟨hax, fun tmin tmax => ?_⟩
  have h0 := hax 0 (by decide)
  have h1 := hax 1 (by decide)
  have h2 := hax 2 (by decide)
  simp only [aabb.hit_rounded, aabb.hit_loop_rounded, aabb_hit_minmax_products,
    aabb_hit_minmax_products_loop, h0.1, h0.2, h1.1, h1.2, h2.1, h2.2, ite_gt_eq_max,
    ite_lt_eq_min, max_comm, min_comm]

end rounded_aabb_theorems

/-- Witness of C23 (amended): in binary64 arithmetic, the box with corners `(-1, -1, -1)` and
`(1, 1, 1)` and a ray with direction `(1, -1, 2)`. -/
theorem aabb_hit_agrees_with_minmax_of_computed_products_witness :
    (∀ a, a < 3 → sample_box._min.e a ≤ sample_box._max.e a) ∧
    aabb.hit_rounded double_round sample_box sample_slab_ray 0 10
      = aabb_hit_minmax_products double_round sample_box sample_slab_ray 0 10 := by
  have hbox : ∀ a, a < 3 → sample_box._min.e a ≤ sample_box._max.e a := by
    intro a _
    simp only [sample_box, vec3.e]
    split_ifs <;> norm_num
  exact ⟨hbox, (aabb_hit_agrees_with_minmax_of_computed_products double_round
    double_round_monotone sample_box sample_slab_ray hbox).2 0 10⟩

/-- Counterexample to C23: the box with corners `(-5, y, -10)` and `(5, 10, 10)`, `y` the
binary64 product `5 * (1/3)`, and the ray from the origin with direction `(3, 1, 1)`, window
`(0, 100)`.  On the x axis `aabb::hit` computes `t1 = 5 * (1/3) = y`, one unit in the last
place below the quotient `5 / 3` of the min/max formulation; on the y axis both enter at
`t0 = y`, so in binary64 arithmetic `aabb::hit` returns false and the formulation of its
comment returns true. -/
theorem aabb_hit_differs_from_minmax_in_double_arithmetic :
    (∀ a, a < 3 → sample_slab_box._min.e a ≤ sample_slab_box._max.e a) ∧
    (∀ a, a < 3 → sample_ray_three_one_one.direction.e a ≠ 0) ∧
    sample_slab_box.t1_rounded double_round sample_ray_three_one_one 0
      = 3752999689475413 / 2251799813685248 ∧
    aabb_t1_minmax_rounded double_round sample_slab_box sample_ray_three_one_one 0
      = 7505999378950827 / 4503599627370496 ∧
    sample_slab_box.hit_rounded double_round sample_ray_three_one_one 0 100 = false ∧
    aabb_hit_minmax_rounded double_round sample_slab_box sample_ray_three_one_one 0 100
      = true := by
  refine ⟨?_, ?_, ?_, ?_, ?_, ?_⟩
  · intro a _
    simp only [sample_slab_box, vec3.e]
    split_ifs <;> norm_num
  · intro a _
    simp only [sample_ray_three_one_one, vec3.e]
    split_ifs <;> norm_num
  · norm_num [aabb.t1_rounded, aabb.invD_rounded, sample_slab_box, sample_ray_three_one_one,
      vec3.e, double_round_zero,
      double_round_value_6, double_round_value_45, double_round_value_46, double_round_value_47,
      double_round_value_48, double_round_value_1, double_round_value_12, double_round_value_49,
      double_round_value_50, double_round_value_51, double_round_value_52]
  · norm_num [aabb_t1_minmax_rounded, sample_slab_box, sample_ray_three_one_one,
      vec3.e, double_round_zero,
      double_round_value_6, double_round_value_45, double_round_value_46, double_round_value_47,
      double_round_value_48, double_round_value_1, double_round_value_12, double_round_value_49,
      double_round_value_50, double_round_value_51, double_round_value_52]
  · norm_num [aabb.hit_rounded, aabb.hit_loop_rounded, aabb.t0_rounded, aabb.t1_rounded,
      aabb.invD_rounded, sample_slab_box, sample_ray_three_one_one, vec3.e, double_round_zero,
      double_round_value_6, double_round_value_45, double_round_value_46, double_round_value_47,
      double_round_value_48, double_round_value_1, double_round_value_12, double_round_value_49,
      double_round_value_50, double_round_value_51, double_round_value_52]
  · norm_num [aabb_hit_minmax_rounded, aabb_hit_minmax_loop_rounded, aabb_t0_minmax_rounded,
      aabb_t1_minmax_rounded, sample_slab_box, sample_ray_three_one_one, vec3.e,
      double_round_zero,
      double_round_value_6, double_round_value_45, double_round_value_46, double_round_value_47,
      double_round_value_48, double_round_value_1, double_round_value_12, double_round_value_49,
      double_round_value_50, double_round_value_51, double_round_value_52]

section rounded_rotate_y_theorems

variable {K σ : Type} [LinearOrderedField K]

end rounded_rotate_y_theorems

section rounded_moving_sphere_theorems

variable {K σ : Type} [LinearOrderedField K]

/-- The record filled for an accepted candidate carries that candidate as `t` and the
computed `r.at(t)` as `p`. -/
theorem moving_sphere.fill_rounded_time_point (fl : K → K) (E : Env K σ) (m : moving_sphere K)
    (r : ray K) (temp : K) (rec : hit_record K) :
    (m.fill_rounded fl E r temp rec).t = temp ∧
    (m.fill_rounded fl E r temp rec).p = ray.at_rounded fl r temp := ⟨rfl, rfl⟩

/-- A function that is monotone or antitone takes, between two arguments, a value between
its values at them. -/
theorem between_of_monotone_or_antitone (f : K → K) (hf : Monotone f ∨ Antitone f)
    (t0 t1 t : K) (h0 : min t0 t1 ≤ t) (h1 : t ≤ max t0 t1) :
    min (f t0) (f t1) ≤ f t ∧ f t ≤ max (f t0) (f t1) := by
  rcases le_total t0 t1 with h | h
  · rw [min_eq_left h] at h0
    rw [max_eq_right h] at h1
    rcases hf with hf | hf
    · exact ⟨min_le_iff.mpr (Or.inl (hf h0)), le_max_iff.mpr (Or.inr (hf h1))⟩
    · exact ⟨min_le_iff.mpr (Or.inr (hf h1)), le_max_iff.mpr (Or.inl (hf h0))⟩
  · rw [min_eq_right h] at h0
    rw [max_eq_left h] at h1
    rcases hf with hf | hf
    · exact ⟨min_le_iff.mpr (Or.inr (hf h0)), le_max_iff.mpr (Or.inl (hf h1))⟩
    · exact ⟨min_le_iff.mpr (Or.inl (hf h1)), le_max_iff.mpr (Or.inr (hf h0))⟩

/-- Rounding with a monotone `fl` keeps a function monotone or antitone. -/
theorem monotone_or_antitone_rounded (fl : K → K) (hfl : Monotone fl) (f : K → K)
    (hf : Monotone f ∨ Antitone f) :
    Monotone (fun s => fl (f s)) ∨ Antitone (fun s => fl (f s)) := by
  rcases hf with hf | hf
  · exact Or.inl (fun a b hab => hfl (hf hab))
  · exact Or.inr (fun a b hab => hfl (hf hab))

/-- Division by a constant keeps a function monotone or antitone. -/
theorem monotone_or_antitone_div (f : K → K) (c : K) (hf : Monotone f ∨ Antitone f) :
    Monotone (fun s => f s / c) ∨ Antitone (fun s => f s / c) := by
  rcases le_total 0 c with hc | hc
  · rcases hf with hf | hf
    · exact Or.inl (fun a b hab => div_le_div_of_nonneg_right (hf hab) hc)
    · exact Or.inr (fun a b hab => div_le_div_of_nonneg_right (hf hab) hc)
  · rcases hf with hf | hf
    · exact Or.inr (fun a b hab => div_le_div_of_nonpos_of_le hc (hf hab))
    · exact Or.inl (fun a b hab => div_le_div_of_nonpos_of_le hc (hf hab))

/-- Multiplication by a constant keeps a function monotone or antitone. -/
theorem monotone_or_antitone_mul (f : K → K) (c : K) (hf : Monotone f ∨ Antitone f) :
    Monotone (fun s => f s * c) ∨ Antitone (fun s => f s * c) := by
  rcases le_total 0 c with hc | hc
  · rcases hf with hf | hf
    · exact Or.inl (fun a b hab => mul_le_mul_of_nonneg_right (hf hab) hc)
    · exact Or.inr (fun a b hab => mul_le_mul_of_nonneg_right (hf hab) hc)
  · rcases hf with hf | hf
    · exact Or.inr (fun a b hab => mul_le_mul_of_nonpos_right (hf hab) hc)
    · exact Or.inl (fun a b hab => mul_le_mul_of_nonpos_right (hf hab) hc)

/-- Adding a constant on the left keeps a function monotone or antitone. -/
theorem monotone_or_antitone_const_add (f : K → K) (c : K) (hf : Monotone f ∨ Antitone f) :
    Monotone (fun s => c + f s) ∨ Antitone (fun s => c + f s) := by
  rcases hf with hf | hf
  · exact Or.inl (fun a b hab => add_le_add_left (hf hab) c)
  · exact Or.inr (fun a b hab => add_le_add_left (hf hab) c)

/-- Adding a constant on the right keeps a function monotone or antitone. -/
theorem monotone_or_antitone_add_const (f : K → K) (c : K) (hf : Monotone f ∨ Antitone f) :
    Monotone (fun s => f s + c) ∨ Antitone (fun s => f s + c) := by
  rcases hf with hf | hf
  · exact Or.inl (fun a b hab => add_le_add_right (hf hab) c)
  · exact Or.inr (fun a b hab => add_le_add_right (hf hab) c)

/-- Subtracting a constant keeps a function monotone or antitone. -/
theorem monotone_or_antitone_sub_const (f : K → K) (c : K) (hf : Monotone f ∨ Antitone f) :
    Monotone (fun s => f s - c) ∨ Antitone (fun s => f s - c) := by
  rcases hf with hf | hf
  · exact Or.inl (fun a b hab => sub_le_sub_right (hf hab) c)
  · exact Or.inr (fun a b hab => sub_le_sub_right (hf hab) c)

/-- A coordinate of the computed centre, `c0 + ((time - time0) / (time1 - time0)) * w` with
every operation rounded, is monotone or antitone in the time. -/
theorem moving_sphere.center_coordinate_monotone_or_antitone (fl : K → K) (hfl : Monotone fl)
    (c0 w T0 D : K) :
    Monotone (fun s => fl (c0 + fl (fl (fl (s - T0) / D) * w))) ∨
    Antitone (fun s => fl (c0 + fl (fl (fl (s - T0) / D) * w))) := by
  have h1 : Monotone (fun s : K => fl (s - T0)) ∨ Antitone (fun s : K => fl (s - T0)) :=
    Or.inl (fun a b hab => hfl (sub_le_sub_right hab T0))
  have h2 := monotone_or_antitone_rounded fl hfl _ (monotone_or_antitone_div _ D h1)
  have h3 := monotone_or_antitone_rounded fl hfl _ (monotone_or_antitone_mul _ w h2)
  exact monotone_or_antitone_rounded fl hfl _ (monotone_or_antitone_const_add _ c0 h3)

/-- C18 (amended): for a monotone rounding of the arithmetic operations,
`moving_sphere::bounding_box(t0, t1)` returns true with `surrounding_box` of the radius box
around `center(t0)` and the radius box around `center(t1)`, the centres and the corners
`center ∓ radius` as computed; and for every time `t` between `t0` and `t1` the radius box
around the computed `center(t)` lies inside the returned box. -/
theorem moving_sphere_bounding_box_covers_radius_boxes (fl : K → K) (hfl : Monotone fl)
    (m : moving_sphere K) (t0 t1 t : K) (ob : aabb K) (h0 : min t0 t1 ≤ t)
    (h1 : t ≤ max t0 t1) :
    let center : K → vec3 K := fun s =>
      ⟨fl (m.center0.x
          + fl (fl (fl (s - m.time0) / fl (m.time1 - m.time0)) * fl (m.center1.x - m.center0.x))),
       fl (m.center0.y
          + fl (fl (fl (s - m.time0) / fl (m.time1 - m.time0)) * fl (m.center1.y - m.center0.y))),
       fl (m.center0.z
          + fl (fl (fl (s - m.time0) / fl (m.time1 - m.time0))
            * fl (m.center1.z - m.center0.z)))⟩
    let box : K → aabb K := fun s =>
      ⟨⟨fl ((center s).x - m.radius), fl ((center s).y - m.radius),
          fl ((center s).z - m.radius)⟩,
        ⟨fl ((center s).x + m.radius), fl ((center s).y + m.radius),
          fl ((center s).z + m.radius)⟩⟩
    m.bounding_box_rounded fl t0 t1 ob = (true, surrounding_box (box t0) (box t1)) ∧
    m.center_rounded fl t = center t ∧
    (m.bounding_box_rounded fl t0 t1 ob).2.contains (box t) := by
  intro center box
  refine ⟨rfl, rfl, ?_⟩
  have hc : ∀ c0 w : K,
      Monotone (fun s => fl (c0 + fl (fl (fl (s - m.time0) / fl (m.time1 - m.time0)) * w))) ∨
      Antitone (fun s => fl (c0 + fl (fl (fl (s - m.time0) / fl (m.time1 - m.time0)) * w))) :=
    fun c0 w => moving_sphere.center_coordinate_monotone_or_antitone fl hfl c0 w m.time0 _
  have hlo : ∀ c0 w : K, _ := fun c0 w =>
    between_of_monotone_or_antitone _
      (monotone_or_antitone_rounded fl hfl _
        (monotone_or_antitone_sub_const _ m.radius (hc c0 w))) t0 t1 t h0 h1
  have hhi : ∀ c0 w : K, _ := fun c0 w =>
    between_of_monotone_or_antitone _
      (monotone_or_antitone_rounded fl hfl _
        (monotone_or_antitone_add_const _ m.radius (hc c0 w))) t0 t1 t h0 h1
  exact ⟨⟨(hlo _ _).1, (hlo _ _).1, (hlo _ _).1⟩, ⟨(hhi _ _).2, (hhi _ _).2, (hhi _ _).2⟩⟩

end rounded_moving_sphere_theorems

/-- Witness of C18 (amended): in binary64 arithmetic the box of the sample moving sphere for
`(0, 1)` contains the radius box around its centre at time `1/2`. -/
theorem moving_sphere_bounding_box_covers_radius_boxes_witness :
    min (0 : ℚ) 1 ≤ 1 / 2 ∧ (1 / 2 : ℚ) ≤ max 0 1 ∧
    (sample_moving_sphere_at_third.bounding_box_rounded double_round 0 1 sample_box).2.contains
      (radius_box_rounded double_round
        (sample_moving_sphere_at_third.center_rounded double_round (1 / 2)) 1) := by
  have h0 : min (0 : ℚ) 1 ≤ 1 / 2 := by norm_num
  have h1 : (1 / 2 : ℚ) ≤ max 0 1 := by norm_num
  exact ⟨h0, h1, (moving_sphere_bounding_box_covers_radius_boxes double_round
    double_round_monotone sample_moving_sphere_at_third 0 1 (1 / 2) sample_box h0 h1).2.2⟩

/-- Counterexample to C18: the unit sphere that moves from `(x, -1, 0)` at time 0 to
`(x, 1, 0)` at time 1, `x` the binary64 number nearest to `1/3`, with the box of
`bounding_box(0, 1)`, whose upper bound on the x axis is the binary64 sum
`6004799503160661 / 2 ^ 52` of `x` and 1, below `x + 1`.  At time `1/2` the centre is
`(x, 0, 0)`: the point `(x + 1, 0, 0)` of the sphere at that time is outside the box, and so
is the point `6004799503160662 / 2 ^ 52` on the x axis that `moving_sphere::hit` reports in
binary64 arithmetic for the ray from `(3, 0, 0)` along the negative x axis at that time. -/
theorem moving_sphere_point_outside_box_in_double_arithmetic :
    (0 : ℚ) ≤ sample_moving_sphere_at_third.radius ∧
    sample_moving_sphere_at_third.time0 ≠ sample_moving_sphere_at_third.time1 ∧
    (0 : ℚ) ≤ sample_head_on_ray.time ∧ sample_head_on_ray.time ≤ 1 ∧
    (sample_moving_sphere_at_third.bounding_box_rounded double_round 0 1 sample_box).2
      = ⟨⟨-(3002399751580331 / 4503599627370496), -2, -1⟩,
         ⟨6004799503160661 / 4503599627370496, 2, 1⟩⟩ ∧
    sample_moving_sphere_at_third.center_rounded double_round sample_head_on_ray.time
      = ⟨6004799503160661 / 18014398509481984, 0, 0⟩ ∧
    (((⟨6004799503160661 / 18014398509481984 + 1, 0, 0⟩ : vec3 ℚ).sub
        (sample_moving_sphere_at_third.center_rounded double_round
          sample_head_on_ray.time)).length_squared
      ≤ sample_moving_sphere_at_third.radius * sample_moving_sphere_at_third.radius ∧
     ¬ (sample_moving_sphere_at_third.bounding_box_rounded double_round 0 1
          sample_box).2.contains_point ⟨6004799503160661 / 18014398509481984 + 1, 0, 0⟩) ∧
    (moving_sphere.hit_rounded double_round Env.sample sample_moving_sphere_at_third
      sample_head_on_ray 0 10 Env.sample.uninit_rec).1 = true ∧
    (moving_sphere.hit_rounded double_round Env.sample sample_moving_sphere_at_third
      sample_head_on_ray 0 10 Env.sample.uninit_rec).2.p
        = ⟨6004799503160662 / 4503599627370496, 0, 0⟩ ∧
    ¬ (sample_moving_sphere_at_third.bounding_box_rounded double_round 0 1
        sample_box).2.contains_point
      (moving_sphere.hit_rounded double_round Env.sample sample_moving_sphere_at_third
        sample_head_on_ray 0 10 Env.sample.uninit_rec).2.p := by
  have hb : (sample_moving_sphere_at_third.bounding_box_rounded double_round 0 1 sample_box).2
      = ⟨⟨-(3002399751580331 / 4503599627370496), -2, -1⟩,
         ⟨6004799503160661 / 4503599627370496, 2, 1⟩⟩ := by
    norm_num [moving_sphere.bounding_box_rounded, moving_sphere.center_rounded,
      radius_box_rounded, surrounding_box, aabb.min, aabb.max, sample_moving_sphere_at_third,
      vec3.add_rounded, vec3.sub_rounded, vec3.smul_rounded, double_round_zero,
      double_round_value_17, double_round_value_1, double_round_value_2, double_round_value_18,
      double_round_value_7, double_round_value_8, double_round_value_9, double_round_value_10,
      double_round_value_11, double_round_value_12, double_round_value_13, double_round_value_14,
      double_round_value_0, double_round_value_15, double_round_value_4, double_round_value_16]
  have hc : sample_moving_sphere_at_third.center_rounded double_round sample_head_on_ray.time
      = ⟨6004799503160661 / 18014398509481984, 0, 0⟩ := by
    norm_num [moving_sphere.center_rounded, sample_moving_sphere_at_third, sample_head_on_ray,
      vec3.add_rounded, vec3.sub_rounded, vec3.smul_rounded, double_round_zero,
      double_round_value_17, double_round_value_1, double_round_value_2, double_round_value_18,
      double_round_value_7, double_round_value_8, double_round_value_9, double_round_value_10,
      double_round_value_11, double_round_value_12, double_round_value_13, double_round_value_14,
      double_round_value_0, double_round_value_15, double_round_value_4, double_round_value_16]
  have hh : (moving_sphere.hit_rounded double_round Env.sample sample_moving_sphere_at_third
      sample_head_on_ray 0 10 Env.sample.uninit_rec).1 = true := by
    simp only [moving_sphere.hit_rounded, hc]
    norm_num [sample_moving_sphere_at_third, sample_head_on_ray,
      vec3.sub_rounded, vec3.dot_rounded, vec3.length_squared_rounded, Env.sample, Rat.sqrt,
      double_round_zero,
      double_round_value_17, double_round_value_1, double_round_value_2, double_round_value_18,
      double_round_value_7, double_round_value_8, double_round_value_9, double_round_value_10,
      double_round_value_11, double_round_value_12, double_round_value_13, double_round_value_14,
      double_round_value_0, double_round_value_15, double_round_value_4, double_round_value_16]
  have hp : (moving_sphere.hit_rounded double_round Env.sample sample_moving_sphere_at_third
      sample_head_on_ray 0 10 Env.sample.uninit_rec).2.p
        = ⟨6004799503160662 / 4503599627370496, 0, 0⟩ := by
    simp only [moving_sphere.hit_rounded, hc]
    norm_num [sample_moving_sphere_at_third, sample_head_on_ray,
      vec3.sub_rounded, vec3.dot_rounded, vec3.length_squared_rounded, Env.sample, Rat.sqrt,
      double_round_zero, moving_sphere.fill_rounded_time_point, ray.at_rounded, vec3.add_rounded,
      vec3.smul_rounded,
      double_round_value_17, double_round_value_1, double_round_value_2, double_round_value_18,
      double_round_value_7, double_round_value_8, double_round_value_9, double_round_value_10,
      double_round_value_11, double_round_value_12, double_round_value_13, double_round_value_14,
      double_round_value_0, double_round_value_15, double_round_value_4, double_round_value_16]
  refine ⟨by norm_num [sample_moving_sphere_at_third],
    by norm_num [sample_moving_sphere_at_third], by norm_num [sample_head_on_ray],
    by norm_num [sample_head_on_ray], hb, hc, ⟨?_, ?_⟩, hh, hp, ?_⟩
  · rw [hc]
    norm_num [sample_moving_sphere_at_third, vec3.sub, vec3.length_squared]
  · rw [hb]
    intro h
    have := h.1.2
    norm_num at this
  · rw [hp, hb]
    intro h
    have := h.1.2
    norm_num at this

section rounded_medium_theorems

variable {K σ : Type} [LinearOrderedField K]

/-- The method `constant_medium::hit` in rounded arithmetic, written with the clipped and
clamped parameters as minimum and maximum. -/
theorem constant_medium.hit_rounded_eq (fl : K → K) (E : Env K σ) (m : constant_medium K σ)
    (r : ray K) (t_min t_max : K) (rec : hit_record K) (st : σ) :
    let h1 := m.boundary.hit r (-E.infinity) E.infinity E.uninit_rec st
    let h2 := m.boundary.hit r (fl (h1.2.1.t + fl (1 / 10000))) E.infinity E.uninit_rec h1.2.2
    let t1 := max t_min (max 0 h1.2.1.t)
    let t2 := min t_max h2.2.1.t
    let len := E.sqrt (vec3.length_squared_rounded fl r.direction)
    let D := fl (fl (t2 - t1) * len)
    let u := E.random_double h2.2.2
    let s := fl (m.neg_inv_density * E.log u.1)
    m.hit_rounded fl E r t_min t_max rec st =
      if h1.1 = false then (false, rec, h1.2.2)
      else if h2.1 = false then (false, rec, h2.2.2)
      else if t2 ≤ max t_min h1.2.1.t then (false, rec, h2.2.2)
      else if D < s then (false, rec, u.2)
      else
        (true,
          ⟨ray.at_rounded fl r (fl (t1 + fl (s / len))), ⟨1, 0, 0⟩, m.phase_function,
            fl (t1 + fl (s / len)), rec.u, rec.v, true⟩,
          u.2) := by
  intro h1 h2 t1 t2 len D u s
  have e1 : (if h1.2.1.t < t_min then t_min else h1.2.1.t) = max t_min h1.2.1.t := by
    split_ifs with h
    · exact (max_eq_left (le_of_lt h)).symm
    · exact (max_eq_right (not_lt.mp h)).symm
  have e2 : (if h2.2.1.t > t_max then t_max else h2.2.1.t) = t2 := by
    show _ = min t_max h2.2.1.t
    split_ifs with h
    · exact (min_eq_left (le_of_lt h)).symm
    · exact (min_eq_right (not_lt.mp h)).symm
  have e3 : (if max t_min h1.2.1.t < 0 then 0 else max t_min h1.2.1.t) = t1 := by
    show _ = max t_min (max 0 h1.2.1.t)
    split_ifs with h
    · have ha := lt_of_le_of_lt (le_max_left _ _) h
      have hb := lt_of_le_of_lt (le_max_right _ _) h
      rw [max_eq_left (le_of_lt hb), max_eq_right (le_of_lt ha)]
    · have h0 := not_lt.mp h
      apply le_antisymm
      · exact max_le (le_max_left _ _) (le_trans (le_max_right _ _) (le_max_right _ _))
      · exact max_le (le_max_left _ _) (max_le h0 (le_max_right _ _))
  simp only [constant_medium.hit_rounded, vec3.length_rounded, e1, e2, e3, Bool.not_eq_true',
    ge_iff_le, gt_iff_lt]

/-- C21 (amended): whatever the rounding of the arithmetic operations, when
`constant_medium::hit` returns true the boundary has reported an entry and an exit, the
clipped interval is not empty, the computed `hit_distance = neg_inv_density * log(U)` is at
most the computed `distance_inside_boundary`, the reported `t` is the computed
`t1 + hit_distance / |direction|` with `t1 = max(t_min, 0, t_entry)`, the reported point is the
computed `r.at(t)`, the normal is `(1, 0, 0)`, `front_face` is true and the material is the
medium's phase function; `t1 <= t` when the rounding is monotone and exact at 0 and at `t1`,
`neg_inv_density <= 0`, `log(U) <= 0` and `|direction| >= 0`.  When the clipped interval is
empty or inverted the result is false. -/
theorem constant_medium_hit_reports_computed_point (fl : K → K) (E : Env K σ)
    (m : constant_medium K σ) (r : ray K) (t_min t_max : K) (rec : hit_record K) (st : σ) :
    let entry := m.boundary.hit r (-E.infinity) E.infinity E.uninit_rec st
    let exit := m.boundary.hit r (fl (entry.2.1.t + fl (1 / 10000))) E.infinity E.uninit_rec
      entry.2.2
    let t1 := max t_min (max 0 entry.2.1.t)
    let t2 := min t_max exit.2.1.t
    let len := E.sqrt (vec3.length_squared_rounded fl r.direction)
    let U := (E.random_double exit.2.2).1
    let hit_distance := fl (m.neg_inv_density * E.log U)
    let res := m.hit_rounded fl E r t_min t_max rec st
    (res.1 = true →
      entry.1 = true ∧ exit.1 = true ∧ max t_min entry.2.1.t < t2 ∧
      hit_distance ≤ fl (fl (t2 - t1) * len) ∧
      res.2.1.t = fl (t1 + fl (hit_distance / len)) ∧
      res.2.1.p = ray.at_rounded fl r res.2.1.t ∧
      res.2.1.normal = ⟨1, 0, 0⟩ ∧ res.2.1.front_face = true ∧
      res.2.1.mat_ptr = m.phase_function ∧
      (Monotone fl → fl 0 = 0 → fl t1 = t1 → m.neg_inv_density ≤ 0 → E.log U ≤ 0 → 0 ≤ len →
        t1 ≤ res.2.1.t)) ∧
    ((entry.1 = true → exit.1 = true → t2 ≤ max t_min entry.2.1.t) → res.1 = false) := by
  intro entry exit t1 t2 len U hit_distance res
  have hdef : res =
      if entry.1 = false then (false, rec, entry.2.2)
      else if exit.1 = false then (false, rec, exit.2.2)
      else if t2 ≤ max t_min entry.2.1.t then (false, rec, exit.2.2)
      else if fl (fl (t2 - t1) * len) < hit_distance then (false, rec, (E.random_double exit.2.2).2)
      else (true, ⟨ray.at_rounded fl r (fl (t1 + fl (hit_distance / len))), ⟨1, 0, 0⟩,
              m.phase_function, fl (t1 + fl (hit_distance / len)), rec.u, rec.v, true⟩,
            (E.random_double exit.2.2).2) :=
    constant_medium.hit_rounded_eq fl E m r t_min t_max rec st
  rw [hdef]
  by_cases h1 : entry.1 = false
  · rw [if_pos h1]
    exact ⟨fun h => absurd h (by simp), fun _ => rfl⟩
  rw [if_neg h1]
  by_cases h2 : exit.1 = false
  · rw [if_pos h2]
    exact ⟨fun h => absurd h (by simp), fun _ => rfl⟩
  rw [if_neg h2]
  have h1' : entry.1 = true := by simpa using h1
  have h2' : exit.1 = true := by simpa using h2
  by_cases h3 : t2 ≤ max t_min entry.2.1.t
  · rw [if_pos h3]
    exact ⟨fun h => absurd h (by simp), fun _ => rfl⟩
  rw [if_neg h3]
  by_cases h4 : fl (fl (t2 - t1) * len) < hit_distance
  · rw [if_pos h4]
    exact ⟨fun h => absurd h (by simp), fun h => absurd (h h1' h2') h3⟩
  rw [if_neg h4]
  refine ⟨fun _ => ⟨h1', h2', not_le.mp h3, not_lt.mp h4, rfl, rfl, rfl, rfl, rfl, ?_⟩,
    fun h => absurd (h h1' h2') h3⟩
  intro hfl hfl0 hrep hn hU hlen
  show t1 ≤ fl (t1 + fl (hit_distance / len))
  have hp : 0 ≤ m.neg_inv_density * E.log U := mul_nonneg_of_nonpos_of_nonpos hn hU
  have hd : 0 ≤ hit_distance := by
    have := hfl hp
    rw [hfl0] at this
    exact this
  have hq : 0 ≤ fl (hit_distance / len) := by
    have := hfl (div_nonneg hd hlen)
    rw [hfl0] at this
    exact this
  have := hfl (le_add_of_nonneg_right hq : t1 ≤ t1 + fl (hit_distance / len))
  rw [hrep] at this
  exact this

end rounded_medium_theorems

/-- Counterexample to C21, in binary64 arithmetic with density 1.  (a) The boundary sphere of
radius 1 at `(2, 0, 0)`, the ray from the origin along the x axis, window `(0, 10)` and the
draw `U = 1 - 2 ^ (-53)` with `ln(U) = -2 ^ (-53)`: the boundary is entered at `t = 1`, the
code returns true and reports `t = 1`, which is not greater than `max(t_min, 0, t_entry) = 1`.
(b) The boundary sphere of radius 6 at the origin, the ray from the origin with direction
`(3, 0, 0)`, window `(0, t_max)` with `t_max` the binary64 value of `21/13`, and a draw whose
`hit_distance` equals the inside distance: the boundary is left at `t = 2`, the code returns
true and reports a `t` above `min(t_max, t_exit) = t_max`. -/
theorem constant_medium_hit_t_outside_interval_in_double_arithmetic :
    (((sample_boundary 2 1).hit sample_ray_from_origin (-Env.sample_draws.infinity)
        Env.sample_draws.infinity Env.sample_draws.uninit_rec 1).2.1.t = 1 ∧
      ((sample_medium_rounded 2 1 1).hit_rounded double_round Env.sample_draws
        sample_ray_from_origin 0 10 Env.sample_draws.uninit_rec 1).1 = true ∧
      ((sample_medium_rounded 2 1 1).hit_rounded double_round Env.sample_draws
        sample_ray_from_origin 0 10 Env.sample_draws.uninit_rec 1).2.1.t = 1 ∧
      ¬ (max (0 : ℚ) (max 0 1) <
        ((sample_medium_rounded 2 1 1).hit_rounded double_round Env.sample_draws
          sample_ray_from_origin 0 10 Env.sample_draws.uninit_rec 1).2.1.t)) ∧
    (((sample_boundary 0 6).hit sample_ray_from_origin_3
        (double_round (-2 + double_round (1 / 10000))) Env.sample_draws.infinity
        Env.sample_draws.uninit_rec 2).2.1.t = 2 ∧
      ((sample_medium_rounded 0 6 1).hit_rounded double_round Env.sample_draws
        sample_ray_from_origin_3 0 (3637522775953093 / 2251799813685248)
        Env.sample_draws.uninit_rec 2).1 = true ∧
      ((sample_medium_rounded 0 6 1).hit_rounded double_round Env.sample_draws
        sample_ray_from_origin_3 0 (3637522775953093 / 2251799813685248)
        Env.sample_draws.uninit_rec 2).2.1.t = 7275045551906187 / 4503599627370496 ∧
      ¬ (((sample_medium_rounded 0 6 1).hit_rounded double_round Env.sample_draws
          sample_ray_from_origin_3 0 (3637522775953093 / 2251799813685248)
          Env.sample_draws.uninit_rec 2).2.1.t
        ≤ min (3637522775953093 / 2251799813685248 : ℚ) 2)) := by
  have ha : ((sample_medium_rounded 2 1 1).hit_rounded double_round Env.sample_draws
      sample_ray_from_origin 0 10 Env.sample_draws.uninit_rec 1).2.1.t = 1 := by
    norm_num [constant_medium.hit_rounded, sample_medium_rounded,
      constant_medium.construct_rounded, sample_boundary, sphere.toHittable_rounded,
      sphere.hit_rounded, sphere.fill_rounded_t_p, sample_ray_from_origin,
      vec3.sub_rounded, vec3.dot_rounded, vec3.length_squared_rounded, vec3.length_rounded,
      Env.sample_draws, Env.sample, Rat.sqrt, double_round_zero,
      double_round_value_4, double_round_value_1, double_round_value_5, double_round_value_3,
      double_round_value_0, double_round_value_67, double_round_value_73, double_round_value_2,
      double_round_value_74, double_round_value_55]
  have hb : ((sample_medium_rounded 0 6 1).hit_rounded double_round Env.sample_draws
      sample_ray_from_origin_3 0 (3637522775953093 / 2251799813685248)
      Env.sample_draws.uninit_rec 2).2.1.t = 7275045551906187 / 4503599627370496 := by
    norm_num [constant_medium.hit_rounded, sample_medium_rounded,
      constant_medium.construct_rounded, sample_boundary, sphere.toHittable_rounded,
      sphere.hit_rounded, sphere.fill_rounded_t_p, sample_ray_from_origin_3,
      vec3.sub_rounded, vec3.dot_rounded, vec3.length_squared_rounded, vec3.length_rounded,
      Env.sample_draws, Env.sample, Rat.sqrt, double_round_zero,
      double_round_value_75, double_round_value_76, double_round_value_77, double_round_value_78,
      double_round_value_79, double_round_value_80, double_round_value_4, double_round_value_81,
      double_round_value_0, double_round_value_82, double_round_value_67, double_round_value_68,
      double_round_value_83, double_round_value_2, double_round_value_84, double_round_value_1,
      double_round_value_3, double_round_value_85, double_round_value_86, double_round_value_87,
      double_round_value_88, double_round_value_89, double_round_value_90]
  refine ⟨⟨?_, ?_, ha, ?_⟩, ⟨?_, ?_, hb, ?_⟩⟩
  · norm_num [sample_boundary, sphere.toHittable_rounded,
      sphere.hit_rounded, sphere.fill_rounded_t_p, sample_ray_from_origin,
      vec3.sub_rounded, vec3.dot_rounded, vec3.length_squared_rounded, vec3.length_rounded,
      Env.sample_draws, Env.sample, Rat.sqrt, double_round_zero,
      double_round_value_4, double_round_value_1, double_round_value_5, double_round_value_3,
      double_round_value_0, double_round_value_67, double_round_value_73, double_round_value_2,
      double_round_value_74, double_round_value_55]
  · norm_num [constant_medium.hit_rounded, sample_medium_rounded,
      constant_medium.construct_rounded, sample_boundary, sphere.toHittable_rounded,
      sphere.hit_rounded, sphere.fill_rounded_t_p, sample_ray_from_origin,
      vec3.sub_rounded, vec3.dot_rounded, vec3.length_squared_rounded, vec3.length_rounded,
      Env.sample_draws, Env.sample, Rat.sqrt, double_round_zero,
      double_round_value_4, double_round_value_1, double_round_value_5, double_round_value_3,
      double_round_value_0, double_round_value_67, double_round_value_73, double_round_value_2,
      double_round_value_74, double_round_value_55]
  · rw [ha]
    norm_num
  · norm_num [sample_boundary, sphere.toHittable_rounded,
      sphere.hit_rounded, sphere.fill_rounded_t_p, sample_ray_from_origin_3,
      vec3.sub_rounded, vec3.dot_rounded, vec3.length_squared_rounded, vec3.length_rounded,
      Env.sample_draws, Env.sample, Rat.sqrt, double_round_zero,
      double_round_value_75, double_round_value_76, double_round_value_77, double_round_value_78,
      double_round_value_79, double_round_value_80, double_round_value_4, double_round_value_81,
      double_round_value_0, double_round_value_82, double_round_value_67, double_round_value_68,
      double_round_value_83, double_round_value_2, double_round_value_84, double_round_value_1,
      double_round_value_3, double_round_value_85, double_round_value_86, double_round_value_87,
      double_round_value_88, double_round_value_89, double_round_value_90]
  · norm_num [constant_medium.hit_rounded, sample_medium_rounded,
      constant_medium.construct_rounded, sample_boundary, sphere.toHittable_rounded,
      sphere.hit_rounded, sphere.fill_rounded_t_p, sample_ray_from_origin_3,
      vec3.sub_rounded, vec3.dot_rounded, vec3.length_squared_rounded, vec3.length_rounded,
      Env.sample_draws, Env.sample, Rat.sqrt, double_round_zero,
      double_round_value_75, double_round_value_76, double_round_value_77, double_round_value_78,
      double_round_value_79, double_round_value_80, double_round_value_4, double_round_value_81,
      double_round_value_0, double_round_value_82, double_round_value_67, double_round_value_68,
      double_round_value_83, double_round_value_2, double_round_value_84, double_round_value_1,
      double_round_value_3, double_round_value_85, double_round_value_86, double_round_value_87,
      double_round_value_88, double_round_value_89, double_round_value_90]
  · rw [hb]
    norm_num

section rounded_schlick_theorems

variable {K : Type} [LinearOrderedField K]

/-- C35 (amended): for a rounding `fl` of the arithmetic operations that is monotone, odd,
idempotent, exact at 0 and at 1 and computes `a + (1 - a)` as 1 for `a` in `[0, 1]` (binary64
rounding is one), every `cosine` in `[0, 1]` and every `ref_idx >= 0`: the computed
`r0 = ((1 - ref_idx) / (1 + ref_idx))^2` lies in `[0, 1]` and `schlick(cosine, ref_idx)` lies
in `[r0, 1]`, so it is a valid probability; it equals `r0` at `cosine = 1` and 1 at
`cosine = 0` (stated first). -/
theorem schlick_computed_is_probability_for_nonneg_ref_idx (fl : K → K) (hfl : Monotone fl)
    (hfl0 : fl 0 = 0) (hfl1 : fl 1 = 1) (hneg : ∀ x, fl (-x) = -fl x)
    (hid : ∀ x, fl (fl x) = fl x)
    (hsum : ∀ a, 0 ≤ a → a ≤ 1 → fl (a + fl (1 - a)) = 1)
    (cosine ref_idx : K) (hc0 : 0 ≤ cosine) (hc1 : cosine ≤ 1) (hr : 0 ≤ ref_idx) :
    schlick_rounded fl 0 ref_idx = 1 ∧
    (let q := fl (fl (1 - ref_idx) / fl (1 + ref_idx))
     let r0 := fl (q * q)
     (0 ≤ r0 ∧ r0 ≤ 1) ∧
     (r0 ≤ schlick_rounded fl cosine ref_idx ∧ schlick_rounded fl cosine ref_idx ≤ 1) ∧
     schlick_rounded fl 1 ref_idx = r0) := by
  have main :
      (let q := fl (fl (1 - ref_idx) / fl (1 + ref_idx))
       let r0 := fl (q * q)
       (0 ≤ r0 ∧ r0 ≤ 1) ∧
       (r0 ≤ schlick_rounded fl cosine ref_idx ∧ schlick_rounded fl cosine ref_idx ≤ 1) ∧
       schlick_rounded fl 1 ref_idx = r0 ∧
       schlick_rounded fl 0 ref_idx = 1) := by
    intro q r0
    have hB : 1 ≤ fl (1 + ref_idx) := by
      have := hfl (by linarith : (1 : K) ≤ 1 + ref_idx)
      rw [hfl1] at this
      exact this
    have hBpos : 0 < fl (1 + ref_idx) := by linarith
    have hAB : fl (1 - ref_idx) ≤ fl (1 + ref_idx) := hfl (by linarith)
    have hBA : -fl (1 + ref_idx) ≤ fl (1 - ref_idx) := by
      rw [← hneg]
      exact hfl (by linarith)
    have hq1 : q ≤ 1 := by
      have h : fl (1 - ref_idx) / fl (1 + ref_idx) ≤ 1 := by
        rw [div_le_one hBpos]
        exact hAB
      have := hfl h
      rw [hfl1] at this
      exact this
    have hq2 : -1 ≤ q := by
      have h : -1 ≤ fl (1 - ref_idx) / fl (1 + ref_idx) := by
        rw [le_div_iff₀ hBpos]
        linarith
      have := hfl h
      rw [hneg, hfl1] at this
      exact this
    have hr0 : 0 ≤ r0 := by
      have := hfl (mul_self_nonneg q)
      rw [hfl0] at this
      exact this
    have hr1 : r0 ≤ 1 := by
      have h : q * q ≤ 1 := by nlinarith
      have := hfl h
      rw [hfl1] at this
      exact this
    have hr0id : fl r0 = r0 := hid (q * q)
    have hb0 : 0 ≤ fl (1 - r0) := by
      have := hfl (by linarith : (0 : K) ≤ 1 - r0)
      rw [hfl0] at this
      exact this
    have hdef : ∀ c : K, schlick_rounded fl c ref_idx
        = fl (r0 + fl (fl (1 - r0) * fl (fl (1 - c) ^ 5))) := fun _ => rfl
    refine ⟨⟨hr0, hr1⟩, ⟨?_, ?_⟩, ?_, ?_⟩
    · have hw0 : 0 ≤ fl (1 - cosine) := by
        have := hfl (by linarith : (0 : K) ≤ 1 - cosine)
        rw [hfl0] at this
        exact this
      have hc : 0 ≤ fl (fl (1 - cosine) ^ 5) := by
        have := hfl (pow_nonneg hw0 5)
        rw [hfl0] at this
        exact this
      have hP : 0 ≤ fl (fl (1 - r0) * fl (fl (1 - cosine) ^ 5)) := by
        have := hfl (mul_nonneg hb0 hc)
        rw [hfl0] at this
        exact this
      rw [hdef]
      have := hfl (le_add_of_nonneg_right hP :
        r0 ≤ r0 + fl (fl (1 - r0) * fl (fl (1 - cosine) ^ 5)))
      rw [hr0id] at this
      exact this
    · have hw0 : 0 ≤ fl (1 - cosine) := by
        have := hfl (by linarith : (0 : K) ≤ 1 - cosine)
        rw [hfl0] at this
        exact this
      have hw1 : fl (1 - cosine) ≤ 1 := by
        have := hfl (by linarith : 1 - cosine ≤ (1 : K))
        rw [hfl1] at this
        exact this
      have hc1' : fl (fl (1 - cosine) ^ 5) ≤ 1 := by
        have := hfl (pow_le_one₀ hw0 hw1 : fl (1 - cosine) ^ 5 ≤ 1)
        rw [hfl1] at this
        exact this
      have hP : fl (fl (1 - r0) * fl (fl (1 - cosine) ^ 5)) ≤ fl (1 - r0) := by
        have h : fl (1 - r0) * fl (fl (1 - cosine) ^ 5) ≤ fl (1 - r0) :=
          mul_le_of_le_one_right hb0 hc1'
        have := hfl h
        rw [hid] at this
        exact this
      rw [hdef]
      exact le_trans (hfl (by linarith)) (le_of_eq (hsum r0 hr0 hr1))
    · rw [hdef, sub_self, hfl0]
      have e : (0 : K) ^ 5 = 0 := by norm_num
      rw [e, hfl0, mul_zero, hfl0, add_zero, hr0id]
    · rw [hdef, sub_zero, hfl1, one_pow, hfl1, mul_one, hid]
      exact hsum r0 hr0 hr1
  exact ⟨main.2.2.2, main.1, main.2.1, main.2.2.1⟩

end rounded_schlick_theorems

/-- Witness of C35 (amended): binary64 rounding, `cosine = 1/2` and `ref_idx = 3/2`
(glass). -/
theorem schlick_computed_is_probability_witness :
    ((0 : ℚ) ≤ 1 / 2 ∧ (1 / 2 : ℚ) ≤ 1 ∧ (0 : ℚ) ≤ 3 / 2) ∧
    (0 ≤ schlick_rounded double_round (1 / 2) (3 / 2) ∧
      schlick_rounded double_round (1 / 2) (3 / 2) ≤ 1) ∧
    schlick_rounded double_round 0 (3 / 2) = 1 := by
  have h := schlick_computed_is_probability_for_nonneg_ref_idx double_round double_round_monotone
    double_round_zero double_round_one double_round_neg double_round_idempotent
    double_round_add_one_sub (1 / 2) (3 / 2) (by norm_num) (by norm_num) (by norm_num)
  exact ⟨⟨by norm_num, by norm_num, by norm_num⟩,
    ⟨le_trans h.2.1.1 h.2.2.1.1, h.2.2.1.2⟩, h.1⟩

/-- Counterexample to C35, in binary64 arithmetic.  (a) `ref_idx = -2` is not `-1` and
`cosine = 1/2` is in `[0, 1]`; there `r0 = 9` and `schlick` is `35/4`, which is neither in
`[r0, 1]` nor a probability.  (b) `ref_idx = -1 + 2 ^ (-30)` is not `-1`, and `schlick` at
`cosine = 0` is 0, not 1.  (c) `ref_idx = 2 ^ (-60)` is positive and the computed `r0` is 1,
not below 1.  (d) `ref_idx = 3` is positive and `schlick(1, 3) = 1/4` differs from
`schlick(1, 1/3)`, with `1/3` as computed. -/
theorem schlick_not_a_probability_in_double_arithmetic :
    (((-2 : ℚ) ≠ -1 ∧ (0 : ℚ) ≤ 1 / 2 ∧ (1 / 2 : ℚ) ≤ 1) ∧
      double_round (double_round (double_round (1 - (-2)) / double_round (1 + (-2)))
        * double_round (double_round (1 - (-2)) / double_round (1 + (-2)))) = 9 ∧
      schlick_rounded double_round (1 / 2) (-2) = 35 / 4 ∧
      ¬ ((9 : ℚ) ≤ schlick_rounded double_round (1 / 2) (-2) ∧
        schlick_rounded double_round (1 / 2) (-2) ≤ 1)) ∧
    ((-1 + 1 / 2 ^ 30 : ℚ) ≠ -1 ∧
      schlick_rounded double_round 0 (-1 + 1 / 2 ^ 30) = 0) ∧
    ((0 : ℚ) < 1 / 2 ^ 60 ∧
      double_round (double_round (double_round (1 - 1 / 2 ^ 60) / double_round (1 + 1 / 2 ^ 60))
        * double_round (double_round (1 - 1 / 2 ^ 60) / double_round (1 + 1 / 2 ^ 60))) = 1) ∧
    (schlick_rounded double_round 1 3 = 1 / 4 ∧
      schlick_rounded double_round 1 (double_round (1 / 3))
        = 2251799813685249 / 9007199254740992) := by
  have hs : schlick_rounded double_round (1 / 2) (-2) = 35 / 4 := by
    norm_num [schlick_rounded, double_round_zero,
      double_round_value_3, double_round_value_0, double_round_value_82, double_round_value_75,
      double_round_value_91, double_round_value_17, double_round_value_92, double_round_value_93,
      double_round_value_94, double_round_value_95, double_round_value_96, double_round_value_97,
      double_round_value_98, double_round_value_99, double_round_value_1, double_round_value_100,
      double_round_value_101, double_round_value_102, double_round_value_4, double_round_value_5,
      double_round_value_103, double_round_value_104, double_round_value_105, double_round_value_6,
      double_round_value_106, double_round_value_16, double_round_value_107, double_round_value_108,
      double_round_value_109, double_round_value_110]
  refine ⟨⟨⟨by norm_num, by norm_num, by norm_num⟩, ?_, hs, ?_⟩, ⟨by norm_num, ?_⟩,
    ⟨by norm_num, ?_⟩, ⟨?_, ?_⟩⟩
  · norm_num [double_round_zero,
      double_round_value_3, double_round_value_0, double_round_value_82, double_round_value_75,
      double_round_value_91, double_round_value_17, double_round_value_92, double_round_value_93,
      double_round_value_94, double_round_value_95, double_round_value_96, double_round_value_97,
      double_round_value_98, double_round_value_99, double_round_value_1, double_round_value_100,
      double_round_value_101, double_round_value_102, double_round_value_4, double_round_value_5,
      double_round_value_103, double_round_value_104, double_round_value_105, double_round_value_6,
      double_round_value_106, double_round_value_16, double_round_value_107, double_round_value_108,
      double_round_value_109, double_round_value_110]
  · rw [hs]
    norm_num
  · norm_num [schlick_rounded, double_round_zero,
      double_round_value_3, double_round_value_0, double_round_value_82, double_round_value_75,
      double_round_value_91, double_round_value_17, double_round_value_92, double_round_value_93,
      double_round_value_94, double_round_value_95, double_round_value_96, double_round_value_97,
      double_round_value_98, double_round_value_99, double_round_value_1, double_round_value_100,
      double_round_value_101, double_round_value_102, double_round_value_4, double_round_value_5,
      double_round_value_103, double_round_value_104, double_round_value_105, double_round_value_6,
      double_round_value_106, double_round_value_16, double_round_value_107, double_round_value_108,
      double_round_value_109, double_round_value_110]
  · norm_num [double_round_zero,
      double_round_value_3, double_round_value_0, double_round_value_82, double_round_value_75,
      double_round_value_91, double_round_value_17, double_round_value_92, double_round_value_93,
      double_round_value_94, double_round_value_95, double_round_value_96, double_round_value_97,
      double_round_value_98, double_round_value_99, double_round_value_1, double_round_value_100,
      double_round_value_101, double_round_value_102, double_round_value_4, double_round_value_5,
      double_round_value_103, double_round_value_104, double_round_value_105, double_round_value_6,
      double_round_value_106, double_round_value_16, double_round_value_107, double_round_value_108,
      double_round_value_109, double_round_value_110]
  · norm_num [schlick_rounded, double_round_zero,
      double_round_value_3, double_round_value_0, double_round_value_82, double_round_value_75,
      double_round_value_91, double_round_value_17, double_round_value_92, double_round_value_93,
      double_round_value_94, double_round_value_95, double_round_value_96, double_round_value_97,
      double_round_value_98, double_round_value_99, double_round_value_1, double_round_value_100,
      double_round_value_101, double_round_value_102, double_round_value_4, double_round_value_5,
      double_round_value_103, double_round_value_104, double_round_value_105, double_round_value_6,
      double_round_value_106, double_round_value_16, double_round_value_107, double_round_value_108,
      double_round_value_109, double_round_value_110]
  · norm_num [schlick_rounded, double_round_zero,
      double_round_value_3, double_round_value_0, double_round_value_82, double_round_value_75,
      double_round_value_91, double_round_value_17, double_round_value_92, double_round_value_93,
      double_round_value_94, double_round_value_95, double_round_value_96, double_round_value_97,
      double_round_value_98, double_round_value_99, double_round_value_1, double_round_value_100,
      double_round_value_101, double_round_value_102, double_round_value_4, double_round_value_5,
      double_round_value_103, double_round_value_104, double_round_value_105, double_round_value_6,
      double_round_value_106, double_round_value_16, double_round_value_107, double_round_value_108,
      double_round_value_109, double_round_value_110]

section rounded_rotate_box_theorems

variable {K σ : Type} [LinearOrderedField K]

end rounded_rotate_box_theorems

section rounded_bvh_lemmas

variable {K σ : Type} [LinearOrderedField K]

/-- With the identity as rounding, the loop of `aabb::hit` in rounded arithmetic is the exact
loop. -/
theorem aabb.hit_loop_rounded_id (b : aabb K) (r : ray K) :
    ∀ (n a : Nat) (tmin tmax : K),
      b.hit_loop_rounded (fun x => x) r n a tmin tmax = b.hit_loop r n a tmin tmax := by
  intro n
  induction n with
  | zero =>
    intro a tmin tmax
    rfl
  | succ n ih =>
    intro a tmin tmax
    have e0 : b.t0_rounded (fun x => x) r a = b.t0 r a := rfl
    have e1 : b.t1_rounded (fun x => x) r a = b.t1 r a := rfl
    simp only [aabb.hit_loop_rounded, aabb.hit_loop, e0, e1, ih]

/-- In exact arithmetic the two conditions of the agreement of `bvh_node::hit` with the list
scan follow from the geometry: on pairwise disjoint spheres of positive radius, a ray without
zero direction component and an exact `sqrt`, no two spheres report the same `t`, and the
slab test succeeds on the box of every sphere that reports a hit. -/
theorem bvh_conditions_hold_in_exact_arithmetic (E : Env K σ) (ss : List (sphere K))
    (hpos : ∀ s ∈ ss, 0 < s.radius) (hdisj : ss.Pairwise sphere.disjoint) (r : ray K)
    (hdir : r.direction.x ≠ 0 ∧ r.direction.y ≠ 0 ∧ r.direction.z ≠ 0)
    (hsqrt : ∀ s ∈ ss, 0 < s.discriminant r → E.sqrt_exact_at (s.discriminant r))
    (tmin tmax time0 time1 : K) (rec : hit_record K) (st : σ) :
    (∀ a ∈ ss, ∀ b ∈ ss, (a.hit_rounded (fun x => x) E r tmin tmax rec).1 = true →
      (b.hit_rounded (fun x => x) E r tmin tmax rec).1 = true →
      (a.hit_rounded (fun x => x) E r tmin tmax rec).2.t
        = (b.hit_rounded (fun x => x) E r tmin tmax rec).2.t → a = b) ∧
    (∀ s ∈ ss, (s.hit_rounded (fun x => x) E r tmin tmax rec).1 = true →
      ∀ c, (s.hit_rounded (fun x => x) E r tmin tmax rec).2.t < c → c ≤ tmax →
        aabb.hit_rounded (fun x => x)
          (s.bounding_box_rounded (fun x => x) time0 time1 E.uninit_box).2 r tmin c = true) := by
  constructor
  · intro a ha b hb hita hitb heq
    rw [sphere.hit_rounded_id] at hita hitb heq
    rw [sphere.hit_rounded_id] at heq
    exact sphere.eq_of_same_hit E ss hpos hdisj r hsqrt tmin tmax rec a b ha hb hita hitb heq
  · intro s hs hit c hlt _
    rw [sphere.hit_rounded_id] at hit hlt
    have hbox : (s.bounding_box_rounded (fun x => x) time0 time1 E.uninit_box).2
        = ((sphere.toHittable E s).bounding_box time0 time1 E.uninit_box).2 := rfl
    rw [hbox]
    simp only [aabb.hit_rounded]
    rw [aabb.hit_loop_rounded_id]
    exact sphere.toHittable_box_sound E s r tmin tmax rec st time0 time1 E.uninit_box
      (le_of_lt (hpos s hs)) hdir (hsqrt s hs) _ c (aabb.contains_refl _) hit hlt

end rounded_bvh_lemmas

end TheRestOfYourLife
